import Mathlib

/-!
# GeometricBoundaryField (OpenFOAM-dev): construction from a dictionary and evaluation

A shallow embedding of `GeometricBoundaryField.C`.

* `readField` is embedded step by step (explicit patch names, patch groups,
  wildcard overrides, check for unset patches) over a pointer list whose slots
  are `Option`s, and returns `Except FatalError`.
* `evaluate` and `boundaryNeighbourField` are embedded as state transformers on
  a `World` that records, in order, every call issued on a patch field and on
  `Pstream`.

The collaborators whose definitions are not part of the sources at hand (the
patch catalogue lookups `findPatchID` / `findIndices`, `dictionary::found` /
`dictionary::subDict`, the run-time selection `PatchField<Type>::New`) are taken
as parameters, bundled in the structures below. `readField` takes
`dict.subDict` as it returns; `readFieldAborting` adds its abort on an entry
that is not a sub-dictionary.
-/

namespace Foam

/-- A word of OpenFOAM: a string used as a name or key. -/
abbrev word := String

/-- A label of OpenFOAM: a signed integer index; `-1` means "not found". -/
abbrev label := Int

/-- Fatal errors raised by the embedded functions. The first two are the
`FatalIOError`s of `readField`, with the patch name streamed into the message;
`indexOutOfRange` stands for an access outside a list (the range check of a
debug build); `incorrectNumberOfPatchTypes` is "Incorrect number of patch type
specifications given", with the two numbers streamed into the message;
`hangingPointer` is the dereference of a null slot of a pointer list;
`subDictAbort` is the abort raised inside `dict.subDict(keyword)` when the
dictionary has no sub-dictionary to return for the keyword. -/
inductive FatalError where
  | cannotFindCyclic (patchName : word)
  | cannotFind (patchName : word)
  | indexOutOfRange (index : label)
  | unsupportedCommsType (commsType : Int)
  | incorrectNumberOfPatchTypes (nPatches nSpecifications : Nat)
  | hangingPointer (index : Nat)
  | subDictAbort (keyword : word)
deriving DecidableEq

/-- The unresolved-patch errors of `readField`: "Cannot find patchField entry for
[cyclic] <name>". -/
def FatalError.isUnresolvedPatch : FatalError → Bool
  | .cannotFindCyclic _ => true
  | .cannotFind _ => true
  | _ => false

/-- A patch of the boundary mesh, as far as the boundary field reads it:
`name()`, `type()` and `inGroups()`. -/
structure Patch where
  name : word
  type : word
  inGroups : List word
deriving DecidableEq

/-- Modelled from the spec: the type name of the "constraint/no-data" patch kind,
`emptyPolyPatch::typeName` (emptyPolyPatch.H is not among the sources). -/
def emptyPolyPatch.typeName : word := "empty"

/-- Modelled from the spec: the type name of the "cyclic-coupled" patch kind,
`cyclicPolyPatch::typeName` (cyclicPolyPatch.H is not among the sources). -/
def cyclicPolyPatch.typeName : word := "cyclic"

/-- The boundary mesh `bmesh_`: the ordered patch list together with its two
lookups (declared in pointBoundaryMesh.H, defined elsewhere):
`findPatchID(name)` returns a patch index or `-1`; `findIndices(key, useGroups)`
returns patch indices. -/
structure BoundaryMesh where
  patches : List Patch
  findPatchID : word → label
  findIndices : word → Bool → List Nat

/-- Number of patches, `bmesh_.size()`. -/
def BoundaryMesh.size (bm : BoundaryMesh) : Nat := bm.patches.length

/-- Indexing `bmesh_[patchi]` with a label; `none` outside the list. -/
def BoundaryMesh.patch? (bm : BoundaryMesh) (patchi : label) : Option Patch :=
  if 0 ≤ patchi then bm.patches[patchi.toNat]? else none

/-- The contract of the two lookups: `findPatchID` answers `-1` or the index of a
patch that carries the name asked for, and `findIndices` answers indices of the
patch list. -/
def BoundaryMesh.valid (bm : BoundaryMesh) : Prop :=
  (∀ k : word, bm.findPatchID k = -1 ∨
      ∃ p : Patch, bm.patch? (bm.findPatchID k) = some p ∧ p.name = k) ∧
  (∀ (k : word) (g : Bool) (i : Nat), i ∈ bm.findIndices k g → i < bm.patches.length)

/-- Modelled from the spec: the patch catalogue lookups by exact name and by
group membership (pointBoundaryMesh.C is not among the sources). `findPatchID`
is the first patch with the name; `findIndices` on a literal key is that patch
followed, when groups are used, by the members of the group of that name. -/
def BoundaryMesh.ofPatches (ps : List Patch) : BoundaryMesh where
  patches := ps
  findPatchID := fun k =>
    match ps.findIdx? (fun p => p.name == k) with
    | some i => (i : Int)
    | none => -1
  findIndices := fun k useGroups =>
    let byName := (ps.findIdx? (fun p => p.name == k)).toList
    let byGroup := (List.range ps.length).filter
      (fun i => useGroups && (match ps[i]? with
        | some p => p.inGroups.contains k
        | none => false) && !byName.contains i)
    byName ++ byGroup

/-- One entry of a dictionary: its keyword, whether the keyword is a pattern
(`keyword().isPattern()`), and its sub-dictionary when `isDict()` holds
(`dictPtr = none` for a primitive entry). -/
structure entry (D : Type) where
  keyword : word
  isPattern : Bool
  dictPtr : Option D

/-- The result of `isDict()`. -/
def entry.isDict {D : Type} (e : entry D) : Bool := e.dictPtr.isSome

/-- A dictionary as `readField` uses it: the entries in declaration order and the
two keyword lookups `found(keyword)` and `subDict(keyword)`, which also search
the pattern entries. `found` reports an entry of either kind; `subDict` returns
only when the entry found is a sub-dictionary and aborts otherwise: `isDict
keyword` says whether it returns, and `subDict keyword` is what it returns
when it does. `readField` below takes `subDict` as it returns;
`readFieldAborting` is `readField` with the abort. -/
structure dictionary (D : Type) where
  entries : List (entry D)
  found : word → Bool
  isDict : word → Bool
  subDict : word → D

/-- Number of entries, `dict.size()`. -/
def dictionary.size {D : Type} (dict : dictionary D) : Nat := dict.entries.length

/-- Keys of a dictionary are unique: the invariant `readField` relies on in step 1
("there can be only one explicit patch name since is key of dictionary"). -/
def dictionary.keysDistinct {D : Type} (dict : dictionary D) : Prop :=
  (dict.entries.map (fun e => e.keyword)).Nodup

/-- Modelled from the spec: keyword lookup of a dictionary (dictionary.C is not
among the sources): the entry with exactly that keyword, else the last declared
pattern entry whose pattern matches under `regExp`. -/
def dictionary.lookupEntryPtr {D : Type} (regExp : word → word → Bool)
    (es : List (entry D)) (k : word) : Option (entry D) :=
  match es.find? (fun e => e.keyword == k) with
  | some e => some e
  | none => es.reverse.find? (fun e => e.isPattern && regExp e.keyword k)

/-- Modelled from the spec: a dictionary built from its entries, with `found`,
`isDict` and `subDict` answered by `lookupEntryPtr`: `found` holds when there
is an entry, `isDict` when that entry is a sub-dictionary. Where `isDict` is
false `subDict` aborts and has nothing to return; `fallback` only makes the
function total there. -/
def dictionary.ofEntries {D : Type} (regExp : word → word → Bool) (fallback : D)
    (es : List (entry D)) : dictionary D where
  entries := es
  found := fun k => (dictionary.lookupEntryPtr regExp es k).isSome
  isDict := fun k =>
    match dictionary.lookupEntryPtr regExp es k with
    | some e => e.isDict
    | none => false
  subDict := fun k =>
    match dictionary.lookupEntryPtr regExp es k with
    | some e => e.dictPtr.getD fallback
    | none => fallback

/-- The run-time selection table of the patch field class, `PatchField<Type>::New`:
`New patch field dict` selects from a dictionary, `NewType type patch field`
from a type name. `F` is the internal field, `D` a sub-dictionary, `PF` the
patch field. The selectors are taken as they return; an abort raised inside a
selector is not part of this embedding. -/
structure PatchFieldTable (F D PF : Type) where
  New : Patch → F → D → PF
  NewType : word → Patch → F → PF

/-- A list of owned pointers: each slot holds a pointer or is null (`none`). -/
abbrev PtrList (T : Type) := List (Option T)

/-- The pointer stored in slot `i`; `none` when the slot is null or outside the list. -/
def PtrList.ptr {T : Type} (l : PtrList T) (i : Nat) : Option T := l.getD i none

/-- The query `set(i)`: is slot `i` occupied? -/
def PtrList.isSet {T : Type} (l : PtrList T) (i : Nat) : Bool := (PtrList.ptr l i).isSome

/-- The assignment `set(i, ptr)`: store `ptr` in slot `i`, replacing what was there. -/
def PtrList.setPtr {T : Type} (l : PtrList T) (i : Nat) (ptr : T) : PtrList T :=
  List.set l i (some ptr)

/-- The call `clear()`: delete all pointers, size becomes 0. -/
def PtrList.clear {T : Type} (_l : PtrList T) : PtrList T := []

/-- The call `setSize(n)`: truncate, or extend with null pointers. -/
def PtrList.setSize {T : Type} (l : PtrList T) (n : Nat) : PtrList T :=
  l.take n ++ List.replicate (n - l.length) none

/-- The number of slots that are still empty (null pointers). -/
def PtrList.nUnset {T : Type} (l : PtrList T) : Nat := l.countP (fun x => x.isNone)

section readField

variable {F D PF : Type}

/-- Body of the loop of step 1 of `readField` (explicit patch names) for one
entry; the state is the pointer list and the counter `nUnset`. -/
def readField.explicitName (tbl : PatchFieldTable F D PF) (bm : BoundaryMesh) (field : F)
    (st : PtrList PF × label) (e : entry D) : Except FatalError (PtrList PF × label) :=
  match e.dictPtr, e.isPattern with
  | some d, false =>
    let patchi := bm.findPatchID e.keyword
    if patchi ≠ -1 then
      match bm.patch? patchi with
      | some p => .ok (PtrList.setPtr st.1 patchi.toNat (tbl.New p field d), st.2 - 1)
      | none => .error (.indexOutOfRange patchi)
    else .ok st
  | _, _ => .ok st

/-- Step 1 of `readField`: after `clear()` and `setSize(bmesh_.size())`, visit the
entries in declaration order. -/
def readField.step1 (tbl : PatchFieldTable F D PF) (bm : BoundaryMesh) (field : F)
    (dict : dictionary D) (self : PtrList PF) : Except FatalError (PtrList PF × label) :=
  dict.entries.foldlM (readField.explicitName tbl bm field)
    (PtrList.setSize (PtrList.clear self) bm.size, (bm.size : Int))

/-- Body of the inner loop of step 2: patch `patchi` of a group is given the patch
field of sub-dictionary `d` when its slot is still empty. -/
def readField.groupPatch (tbl : PatchFieldTable F D PF) (bm : BoundaryMesh) (field : F)
    (d : D) (bf : PtrList PF) (patchi : Nat) : Except FatalError (PtrList PF) :=
  if !PtrList.isSet bf patchi then
    match bm.patches[patchi]? with
    | some p => .ok (PtrList.setPtr bf patchi (tbl.New p field d))
    | none => .error (.indexOutOfRange patchi)
  else .ok bf

/-- Body of the outer loop of step 2 (patch groups) for one entry. -/
def readField.patchGroup (tbl : PatchFieldTable F D PF) (bm : BoundaryMesh) (field : F)
    (bf : PtrList PF) (e : entry D) : Except FatalError (PtrList PF) :=
  match e.dictPtr, e.isPattern with
  | some d, false =>
    (bm.findIndices e.keyword true).foldlM (readField.groupPatch tbl bm field d) bf
  | _, _ => .ok bf

/-- Step 2 of `readField`: when the dictionary is not empty, visit the entries in
reverse declaration order. -/
def readField.step2 (tbl : PatchFieldTable F D PF) (bm : BoundaryMesh) (field : F)
    (dict : dictionary D) (bf : PtrList PF) : Except FatalError (PtrList PF) :=
  if dict.size ≠ 0 then
    dict.entries.reverse.foldlM (readField.patchGroup tbl bm field) bf
  else .ok bf

/-- Body of the loop of step 3 (wildcard patch overrides) for patch `patchi`. -/
def readField.wildcardOverride (tbl : PatchFieldTable F D PF) (field : F)
    (dict : dictionary D) (bf : PtrList PF) (ip : Nat × Patch) : PtrList PF :=
  if !PtrList.isSet bf ip.1 then
    if ip.2.type = emptyPolyPatch.typeName then
      PtrList.setPtr bf ip.1 (tbl.NewType emptyPolyPatch.typeName ip.2 field)
    else
      if dict.found ip.2.name then
        PtrList.setPtr bf ip.1 (tbl.New ip.2 field (dict.subDict ip.2.name))
      else bf
  else bf

/-- Step 3 of `readField`: `forAll(bmesh_, patchi)`. -/
def readField.step3 (tbl : PatchFieldTable F D PF) (bm : BoundaryMesh) (field : F)
    (dict : dictionary D) (bf : PtrList PF) : PtrList PF :=
  bm.patches.enum.foldl (readField.wildcardOverride tbl field dict) bf

/-- Step 4 of `readField`: the first patch whose slot is still empty raises the
fatal error, with the message for cyclic patches when its type is cyclic. -/
def readField.checkUnset (bf : PtrList PF) : List (Nat × Patch) → Except FatalError Unit
  | [] => .ok ()
  | ip :: rest =>
    if !PtrList.isSet bf ip.1 then
      if ip.2.type = cyclicPolyPatch.typeName then
        .error (.cannotFindCyclic ip.2.name)
      else
        .error (.cannotFind ip.2.name)
    else readField.checkUnset bf rest

/-- The member function `readField(field, dict)`; `self` is the container before
the call and the result is the container after it. -/
def readField (tbl : PatchFieldTable F D PF) (bm : BoundaryMesh) (field : F)
    (dict : dictionary D) (self : PtrList PF) : Except FatalError (PtrList PF) :=
  match readField.step1 tbl bm field dict self with
  | .error err => .error err
  | .ok (bf1, nUnset) =>
    if nUnset = 0 then .ok bf1
    else
      match readField.step2 tbl bm field dict bf1 with
      | .error err => .error err
      | .ok bf2 =>
        match readField.checkUnset (readField.step3 tbl bm field dict bf2) bm.patches.enum with
        | .error err => .error err
        | .ok _ => .ok (readField.step3 tbl bm field dict bf2)

/-- The variant of `readField` with the early return `if (nUnset == 0) return;`
removed, for comparison with `readField`: steps 2, 3 and 4 always run after
step 1, whatever the counter says. -/
def readFieldNoEarlyReturn (tbl : PatchFieldTable F D PF) (bm : BoundaryMesh) (field : F)
    (dict : dictionary D) (self : PtrList PF) : Except FatalError (PtrList PF) :=
  match readField.step1 tbl bm field dict self with
  | .error err => .error err
  | .ok (bf1, _) =>
    match readField.step2 tbl bm field dict bf1 with
    | .error err => .error err
    | .ok bf2 =>
      match readField.checkUnset (readField.step3 tbl bm field dict bf2) bm.patches.enum with
      | .error err => .error err
      | .ok _ => .ok (readField.step3 tbl bm field dict bf2)

/-- Body of the loop of step 3 with the abort of `dict.subDict`: as
`readField.wildcardOverride`, except that the call `dict.subDict(name)` aborts
when the entry that `dict.found(name)` reported is not a sub-dictionary. -/
def readField.wildcardOverrideAborting (tbl : PatchFieldTable F D PF) (field : F)
    (dict : dictionary D) (bf : PtrList PF) (ip : Nat × Patch) : Except FatalError (PtrList PF) :=
  if !PtrList.isSet bf ip.1 then
    if ip.2.type = emptyPolyPatch.typeName then
      .ok (PtrList.setPtr bf ip.1 (tbl.NewType emptyPolyPatch.typeName ip.2 field))
    else
      if dict.found ip.2.name then
        if dict.isDict ip.2.name then
          .ok (PtrList.setPtr bf ip.1 (tbl.New ip.2 field (dict.subDict ip.2.name)))
        else .error (.subDictAbort ip.2.name)
      else .ok bf
  else .ok bf

/-- Step 3 of `readField` with the abort of `dict.subDict`: `forAll(bmesh_, patchi)`,
left at the first abort. -/
def readField.step3Aborting (tbl : PatchFieldTable F D PF) (bm : BoundaryMesh) (field : F)
    (dict : dictionary D) (bf : PtrList PF) : Except FatalError (PtrList PF) :=
  bm.patches.enum.foldlM (readField.wildcardOverrideAborting tbl field dict) bf

/-- The member function `readField(field, dict)` with the abort of `dict.subDict`
in step 3: an abort there ends the call before step 4 checks for unset
patches. Where `dict.subDict` returns for every patch that step 3 looks up,
this is `readField`. -/
def readFieldAborting (tbl : PatchFieldTable F D PF) (bm : BoundaryMesh) (field : F)
    (dict : dictionary D) (self : PtrList PF) : Except FatalError (PtrList PF) :=
  match readField.step1 tbl bm field dict self with
  | .error err => .error err
  | .ok (bf1, nUnset) =>
    if nUnset = 0 then .ok bf1
    else
      match readField.step2 tbl bm field dict bf1 with
      | .error err => .error err
      | .ok bf2 =>
        match readField.step3Aborting tbl bm field dict bf2 with
        | .error err => .error err
        | .ok bf3 =>
          match readField.checkUnset bf3 bm.patches.enum with
          | .error err => .error err
          | .ok _ => .ok bf3

/-- The constructor from a dictionary: `FieldField(bmesh.size())` followed by
`readField(field, dict)`. -/
def GeometricBoundaryField.ofDict (tbl : PatchFieldTable F D PF) (bm : BoundaryMesh)
    (field : F) (dict : dictionary D) : Except FatalError (PtrList PF) :=
  readField tbl bm field dict (List.replicate bm.size none)

end readField

/-- The communication discipline `Pstream::commsTypes`, by the integer value of the
enumeration: the three enumerators are `blocking`, `scheduled` and `nonBlocking`;
any other value is a discipline the code does not support. -/
structure commsTypes where
  code : Int
deriving DecidableEq

/-- The enumerator `Pstream::commsTypes::blocking`. -/
def commsTypes.blocking : commsTypes := ⟨0⟩

/-- The enumerator `Pstream::commsTypes::scheduled`. -/
def commsTypes.scheduled : commsTypes := ⟨1⟩

/-- The enumerator `Pstream::commsTypes::nonBlocking`. -/
def commsTypes.nonBlocking : commsTypes := ⟨2⟩

/-- The process-wide settings read from `Pstream`: `defaultCommsType` and `parRun()`. -/
structure Pstream where
  defaultCommsType : commsTypes
  parRun : Bool
deriving DecidableEq

/-- One step of the patch schedule (`lduScheduleEntry`): the patch and whether the
step initiates (`init`) or completes the exchange. -/
structure lduScheduleEntry where
  patch : Nat
  init : Bool
deriving DecidableEq

/-- A call issued by the boundary field: on the patch field of index `patchi`, or
`Pstream::waitRequests(start)`. -/
inductive Call where
  | clone (patchi : Nat)
  | updateCoeffs (patchi : Nat)
  | initEvaluate (patchi : Nat) (commsType : commsTypes)
  | evaluate (patchi : Nat) (commsType : commsTypes)
  | patchInternalField (patchi : Nat)
  | initPatchNeighbourField (patchi : Nat) (commsType : commsTypes)
  | patchNeighbourField (patchi : Nat) (commsType : commsTypes)
  | waitRequests (start : Nat)
deriving DecidableEq

/-- Is the call one of the exchange calls or the wait: `initEvaluate`, `evaluate`,
`initPatchNeighbourField`, `patchNeighbourField`, `waitRequests`? -/
def Call.isExchange : Call → Bool
  | .initEvaluate _ _ => true
  | .evaluate _ _ => true
  | .initPatchNeighbourField _ _ => true
  | .patchNeighbourField _ _ => true
  | .waitRequests _ => true
  | _ => false

/-- Is the call a `waitRequests`? -/
def Call.isWait : Call → Bool
  | .waitRequests _ => true
  | _ => false

/-- Is the call an `initEvaluate` on patch field `patchi`, whatever the discipline
passed? -/
def Call.isInitEvaluateOn (patchi : Nat) : Call → Bool
  | .initEvaluate i _ => i == patchi
  | _ => false

/-- Is the call an `evaluate` on patch field `patchi`, whatever the discipline
passed? -/
def Call.isEvaluateOn (patchi : Nat) : Call → Bool
  | .evaluate i _ => i == patchi
  | _ => false

/-- What the boundary field can observe and change outside itself: the number of
outstanding requests `Pstream::nRequests()` and the calls issued so far, oldest
first. -/
structure World where
  nRequests : Nat
  calls : List Call
deriving DecidableEq

/-- Issue a call on a patch field: it is recorded, and the requests it posts
(`posts c`, a parameter of the patch field class) become outstanding. -/
def World.issue (posts : Call → Nat) (c : Call) (w : World) : World :=
  { nRequests := w.nRequests + posts c, calls := w.calls ++ [c] }

/-- The call `Pstream::waitRequests(start)`: it is recorded, and the requests from
`start` onwards are no longer outstanding. -/
def World.waitRequests (start : Nat) (w : World) : World :=
  { nRequests := min w.nRequests start, calls := w.calls ++ [Call.waitRequests start] }

/-- The content of a slot of a container returned by `boundaryInternalField` or
`boundaryNeighbourField`: the clone of patch field `patchi`, possibly assigned
afterwards the internal or the neighbour values of that patch field. -/
inductive ResultSlot where
  | cloned (patchi : Nat)
  | internal (patchi : Nat)
  | neighbour (patchi : Nat) (commsType : commsTypes)
deriving DecidableEq

/-- The member function `evaluate()` on a container of `size` patch fields: the
world after the call and the fatal error raised, if any. -/
def GeometricBoundaryField.evaluate (ps : Pstream) (posts : Call → Nat) (size : Nat)
    (patchSchedule : List lduScheduleEntry) (w : World) : World × Option FatalError :=
  if ps.defaultCommsType = commsTypes.blocking
      ∨ ps.defaultCommsType = commsTypes.nonBlocking then
    let nReq := w.nRequests
    let w1 := (List.range size).foldl
      (fun w patchi => World.issue posts (Call.initEvaluate patchi ps.defaultCommsType) w) w
    let w2 :=
      if ps.parRun = true ∧ ps.defaultCommsType = commsTypes.nonBlocking then
        World.waitRequests nReq w1
      else w1
    let w3 := (List.range size).foldl
      (fun w patchi => World.issue posts (Call.evaluate patchi ps.defaultCommsType) w) w2
    (w3, none)
  else if ps.defaultCommsType = commsTypes.scheduled then
    (patchSchedule.foldl
      (fun w s =>
        if s.init = true then
          World.issue posts (Call.initEvaluate s.patch commsTypes.scheduled) w
        else
          World.issue posts (Call.evaluate s.patch commsTypes.scheduled) w) w, none)
  else
    (w, some (FatalError.unsupportedCommsType ps.defaultCommsType.code))

/-- The copy constructor with a new internal field, as `boundaryInternalField` and
`boundaryNeighbourField` use it: slot `patchi` of the result is the clone of
patch field `patchi`. -/
def GeometricBoundaryField.cloneAll (posts : Call → Nat) (size : Nat) (w : World) :
    World × List ResultSlot :=
  (List.range size).foldl
    (fun st patchi =>
      (World.issue posts (Call.clone patchi) st.1, st.2 ++ [ResultSlot.cloned patchi]))
    (w, [])

/-- The member function `boundaryNeighbourField()` on a container of `size` patch
fields, `coupled patchi` being the answer of `coupled()` of patch field `patchi`:
the world after the call, the container built, and the fatal error, if any. -/
def GeometricBoundaryField.boundaryNeighbourField (ps : Pstream) (posts : Call → Nat)
    (size : Nat) (coupled : Nat → Bool) (patchSchedule : List lduScheduleEntry)
    (w : World) : (World × List ResultSlot) × Option FatalError :=
  let st0 := GeometricBoundaryField.cloneAll posts size w
  if ps.defaultCommsType = commsTypes.blocking
      ∨ ps.defaultCommsType = commsTypes.nonBlocking then
    let nReq := st0.1.nRequests
    let w1 := (List.range size).foldl
      (fun w patchi =>
        if coupled patchi = true then
          World.issue posts (Call.initPatchNeighbourField patchi ps.defaultCommsType) w
        else w) st0.1
    let w2 :=
      if ps.parRun = true ∧ ps.defaultCommsType = commsTypes.nonBlocking then
        World.waitRequests nReq w1
      else w1
    ((List.range size).foldl
      (fun st patchi =>
        if coupled patchi = true then
          (World.issue posts (Call.patchNeighbourField patchi ps.defaultCommsType) st.1,
            List.set st.2 patchi (ResultSlot.neighbour patchi ps.defaultCommsType))
        else st) (w2, st0.2), none)
  else if ps.defaultCommsType = commsTypes.scheduled then
    (patchSchedule.foldl
      (fun st s =>
        if coupled s.patch = true then
          if s.init = true then
            (World.issue posts (Call.initPatchNeighbourField s.patch ps.defaultCommsType) st.1,
              st.2)
          else
            (World.issue posts (Call.patchNeighbourField s.patch ps.defaultCommsType) st.1,
              List.set st.2 s.patch (ResultSlot.neighbour s.patch ps.defaultCommsType))
        else st) st0, none)
  else
    (st0, some (FatalError.unsupportedCommsType ps.defaultCommsType.code))

/-! ## Auxiliary definitions used in the statements of the lemmas -/

section readFieldAux

variable {F D PF : Type}

/-- The slot that the body of step 1 assigns for entry `e`, if it assigns one. -/
def readField.explicitPatchID (bm : BoundaryMesh) (e : entry D) : Option Nat :=
  match e.dictPtr, e.isPattern with
  | some _, false =>
    if bm.findPatchID e.keyword ≠ -1 then some (bm.findPatchID e.keyword).toNat else none
  | _, _ => none

/-- The sub-dictionary that the body of step 2 offers to patch `j` for entry `e`, if
the entry is a non-pattern sub-dictionary whose key `findIndices` matches with
patch `j`. -/
def readField.groupDict (bm : BoundaryMesh) (j : Nat) (e : entry D) : Option D :=
  match e.dictPtr, e.isPattern with
  | some d, false => if j ∈ bm.findIndices e.keyword true then some d else none
  | _, _ => none

/-- Patch `i`, which is `p`, is left to the lookup under its own name in step 3:
(i) `findPatchID` returns it for no non-pattern sub-dictionary entry, (ii)
`findIndices` with patch groups matches it with no non-pattern sub-dictionary
entry, and (iii) it is not of the empty type. -/
def readField.leftToNameLookup (bm : BoundaryMesh) (dict : dictionary D) (i : Nat)
    (p : Patch) : Prop :=
  bm.patches[i]? = some p ∧
  (∀ e ∈ dict.entries, ∀ d, e.dictPtr = some d → e.isPattern = false →
    bm.findPatchID e.keyword ≠ (i : Int)) ∧
  (∀ e ∈ dict.entries, ∀ d, e.dictPtr = some d → e.isPattern = false →
    i ∉ bm.findIndices e.keyword true) ∧
  p.type ≠ emptyPolyPatch.typeName

/-- The patch field that the body of step 3 stores in an empty slot of patch `p`,
if it stores one. -/
def readField.wildcardPtr (tbl : PatchFieldTable F D PF) (field : F) (dict : dictionary D)
    (p : Patch) : Option PF :=
  if p.type = emptyPolyPatch.typeName then
    some (tbl.NewType emptyPolyPatch.typeName p field)
  else if dict.found p.name = true then
    some (tbl.New p field (dict.subDict p.name))
  else none

end readFieldAux

/-! ## A small case used to run the definitions -/

/-- A boundary of four patches: two of type patch in the group `openings` (one of
them also in `outflow`), a wall, and an empty patch. -/
def exampleMesh : BoundaryMesh :=
  BoundaryMesh.ofPatches
    [⟨"inlet", "patch", ["openings"]⟩, ⟨"outlet", "patch", ["openings", "outflow"]⟩,
      ⟨"walls", "wall", []⟩, ⟨"frontAndBack", "empty", []⟩]

/-- A selection table that records the patch name and the sub-dictionary or type it
was given. -/
def exampleTable : PatchFieldTable Unit word (word × word) where
  New := fun p _ d => (p.name, d)
  NewType := fun t p _ => (p.name, t)

/-- A dictionary with an entry named after patch `inlet`, two group entries and a
wildcard entry; sub-dictionaries are represented by a word. -/
def exampleDict : dictionary word :=
  dictionary.ofEntries (fun pattern _ => pattern == ".*") "none"
    [⟨"inlet", false, some "fixedValue"⟩, ⟨"openings", false, some "zeroGradient"⟩,
      ⟨"outflow", false, some "inletOutlet"⟩, ⟨".*", true, some "calculated"⟩]

/-- A dictionary without wildcard entry: patch `walls` finds no entry. -/
def exampleDictNoWildcard : dictionary word :=
  dictionary.ofEntries (fun pattern _ => pattern == ".*") "none"
    [⟨"inlet", false, some "fixedValue"⟩, ⟨"openings", false, some "zeroGradient"⟩]

/-- A boundary of four patches of which the second and the third are the two halves
of a cyclic pair and the last is a wall. -/
def exampleCyclicMesh : BoundaryMesh :=
  BoundaryMesh.ofPatches
    [⟨"inlet", "patch", []⟩, ⟨"left", "cyclic", []⟩, ⟨"right", "cyclic", []⟩,
      ⟨"walls", "wall", []⟩]

/-- A dictionary with one entry named after each of the four patches. -/
def exampleDictAllNamed : dictionary word :=
  dictionary.ofEntries (fun pattern _ => pattern == ".*") "none"
    [⟨"walls", false, some "noSlip"⟩, ⟨"inlet", false, some "fixedValue"⟩,
      ⟨"right", false, some "cyclic"⟩, ⟨"left", false, some "cyclic"⟩]

/-- A dictionary without wildcard entry in which the name of the patch `walls` is
the keyword of a primitive entry (a keyword with a value, no sub-dictionary). -/
def exampleDictPrimitiveWalls : dictionary word :=
  dictionary.ofEntries (fun pattern _ => pattern == ".*") "none"
    [⟨"inlet", false, some "fixedValue"⟩, ⟨"openings", false, some "zeroGradient"⟩,
      ⟨"walls", false, none⟩]

/-- A dictionary with an entry for the patch `inlet` only. -/
def exampleDictInlet : dictionary word :=
  dictionary.ofEntries (fun pattern _ => pattern == ".*") "none"
    [⟨"inlet", false, some "fixedValue"⟩]

/-! ## The other constructors, `updateCoeffs`, `boundaryInternalField`, `writeEntry` -/

section constructors

variable {F D PF : Type}

/-- The loop `forAll(bmesh_, patchi) { this->set(patchi, g patchi bmesh_[patchi]); }`
of the constructors, for a patch field expression `g` that cannot fail. -/
def GeometricBoundaryField.setAll (g : Nat → Patch → PF) (bm : BoundaryMesh)
    (self : PtrList PF) : PtrList PF :=
  bm.patches.enum.foldl (fun bf ip => PtrList.setPtr bf ip.1 (g ip.1 ip.2)) self

/-- The loop `forAll(bmesh_, patchi) { this->set(patchi, g patchi bmesh_[patchi]); }`
of the constructors, for a patch field expression `g` that indexes a list and may
raise a fatal error. -/
def GeometricBoundaryField.setAllM (g : Nat → Patch → Except FatalError PF)
    (bm : BoundaryMesh) (self : PtrList PF) : Except FatalError (PtrList PF) :=
  bm.patches.enum.foldlM
    (fun bf ip =>
      match g ip.1 ip.2 with
      | Except.ok pf => Except.ok (PtrList.setPtr bf ip.1 pf)
      | Except.error err => Except.error err) self

/-- The constructor from a BoundaryMesh: `FieldField(bmesh.size())`, all slots null. -/
def GeometricBoundaryField.ofBoundaryMesh (bm : BoundaryMesh) : PtrList PF :=
  List.replicate bm.size none

/-- The constructor from a BoundaryMesh, the internal field and one patch field
type: every slot is selected by that type. -/
def GeometricBoundaryField.ofType (tbl : PatchFieldTable F D PF) (bm : BoundaryMesh)
    (field : F) (patchFieldType : word) : PtrList PF :=
  GeometricBoundaryField.setAll (fun _ p => tbl.NewType patchFieldType p field) bm
    (List.replicate bm.size none)

/-- The expression `PatchField<Type>::New(patchFieldTypes[patchi], bmesh_[patchi], field)`
of the constructor from type lists. -/
def GeometricBoundaryField.ofTypes.wanted (tbl : PatchFieldTable F D PF) (field : F)
    (patchFieldTypes : List word) (patchi : Nat) (p : Patch) : Except FatalError PF :=
  match patchFieldTypes[patchi]? with
  | some t => Except.ok (tbl.NewType t p field)
  | none => Except.error (FatalError.indexOutOfRange (patchi : Int))

/-- The expression `PatchField<Type>::New(patchFieldTypes[patchi],
constraintTypes[patchi], bmesh_[patchi], field)` of the constructor from type
lists; `NewActual` is that selector. -/
def GeometricBoundaryField.ofTypes.actual (NewActual : word → word → Patch → F → PF)
    (field : F) (patchFieldTypes constraintTypes : List word) (patchi : Nat) (p : Patch) :
    Except FatalError PF :=
  match patchFieldTypes[patchi]?, constraintTypes[patchi]? with
  | some t, some c => Except.ok (NewActual t c p field)
  | _, _ => Except.error (FatalError.indexOutOfRange (patchi : Int))

/-- The constructor from a BoundaryMesh, the internal field, a list of patch field
types and, optionally, the list of actual patch types. -/
def GeometricBoundaryField.ofTypes (tbl : PatchFieldTable F D PF)
    (NewActual : word → word → Patch → F → PF) (bm : BoundaryMesh) (field : F)
    (patchFieldTypes constraintTypes : List word) : Except FatalError (PtrList PF) :=
  if patchFieldTypes.length ≠ (List.replicate bm.size (none : Option PF)).length
      ∨ (constraintTypes.length ≠ 0
        ∧ constraintTypes.length ≠ (List.replicate bm.size (none : Option PF)).length) then
    Except.error (FatalError.incorrectNumberOfPatchTypes bm.size patchFieldTypes.length)
  else if constraintTypes.length ≠ 0 then
    GeometricBoundaryField.setAllM
      (GeometricBoundaryField.ofTypes.actual NewActual field patchFieldTypes constraintTypes)
      bm (List.replicate bm.size none)
  else
    GeometricBoundaryField.setAllM
      (GeometricBoundaryField.ofTypes.wanted tbl field patchFieldTypes)
      bm (List.replicate bm.size none)

/-- The expression `ptfl[patchi].clone(field)`: indexing a pointer list and cloning
the patch field found; `clone` is the member function of the patch field class. -/
def PtrList.cloneAt (clone : PF → F → PF) (field : F) (ptfl : PtrList PF) (patchi : Nat) :
    Except FatalError PF :=
  match ptfl[patchi]? with
  | none => Except.error (FatalError.indexOutOfRange (patchi : Int))
  | some none => Except.error (FatalError.hangingPointer patchi)
  | some (some pf) => Except.ok (clone pf field)

/-- The constructor from a BoundaryMesh, the internal field and a pointer list of
patch fields: slot `patchi` is the clone of `ptfl[patchi]`. -/
def GeometricBoundaryField.ofPtrList (clone : PF → F → PF) (bm : BoundaryMesh) (field : F)
    (ptfl : PtrList PF) : Except FatalError (PtrList PF) :=
  GeometricBoundaryField.setAllM (fun patchi _ => PtrList.cloneAt clone field ptfl patchi)
    bm (List.replicate bm.size none)

/-- The constructor as copy setting the reference to the internal field:
`FieldField(btf.size())`, `bmesh_(btf.bmesh_)`, slot `patchi` the clone of
`btf[patchi]`; `bm` is the boundary mesh that `btf` references. -/
def GeometricBoundaryField.ofCopy (clone : PF → F → PF) (bm : BoundaryMesh) (field : F)
    (btf : PtrList PF) : Except FatalError (PtrList PF) :=
  GeometricBoundaryField.setAllM (fun patchi _ => PtrList.cloneAt clone field btf patchi)
    bm (List.replicate btf.length none)

end constructors

/-- The member function `updateCoeffs()` on a container of `size` patch fields. The
process-wide settings and the patch schedule are within reach of the function,
which reads neither. -/
def GeometricBoundaryField.updateCoeffs (_ps : Pstream) (posts : Call → Nat) (size : Nat)
    (_patchSchedule : List lduScheduleEntry) (w : World) : World × Option FatalError :=
  ((List.range size).foldl
    (fun w patchi => World.issue posts (Call.updateCoeffs patchi) w) w, none)

/-- The member function `boundaryInternalField()` on a container of `size` patch
fields: the copy with the null internal field, then the forced assignment
`result[patchi] == this->operator[](patchi).patchInternalField()` for every
patch. The process-wide settings and the patch schedule are within reach of the
function, which reads neither. -/
def GeometricBoundaryField.boundaryInternalField (_ps : Pstream) (posts : Call → Nat)
    (size : Nat) (_patchSchedule : List lduScheduleEntry) (w : World) :
    (World × List ResultSlot) × Option FatalError :=
  ((List.range size).foldl
    (fun st patchi =>
      (World.issue posts (Call.patchInternalField patchi) st.1,
        List.set st.2 patchi (ResultSlot.internal patchi)))
    (GeometricBoundaryField.cloneAll posts size w), none)

/-- What `writeEntry` sends to the output stream: words, the stream manipulators,
the block delimiters, and the output of patch field `patchi` (`os << this->operator[](patchi)`). -/
inductive Token where
  | word (w : word)
  | nl
  | endl
  | indent
  | incrIndent
  | decrIndent
  | beginBlock
  | endBlock
  | patchField (patchi : Nat)
deriving DecidableEq

/-- The block written by `writeEntry` for patch field `patchi`, whose patch has the
name `name`. -/
def GeometricBoundaryField.writeEntry.block (name : word) (patchi : Nat) : List Token :=
  [Token.indent, Token.word name, Token.nl,
    Token.indent, Token.beginBlock, Token.nl,
    Token.incrIndent, Token.patchField patchi, Token.decrIndent,
    Token.indent, Token.endBlock, Token.endl]

/-- The member function `writeEntry(keyword, os)` on a container of `size` patch
fields, `patchName patchi` being `this->operator[](patchi).patch().name()`; the
stream is the list of what has been written, oldest first. -/
def GeometricBoundaryField.writeEntry (size : Nat) (patchName : Nat → word) (keyword : word)
    (os : List Token) : List Token :=
  (List.range size).foldl
    (fun os patchi => os ++ GeometricBoundaryField.writeEntry.block (patchName patchi) patchi)
    (os ++ [Token.word keyword, Token.nl, Token.beginBlock, Token.incrIndent, Token.nl])
  ++ [Token.decrIndent, Token.endBlock, Token.endl]

/-- The containers that the constructors and `readField` produce for the boundary
mesh `bm`: from the boundary mesh alone, from one type, from type lists, from a
pointer list, as a copy of such a container with a new internal field, from a
dictionary, and by `readField` on any container. -/
inductive GeometricBoundaryField.Constructed {F D PF : Type} (tbl : PatchFieldTable F D PF)
    (NewActual : word → word → Patch → F → PF) (clone : PF → F → PF) (bm : BoundaryMesh) :
    PtrList PF → Prop where
  | ofBoundaryMesh :
      GeometricBoundaryField.Constructed tbl NewActual clone bm
        (GeometricBoundaryField.ofBoundaryMesh bm)
  | ofType (field : F) (patchFieldType : word) :
      GeometricBoundaryField.Constructed tbl NewActual clone bm
        (GeometricBoundaryField.ofType tbl bm field patchFieldType)
  | ofTypes (field : F) (patchFieldTypes constraintTypes : List word) (bf : PtrList PF) :
      GeometricBoundaryField.ofTypes tbl NewActual bm field patchFieldTypes constraintTypes
        = Except.ok bf →
      GeometricBoundaryField.Constructed tbl NewActual clone bm bf
  | ofPtrList (field : F) (ptfl bf : PtrList PF) :
      GeometricBoundaryField.ofPtrList clone bm field ptfl = Except.ok bf →
      GeometricBoundaryField.Constructed tbl NewActual clone bm bf
  | ofCopy (field : F) (btf bf : PtrList PF) :
      GeometricBoundaryField.Constructed tbl NewActual clone bm btf →
      GeometricBoundaryField.ofCopy clone bm field btf = Except.ok bf →
      GeometricBoundaryField.Constructed tbl NewActual clone bm bf
  | ofDict (field : F) (dict : dictionary D) (bf : PtrList PF) :
      GeometricBoundaryField.ofDict tbl bm field dict = Except.ok bf →
      GeometricBoundaryField.Constructed tbl NewActual clone bm bf
  | readField (field : F) (dict : dictionary D) (self bf : PtrList PF) :
      Foam.readField tbl bm field dict self = Except.ok bf →
      GeometricBoundaryField.Constructed tbl NewActual clone bm bf

/-! ## The utility `removeFaces` -/

/-- The map returned by `polyTopoChange::changeMesh`, as far as `main` reads it:
`hasMotionPoints()` and `preMotionPoints()`. -/
structure polyTopoChangeMap (Pts : Type) where
  hasMotionPoints : Bool
  preMotionPoints : Pts
deriving DecidableEq

/-- The three lists that `removeFaces::compatibleRemoves` fills for its caller. -/
structure compatibleRemovesOutput where
  cellRegion : List label
  cellRegionMaster : List label
  facesToRemove : List label
deriving DecidableEq

/-- The calls `main` of the utility makes on the mesh, the face remover, the face
sets and the time, in the order made. -/
inductive UtilityCall (Pts : Type) where
  | faceSetRead (name : word)
  | compatibleRemoves (candidates : List label)
  | faceSetWrite (name : word) (faces : List label)
  | readFields (fields : Bool)
  | setRefinement (facesToRemove cellRegion cellRegionMaster : List label)
  | changeMesh
  | meshTopoChange
  | movePoints (points : Pts)
  | removerTopoChange
  | runTimeIncrement
  | setInstance (oldInstance : word)
  | meshWrite
deriving DecidableEq

/-- Is the call `faceRemover.setRefinement(...)`? -/
def UtilityCall.isSetRefinement {Pts : Type} : UtilityCall Pts → Bool
  | .setRefinement _ _ _ => true
  | _ => false

/-- Is the call the `write()` of a face set? -/
def UtilityCall.isFaceSetWrite {Pts : Type} : UtilityCall Pts → Bool
  | .faceSetWrite _ _ => true
  | _ => false

/-- Is the call one of `mesh.topoChange(map)`, `mesh.movePoints(...)`,
`faceRemover.topoChange(map)`? -/
def UtilityCall.isMapUpdate {Pts : Type} : UtilityCall Pts → Bool
  | .meshTopoChange => true
  | .movePoints _ => true
  | .removerTopoChange => true
  | _ => false

/-- Is the call `mesh.movePoints(...)`? -/
def UtilityCall.isMovePoints {Pts : Type} : UtilityCall Pts → Bool
  | .movePoints _ => true
  | _ => false

/-- The function `main` of the utility: the calls made and the value returned.
`overwrite` and `fields` are the two options, `setName` the argument,
`candidates` the content of the face set read, `oldInstance` the points
instance of the mesh; `compatibleRemoves` (of the face remover) and `changeMesh`
(of the topology change, as a function of what `setRefinement` inserted) are
the collaborators. Messages written to `Pout` and `Info` are left out. -/
def main {Pts : Type} (overwrite fields : Bool) (setName oldInstance : word)
    (candidates : List label) (compatibleRemoves : List label → compatibleRemovesOutput)
    (changeMesh : List label → List label → List label → polyTopoChangeMap Pts) :
    List (UtilityCall Pts) × Int :=
  let log1 : List (UtilityCall Pts) := [UtilityCall.faceSetRead setName]
  let out := compatibleRemoves candidates
  let log2 := log1 ++ [UtilityCall.compatibleRemoves candidates]
  let log3 := log2 ++ [UtilityCall.faceSetWrite "compatibleRemoves" out.facesToRemove]
  let log4 := log3 ++ [UtilityCall.readFields fields]
  let log5 := log4
    ++ [UtilityCall.setRefinement out.facesToRemove out.cellRegion out.cellRegionMaster]
  let map := changeMesh out.facesToRemove out.cellRegion out.cellRegionMaster
  let log6 := log5 ++ [UtilityCall.changeMesh]
  let log7 := log6 ++ [UtilityCall.meshTopoChange]
  let log8 := if map.hasMotionPoints = true then
      log7 ++ [UtilityCall.movePoints map.preMotionPoints]
    else log7
  let log9 := log8 ++ [UtilityCall.removerTopoChange]
  let log10 := if overwrite = false then
      log9 ++ [UtilityCall.runTimeIncrement]
    else log9 ++ [UtilityCall.setInstance oldInstance]
  (log10 ++ [UtilityCall.meshWrite], 0)

/-! ## The Face-Removal Resolver, from the specification -/

/-- Modelled from the spec: the mesh face-cell adjacency that the Face-Removal
Resolver consumes (the mesh classes are not among the sources): the number of
cells and, for every face, its owner cell and, for an internal face, the cell on
its other side. -/
structure faceCellAdjacency where
  nCells : Nat
  faceCells : List (Nat × Option Nat)
deriving DecidableEq

/-- Modelled from the spec: the two cells of "an internal face between two cells";
`none` for a boundary face and for an index that is no face. -/
def faceCellAdjacency.internalFace (mesh : faceCellAdjacency) (facei : Nat) :
    Option (Nat × Nat) :=
  match mesh.faceCells[facei]? with
  | some (own, some nei) => some (own, nei)
  | _ => none

/-- Modelled from the spec: a removed face is "an edge contracting those two cells
into one region": the regions of the two cells become one, which keeps the
lower of the two ids. -/
def removeFaces.mergeCells (cellRegion : List Nat) (own nei : Nat) : List Nat :=
  cellRegion.map (fun r =>
    if r = max (cellRegion.getD own own) (cellRegion.getD nei nei) then
      min (cellRegion.getD own own) (cellRegion.getD nei nei)
    else r)

/-- Modelled from the spec: "build connected components over the
candidate-removal-edge graph restricted to cells; each component becomes one
region" (`removeFaces.C` of the mesh library is not among the sources). Every
cell starts as its own region, named by its index, and every removed internal
face contracts its two cells; the id of a region is its lowest cell. -/
def removeFaces.cellRegions (mesh : faceCellAdjacency) (faces : List Nat) : List Nat :=
  faces.foldl
    (fun cellRegion facei =>
      match mesh.internalFace facei with
      | some (own, nei) => removeFaces.mergeCells cellRegion own nei
      | none => cellRegion)
    (List.range mesh.nCells)

/-- Modelled from the spec: "pick one cell per region as master (deterministic,
lowest-index)": the cells that carry the id of their own region. -/
def removeFaces.regionMasters (mesh : faceCellAdjacency) (cellRegion : List Nat) : List Nat :=
  (List.range mesh.nCells).filter (fun celli => cellRegion.getD celli celli = celli)

/-- Modelled from the spec: the two different regions that face `facei` connects,
lower id first; `none` when the face is not internal or lies inside one
region. -/
def removeFaces.connects (mesh : faceCellAdjacency) (cellRegion : List Nat) (facei : Nat) :
    Option (Nat × Nat) :=
  match mesh.internalFace facei with
  | some (own, nei) =>
    if cellRegion.getD own own = cellRegion.getD nei nei then none
    else some (min (cellRegion.getD own own) (cellRegion.getD nei nei),
      max (cellRegion.getD own own) (cellRegion.getD nei nei))
  | none => none

/-- Modelled from the spec: two cells are joined by the removed `faces`: a chain of
removed internal faces leads from the one to the other ("every face directly
or transitively connecting them (through other removed faces)"). -/
def removeFaces.joined (mesh : faceCellAdjacency) (faces : List Nat) : Nat → Nat → Prop :=
  Relation.EqvGen (fun a b => ∃ f ∈ faces, mesh.internalFace f = some (a, b))

/-- Modelled from the spec: removing `faces` "would leave two different regions
connected by more than one surviving face". -/
def removeFaces.multiplyConnected (mesh : faceCellAdjacency) (faces : List Nat) : Bool :=
  (List.range mesh.faceCells.length).any (fun f =>
    (List.range mesh.faceCells.length).any (fun g =>
      decide (f ≠ g) && !faces.contains f && !faces.contains g
        && (removeFaces.connects mesh (removeFaces.cellRegions mesh faces) f).isSome
        && decide (removeFaces.connects mesh (removeFaces.cellRegions mesh faces) f
            = removeFaces.connects mesh (removeFaces.cellRegions mesh faces) g)))

/-- Modelled from the spec: the compatibility of a set of faces to remove. A
candidate is "downgraded from removed to kept if removing it (together with
everything already accepted) would leave two different regions connected by
more than one surviving face, or would attempt to remove a boundary face, or
would disconnect a region into a topologically invalid cell shape": a set is
compatible when none of this happens if all its faces are removed together;
`validShape` is the external geometric validity check. -/
def removeFaces.compatible (mesh : faceCellAdjacency) (validShape : List Nat → Bool)
    (faces : List Nat) : Bool :=
  faces.all (fun facei => (mesh.internalFace facei).isSome)
    && !removeFaces.multiplyConnected mesh faces
    && validShape faces

/-- Modelled from the spec: "the resolver iterates/stabilizes until no further face
needs downgrading", returning "the maximal compatible subset" and removing "the
minimal subset avoiding the duplicate". Each round has one candidate fewer
still removed than the round before: the round with `k` faces still removed
looks for a compatible way of keeping `k` candidates removed and returns the
first it finds, earlier candidates being kept removed in preference to later
ones; the first round is the whole candidate list. "If no face qualifies,
return empty sets." -/
def removeFaces.stabilise (mesh : faceCellAdjacency) (validShape : List Nat → Bool)
    (candidates : List Nat) : Nat → List Nat
  | 0 => []
  | k + 1 =>
    match (List.sublistsLen (k + 1) candidates).reverse.find?
        (removeFaces.compatible mesh validShape) with
    | some faces => faces
    | none => removeFaces.stabilise mesh validShape candidates k

/-- Modelled from the spec: the output of the Face-Removal Resolver: "(a) a
compatible subset of those faces guaranteed to actually be removed, (b) a region
id per cell, (c) a master cell id per region". -/
structure ResolverOutput where
  compatibleFaces : List Nat
  cellRegions : List Nat
  regionMasters : List Nat
deriving DecidableEq

/-- Modelled from the spec: `compatibleRemoves(candidates)` of the Face-Removal
Resolver (`removeFaces::compatibleRemoves` is declared and defined in the mesh
library, which is not among the sources): the faces that the rounds settle on,
starting from the whole candidate list, the regions that result from removing
them and the masters of these regions. -/
def removeFaces.compatibleRemoves (mesh : faceCellAdjacency) (validShape : List Nat → Bool)
    (candidates : List Nat) : ResolverOutput where
  compatibleFaces := removeFaces.stabilise mesh validShape candidates candidates.length
  cellRegions := removeFaces.cellRegions mesh
    (removeFaces.stabilise mesh validShape candidates candidates.length)
  regionMasters := removeFaces.regionMasters mesh (removeFaces.cellRegions mesh
    (removeFaces.stabilise mesh validShape candidates candidates.length))

/-- The adjacency of a block of 2 x 2 x 2 cells: cell `x + 2 y + 4 z`, the twelve
internal faces first (four across x, four across y, four across z), then one
boundary face per cell. -/
def cubeAdjacency : faceCellAdjacency where
  nCells := 8
  faceCells :=
    [(0, some 1), (2, some 3), (4, some 5), (6, some 7),
      (0, some 2), (1, some 3), (4, some 6), (5, some 7),
      (0, some 4), (1, some 5), (2, some 6), (3, some 7),
      (0, none), (1, none), (2, none), (3, none), (4, none), (5, none), (6, none), (7, none)]

/-- The adjacency of three cells around an edge, each two of them sharing a face:
faces 0 (cells 0, 1), 1 (cells 1, 2), 2 (cells 0, 2), then one boundary face per
cell. -/
def wedgeAdjacency : faceCellAdjacency where
  nCells := 3
  faceCells := [(0, some 1), (1, some 2), (0, some 2), (0, none), (1, none), (2, none)]

/-! ## `readField`: lemmas on the four steps -/

section readFieldLemmas

variable {F D PF : Type} {T : Type}

theorem PtrList.ptr_eq_none_of_length_le (l : PtrList T) (j : Nat) (h : l.length ≤ j) :
    PtrList.ptr l j = none := by
  simp [PtrList.ptr, List.getD_eq_getElem?_getD, List.getElem?_eq_none h]

theorem PtrList.lt_length_of_ptr (l : PtrList T) (j : Nat) (x : T)
    (h : PtrList.ptr l j = some x) : j < l.length := by
  by_contra hc
  rw [PtrList.ptr_eq_none_of_length_le l j (by omega)] at h
  cases h

theorem PtrList.ptr_setPtr (l : PtrList T) (i j : Nat) (x : T) :
    PtrList.ptr (PtrList.setPtr l i x) j
      = if i = j ∧ i < l.length then some x else PtrList.ptr l j := by
  unfold PtrList.ptr PtrList.setPtr
  rw [List.getD_eq_getElem?_getD, List.getD_eq_getElem?_getD, List.getElem?_set]
  by_cases hij : i = j
  · subst hij
    by_cases hl : i < l.length
    · simp [hl]
    · simp [hl, List.getElem?_eq_none (Nat.le_of_not_lt hl)]
  · simp [hij]

theorem PtrList.length_setPtr (l : PtrList T) (i : Nat) (x : T) :
    (PtrList.setPtr l i x).length = l.length := by
  simp [PtrList.setPtr]

theorem PtrList.setSize_clear (l : PtrList T) (n : Nat) :
    PtrList.setSize (PtrList.clear l) n = List.replicate n none := by
  simp [PtrList.setSize, PtrList.clear]

theorem PtrList.ptr_replicate_none (n j : Nat) :
    PtrList.ptr (List.replicate n (none : Option T)) j = none := by
  unfold PtrList.ptr
  rw [List.getD_eq_getElem?_getD, List.getElem?_replicate]
  by_cases h : j < n <;> simp [h]

theorem PtrList.isSet_iff (l : PtrList T) (j : Nat) :
    PtrList.isSet l j = true ↔ ∃ x, PtrList.ptr l j = some x := by
  unfold PtrList.isSet
  rw [Option.isSome_iff_exists]

theorem PtrList.isSet_eq_false_iff (l : PtrList T) (j : Nat) :
    PtrList.isSet l j = false ↔ PtrList.ptr l j = none := by
  unfold PtrList.isSet
  cases PtrList.ptr l j <;> simp

theorem BoundaryMesh.patch?_eq_some (bm : BoundaryMesh) (patchi : label) (p : Patch)
    (h : bm.patch? patchi = some p) :
    0 ≤ patchi ∧ bm.patches[patchi.toNat]? = some p ∧ patchi.toNat < bm.patches.length
      ∧ ((patchi.toNat : Nat) : Int) = patchi := by
  unfold BoundaryMesh.patch? at h
  by_cases h0 : 0 ≤ patchi
  · rw [if_pos h0] at h
    refine ⟨h0, h, ?_, Int.toNat_of_nonneg h0⟩
    by_contra hc
    rw [List.getElem?_eq_none (Nat.le_of_not_lt hc)] at h
    cases h
  · rw [if_neg h0] at h
    cases h

theorem BoundaryMesh.patch?_natCast (bm : BoundaryMesh) (j : Nat) :
    bm.patch? (j : Int) = bm.patches[j]? := by
  simp [BoundaryMesh.patch?]

theorem foldlM_cons_ok {ε α β : Type} (f : β → α → Except ε β) (a : α) (l : List α)
    (s s' : β) :
    (a :: l).foldlM f s = Except.ok s' ↔ ∃ s1, f s a = Except.ok s1 ∧ l.foldlM f s1 = Except.ok s' := by
  rw [List.foldlM_cons]
  cases h : f s a with
  | error err => simp [bind, Except.bind]
  | ok s1 => simp [bind, Except.bind]

theorem foldlM_append_ok {ε α β : Type} (f : β → α → Except ε β) (l1 l2 : List α)
    (s s' : β) :
    (l1 ++ l2).foldlM f s = Except.ok s'
      ↔ ∃ s1, l1.foldlM f s = Except.ok s1 ∧ l2.foldlM f s1 = Except.ok s' := by
  induction l1 generalizing s with
  | nil => simp [pure, Except.pure]
  | cons a l ih =>
    rw [List.cons_append, foldlM_cons_ok]
    constructor
    · rintro ⟨s1, h1, h2⟩
      obtain ⟨s2, h3, h4⟩ := (ih s1).1 h2
      exact ⟨s2, (foldlM_cons_ok f a l s s2).2 ⟨s1, h1, h3⟩, h4⟩
    · rintro ⟨s2, h3, h4⟩
      obtain ⟨s1, h1, h2⟩ := (foldlM_cons_ok f a l s s2).1 h3
      exact ⟨s1, h1, (ih s1).2 ⟨s2, h2, h4⟩⟩

theorem foldlM_nil_ok {ε α β : Type} (f : β → α → Except ε β) (s s' : β) :
    ([] : List α).foldlM f s = Except.ok s' ↔ s = s' := by
  simp [pure, Except.pure]

/-- what one pass of the body of step 1 does -/
theorem readField.explicitName_ok (tbl : PatchFieldTable F D PF) (bm : BoundaryMesh) (field : F)
    (st st' : PtrList PF × label) (e : entry D)
    (h : readField.explicitName tbl bm field st e = Except.ok st') :
    (readField.explicitPatchID bm e = none ∧ st' = st) ∨
    (∃ (j : Nat) (p : Patch) (d : D), readField.explicitPatchID bm e = some j ∧
      e.dictPtr = some d ∧ e.isPattern = false ∧ bm.findPatchID e.keyword = (j : Int) ∧
      bm.patches[j]? = some p ∧ st' = (PtrList.setPtr st.1 j (tbl.New p field d), st.2 - 1)) := by
  unfold readField.explicitName at h
  unfold readField.explicitPatchID
  cases hd : e.dictPtr with
  | none =>
    simp only [hd] at h ⊢
    left
    exact ⟨by trivial, by cases h; rfl⟩
  | some d =>
    cases hp : e.isPattern with
    | true =>
      simp only [hd, hp] at h ⊢
      left
      exact ⟨by trivial, by cases h; rfl⟩
    | false =>
      simp only [hd, hp] at h ⊢
      by_cases hf : bm.findPatchID e.keyword ≠ -1
      · rw [if_pos hf] at h
        rw [if_pos hf]
        cases hq : bm.patch? (bm.findPatchID e.keyword) with
        | none => simp [hq] at h
        | some p =>
          simp only [hq] at h
          obtain ⟨h0, h1, h2, h3⟩ := BoundaryMesh.patch?_eq_some bm _ p hq
          right
          refine ⟨_, p, d, by trivial, by trivial, by trivial, h3.symm, h1, ?_⟩
          cases h
          rfl
      · rw [if_neg hf] at h
        rw [if_neg hf]
        left
        exact ⟨by trivial, by cases h; rfl⟩

theorem nodup_bounded_length (l : List Nat) (n : Nat) (hn : l.Nodup) (hb : ∀ j ∈ l, j < n) :
    l.length ≤ n ∧ (n ≤ l.length → ∀ j, j < n → j ∈ l) := by
  have hsub : l ⊆ List.range n := fun j hj => List.mem_range.2 (hb j hj)
  have hsp : l.Subperm (List.range n) := List.subperm_of_subset hn hsub
  have hle : l.length ≤ n := by simpa using hsp.length_le
  refine ⟨hle, fun hge j hj => ?_⟩
  have hperm : l.Perm (List.range n) := hsp.perm_of_length_le (by simpa using hge)
  exact hperm.mem_iff.2 (List.mem_range.2 hj)

theorem readField.explicitPatchID_of_hit (bm : BoundaryMesh) (e : entry D) (d : D) (j : Nat)
    (hd : e.dictPtr = some d) (hp : e.isPattern = false)
    (hf : bm.findPatchID e.keyword = (j : Int)) :
    readField.explicitPatchID bm e = some j := by
  unfold readField.explicitPatchID
  simp only [hd, hp, hf]
  have : ((j : Int) ≠ -1) := by omega
  simp [this]

theorem readField.hit_of_explicitPatchID (bm : BoundaryMesh) (hv : bm.valid) (e : entry D)
    (j : Nat) (h : readField.explicitPatchID bm e = some j) :
    ∃ (d : D) (p : Patch), e.dictPtr = some d ∧ e.isPattern = false ∧
      bm.findPatchID e.keyword = (j : Int) ∧ bm.patches[j]? = some p ∧ p.name = e.keyword := by
  unfold readField.explicitPatchID at h
  cases hd : e.dictPtr with
  | none => simp [hd] at h
  | some d =>
    cases hp : e.isPattern with
    | true => simp [hd, hp] at h
    | false =>
      simp only [hd, hp] at h
      by_cases hf : bm.findPatchID e.keyword ≠ -1
      · rw [if_pos hf] at h
        rcases hv.1 e.keyword with h1 | ⟨p, hq, hname⟩
        · exact absurd h1 hf
        · obtain ⟨h0, h1, h2, h3⟩ := BoundaryMesh.patch?_eq_some bm _ p hq
          have hj : (bm.findPatchID e.keyword).toNat = j := by simpa using h
          rw [hj] at h1 h3
          exact ⟨d, p, rfl, rfl, h3.symm, h1, hname⟩
      · rw [if_neg hf] at h
        cases h

theorem readField.explicitPatchID_nodup (bm : BoundaryMesh) (hv : bm.valid) (es : List (entry D))
    (hk : (es.map (fun e => e.keyword)).Nodup) :
    (es.filterMap (readField.explicitPatchID bm)).Nodup := by
  induction es with
  | nil => simp
  | cons e es ih =>
    rw [List.map_cons, List.nodup_cons] at hk
    cases hj : readField.explicitPatchID bm e with
    | none =>
      rw [List.filterMap_cons_none hj]
      exact ih hk.2
    | some j =>
      rw [List.filterMap_cons_some hj, List.nodup_cons]
      refine ⟨fun hmem => ?_, ih hk.2⟩
      obtain ⟨e', he', hj'⟩ := List.mem_filterMap.1 hmem
      obtain ⟨_, p, _, _, _, hp, hn⟩ := readField.hit_of_explicitPatchID bm hv e j hj
      obtain ⟨_, p', _, _, _, hp', hn'⟩ := readField.hit_of_explicitPatchID bm hv e' j hj'
      have hpp : p = p' := by
        rw [hp] at hp'
        exact Option.some.inj hp'
      apply hk.1
      rw [← hn, hpp, hn']
      exact List.mem_map.2 ⟨e', he', rfl⟩

theorem readField.step1_fold (tbl : PatchFieldTable F D PF) (bm : BoundaryMesh) (field : F)
    (es : List (entry D)) (st st' : PtrList PF × label)
    (h : es.foldlM (readField.explicitName tbl bm field) st = Except.ok st') :
    st'.1.length = st.1.length ∧
    st'.2 = st.2 - ((es.filterMap (readField.explicitPatchID bm)).length : Int) ∧
    (∀ j ∈ es.filterMap (readField.explicitPatchID bm), j < bm.patches.length) ∧
    (∀ j, j ∉ es.filterMap (readField.explicitPatchID bm) →
      PtrList.ptr st'.1 j = PtrList.ptr st.1 j) ∧
    (∀ j, PtrList.isSet st.1 j = true → PtrList.isSet st'.1 j = true) ∧
    (st.1.length = bm.patches.length →
      ∀ j ∈ es.filterMap (readField.explicitPatchID bm), PtrList.isSet st'.1 j = true) := by
  induction es generalizing st with
  | nil =>
    have := (foldlM_nil_ok _ st st').1 h
    subst this
    simp
  | cons e es ih =>
    obtain ⟨s1, h1, h2⟩ := (foldlM_cons_ok _ e es st st').1 h
    obtain ⟨i1, i2, i3, i4, i5, i6⟩ := ih s1 h2
    rcases readField.explicitName_ok tbl bm field st s1 e h1 with ⟨hn, hs⟩ | ⟨j, p, d, hj, hd, hp, hf, hq, hs⟩
    · subst hs
      rw [List.filterMap_cons_none hn]
      exact ⟨i1, i2, i3, i4, i5, i6⟩
    · rw [List.filterMap_cons_some hj]
      have hjlt : j < bm.patches.length := by
        by_contra hc
        rw [List.getElem?_eq_none (Nat.le_of_not_lt hc)] at hq
        cases hq
      have hlen1 : s1.1.length = st.1.length := by rw [hs]; exact PtrList.length_setPtr _ _ _
      have hset : ∀ k, PtrList.isSet st.1 k = true → PtrList.isSet s1.1 k = true := by
        intro k hk
        rw [PtrList.isSet_iff] at hk ⊢
        obtain ⟨x, hx⟩ := hk
        rw [hs]
        simp only [PtrList.ptr_setPtr]
        by_cases hc : j = k ∧ j < st.1.length
        · exact ⟨_, if_pos hc⟩
        · exact ⟨x, by rw [if_neg hc]; exact hx⟩
      refine ⟨by rw [i1, hlen1], ?_, ?_, ?_, ?_, ?_⟩
      · rw [i2, hs]
        simp only [List.length_cons]
        push_cast
        ring
      · intro k hk
        rcases List.mem_cons.1 hk with hk | hk
        · rw [hk]; exact hjlt
        · exact i3 k hk
      · intro k hk
        rw [List.mem_cons, not_or] at hk
        rw [i4 k hk.2, hs]
        simp only [PtrList.ptr_setPtr]
        rw [if_neg]
        exact fun hc => hk.1 hc.1.symm
      · exact fun k hk => i5 k (hset k hk)
      · intro hlen k hk
        rcases List.mem_cons.1 hk with hk | hk
        · apply i5
          rw [PtrList.isSet_iff, hs, hk]
          simp only [PtrList.ptr_setPtr]
          exact ⟨_, if_pos ⟨trivial, by rw [hlen]; exact hjlt⟩⟩
        · exact i6 (by rw [hlen1, hlen]) k hk

/-- the last entry of step 1 that names patch `j` decides slot `j` -/
theorem readField.step1_last_wins (tbl : PatchFieldTable F D PF) (bm : BoundaryMesh) (field : F)
    (l1 l2 : List (entry D)) (e : entry D) (d : D) (j : Nat) (st st' : PtrList PF × label)
    (hlen : st.1.length = bm.patches.length)
    (hj : readField.explicitPatchID bm e = some j) (hd : e.dictPtr = some d)
    (hl2 : j ∉ l2.filterMap (readField.explicitPatchID bm))
    (h : (l1 ++ e :: l2).foldlM (readField.explicitName tbl bm field) st = Except.ok st') :
    ∃ p, bm.patches[j]? = some p ∧ PtrList.ptr st'.1 j = some (tbl.New p field d) := by
  obtain ⟨s1, h1, h2⟩ := (foldlM_append_ok _ l1 (e :: l2) st st').1 h
  obtain ⟨s2, h3, h4⟩ := (foldlM_cons_ok _ e l2 s1 st').1 h2
  have hlen1 : s1.1.length = bm.patches.length := by
    rw [(readField.step1_fold tbl bm field l1 st s1 h1).1, hlen]
  rcases readField.explicitName_ok tbl bm field s1 s2 e h3 with ⟨hn, _⟩ | ⟨j', p, d', hj', hd', _, _, hq, hs⟩
  · rw [hn] at hj
    cases hj
  · rw [hj] at hj'
    have hjj : j = j' := Option.some.inj hj'
    subst hjj
    rw [hd] at hd'
    have hdd : d = d' := Option.some.inj hd'
    subst hdd
    have hjlt : j < bm.patches.length := by
      by_contra hc
      rw [List.getElem?_eq_none (Nat.le_of_not_lt hc)] at hq
      cases hq
    refine ⟨p, hq, ?_⟩
    rw [(readField.step1_fold tbl bm field l2 s2 st' h4).2.2.2.1 j hl2, hs]
    simp only [PtrList.ptr_setPtr]
    exact if_pos ⟨trivial, by rw [hlen1]; exact hjlt⟩

/-- with valid lookups step 1 raises no error -/
theorem readField.step1_fold_ok (tbl : PatchFieldTable F D PF) (bm : BoundaryMesh) (field : F)
    (hv : bm.valid) (es : List (entry D)) (st : PtrList PF × label) :
    ∃ st', es.foldlM (readField.explicitName tbl bm field) st = Except.ok st' := by
  induction es generalizing st with
  | nil => exact ⟨st, (foldlM_nil_ok _ st st).2 rfl⟩
  | cons e es ih =>
    have hstep : ∃ s1, readField.explicitName tbl bm field st e = Except.ok s1 := by
      unfold readField.explicitName
      cases hd : e.dictPtr with
      | none => exact ⟨st, by simp⟩
      | some d =>
        cases hp : e.isPattern with
        | true => exact ⟨st, by simp⟩
        | false =>
          simp only []
          by_cases hf : bm.findPatchID e.keyword ≠ -1
          · rw [if_pos hf]
            rcases hv.1 e.keyword with h1 | ⟨p, hq, _⟩
            · exact absurd h1 hf
            · rw [hq]
              exact ⟨_, rfl⟩
          · rw [if_neg hf]
            exact ⟨st, rfl⟩
    obtain ⟨s1, h1⟩ := hstep
    obtain ⟨s2, h2⟩ := ih s1
    exact ⟨s2, (foldlM_cons_ok _ e es st s2).2 ⟨s1, h1, h2⟩⟩

/-! ### Step 2 -/

theorem readField.groupPatch_ok (tbl : PatchFieldTable F D PF) (bm : BoundaryMesh) (field : F)
    (d : D) (bf bf' : PtrList PF) (patchi : Nat)
    (h : readField.groupPatch tbl bm field d bf patchi = Except.ok bf') :
    (PtrList.isSet bf patchi = true ∧ bf' = bf) ∨
    (PtrList.isSet bf patchi = false ∧
      ∃ p, bm.patches[patchi]? = some p ∧ bf' = PtrList.setPtr bf patchi (tbl.New p field d)) := by
  unfold readField.groupPatch at h
  cases hs : PtrList.isSet bf patchi with
  | true =>
    simp only [hs] at h
    left
    exact ⟨rfl, by cases h; rfl⟩
  | false =>
    simp only [hs] at h
    right
    refine ⟨rfl, ?_⟩
    cases hq : bm.patches[patchi]? with
    | none => simp [hq] at h
    | some p =>
      simp only [hq] at h
      refine ⟨p, rfl, ?_⟩
      simp at h
      exact h.symm

/-- the inner loop of step 2 over the patches `l` of one group -/
theorem readField.groupPatch_fold (tbl : PatchFieldTable F D PF) (bm : BoundaryMesh) (field : F)
    (d : D) (l : List Nat) (bf bf' : PtrList PF)
    (h : l.foldlM (readField.groupPatch tbl bm field d) bf = Except.ok bf') :
    bf'.length = bf.length ∧
    (∀ j x, PtrList.ptr bf j = some x → PtrList.ptr bf' j = some x) ∧
    (∀ j, j ∉ l → PtrList.ptr bf' j = PtrList.ptr bf j) ∧
    (bf.length = bm.patches.length → ∀ j ∈ l, PtrList.ptr bf j = none →
      ∃ p, bm.patches[j]? = some p ∧ PtrList.ptr bf' j = some (tbl.New p field d)) := by
  induction l generalizing bf with
  | nil =>
    have := (foldlM_nil_ok _ bf bf').1 h
    subst this
    simp
  | cons a l ih =>
    obtain ⟨s1, h1, h2⟩ := (foldlM_cons_ok _ a l bf bf').1 h
    obtain ⟨i1, i2, i3, i4⟩ := ih s1 h2
    rcases readField.groupPatch_ok tbl bm field d bf s1 a h1 with ⟨hs, he⟩ | ⟨hs, p, hq, he⟩
    · subst he
      refine ⟨i1, i2, fun j hj => i3 j (fun hc => hj (List.mem_cons_of_mem _ hc)), ?_⟩
      intro hlen j hj hnone
      rcases List.mem_cons.1 hj with hj | hj
      · subst hj
        rw [PtrList.isSet_iff] at hs
        obtain ⟨x, hx⟩ := hs
        rw [hx] at hnone
        cases hnone
      · exact i4 hlen j hj hnone
    · have hnone : PtrList.ptr bf a = none := (PtrList.isSet_eq_false_iff bf a).1 hs
      have halt : a < bm.patches.length := by
        by_contra hc
        rw [List.getElem?_eq_none (Nat.le_of_not_lt hc)] at hq
        cases hq
      have hlen1 : s1.length = bf.length := by rw [he]; exact PtrList.length_setPtr _ _ _
      refine ⟨by rw [i1, hlen1], ?_, ?_, ?_⟩
      · intro j x hx
        apply i2
        rw [he, PtrList.ptr_setPtr, if_neg]
        · exact hx
        · rintro ⟨hc, -⟩
          subst hc
          rw [hnone] at hx
          cases hx
      · intro j hj
        rw [List.mem_cons, not_or] at hj
        rw [i3 j hj.2, he, PtrList.ptr_setPtr, if_neg]
        exact fun hc => hj.1 hc.1.symm
      · intro hlen j hj hjn
        by_cases hja : j = a
        · subst hja
          refine ⟨p, hq, ?_⟩
          apply i2
          rw [he, PtrList.ptr_setPtr]
          exact if_pos ⟨rfl, by rw [hlen]; exact halt⟩
        · rcases List.mem_cons.1 hj with hj | hj
          · exact absurd hj hja
          · apply i4 (by rw [hlen1, hlen]) j hj
            rw [he, PtrList.ptr_setPtr, if_neg]
            · exact hjn
            · exact fun hc => hja hc.1.symm

theorem readField.groupDict_eq_some (bm : BoundaryMesh) (j : Nat) (e : entry D) (d : D) :
    readField.groupDict bm j e = some d
      ↔ e.dictPtr = some d ∧ e.isPattern = false ∧ j ∈ bm.findIndices e.keyword true := by
  unfold readField.groupDict
  cases hd : e.dictPtr with
  | none => simp
  | some d' =>
    cases hp : e.isPattern with
    | true => simp
    | false =>
      by_cases hm : j ∈ bm.findIndices e.keyword true <;> simp [hm]

theorem readField.groupDict_eq_none (bm : BoundaryMesh) (j : Nat) (e : entry D) :
    readField.groupDict bm j e = none
      ↔ ∀ d, e.dictPtr = some d → e.isPattern = false → j ∉ bm.findIndices e.keyword true := by
  unfold readField.groupDict
  cases hd : e.dictPtr with
  | none => simp
  | some d' =>
    cases hp : e.isPattern with
    | true => simp
    | false =>
      by_cases hm : j ∈ bm.findIndices e.keyword true <;> simp [hm]

/-- one pass of the outer loop of step 2 -/
theorem readField.patchGroup_ok (tbl : PatchFieldTable F D PF) (bm : BoundaryMesh) (field : F)
    (bf bf' : PtrList PF) (e : entry D)
    (h : readField.patchGroup tbl bm field bf e = Except.ok bf') :
    bf'.length = bf.length ∧
    (∀ j x, PtrList.ptr bf j = some x → PtrList.ptr bf' j = some x) ∧
    (∀ j, readField.groupDict bm j e = none → PtrList.ptr bf' j = PtrList.ptr bf j) ∧
    (bf.length = bm.patches.length → ∀ j d, readField.groupDict bm j e = some d →
      PtrList.ptr bf j = none →
      ∃ p, bm.patches[j]? = some p ∧ PtrList.ptr bf' j = some (tbl.New p field d)) := by
  unfold readField.patchGroup at h
  cases hd : e.dictPtr with
  | none =>
    simp only [hd] at h
    cases h
    refine ⟨rfl, fun _ _ hx => hx, fun _ _ => rfl, fun _ j d hg => ?_⟩
    simp [readField.groupDict, hd] at hg
  | some d' =>
    cases hp : e.isPattern with
    | true =>
      simp only [hd, hp] at h
      cases h
      refine ⟨rfl, fun _ _ hx => hx, fun _ _ => rfl, fun _ j d hg => ?_⟩
      simp [readField.groupDict, hd, hp] at hg
    | false =>
      simp only [hd, hp] at h
      obtain ⟨i1, i2, i3, i4⟩ := readField.groupPatch_fold tbl bm field d' _ bf bf' h
      refine ⟨i1, i2, fun j hg => ?_, fun hlen j d hg hn => ?_⟩
      · apply i3
        exact (readField.groupDict_eq_none bm j e).1 hg d' hd hp
      · obtain ⟨hd2, _, hm⟩ := (readField.groupDict_eq_some bm j e d).1 hg
        rw [hd] at hd2
        have : d' = d := Option.some.inj hd2
        subst this
        exact i4 hlen j hm hn

/-- the outer loop of step 2 over the entries `es`, in the order visited -/
theorem readField.patchGroup_fold (tbl : PatchFieldTable F D PF) (bm : BoundaryMesh) (field : F)
    (es : List (entry D)) (bf bf' : PtrList PF)
    (h : es.foldlM (readField.patchGroup tbl bm field) bf = Except.ok bf') :
    bf'.length = bf.length ∧
    (∀ j x, PtrList.ptr bf j = some x → PtrList.ptr bf' j = some x) ∧
    (∀ j, (∀ e ∈ es, readField.groupDict bm j e = none) →
      PtrList.ptr bf' j = PtrList.ptr bf j) := by
  induction es generalizing bf with
  | nil =>
    have := (foldlM_nil_ok _ bf bf').1 h
    subst this
    simp
  | cons e es ih =>
    obtain ⟨s1, h1, h2⟩ := (foldlM_cons_ok _ e es bf bf').1 h
    obtain ⟨i1, i2, i3⟩ := ih s1 h2
    obtain ⟨k1, k2, k3, _⟩ := readField.patchGroup_ok tbl bm field bf s1 e h1
    refine ⟨by rw [i1, k1], fun j x hx => i2 j x (k2 j x hx), fun j hj => ?_⟩
    rw [i3 j (fun e' he' => hj e' (List.mem_cons_of_mem _ he')), k3 j (hj e (List.mem_cons_self _ _))]

/-- the first entry visited by step 2 that matches patch `j` decides an empty slot `j` -/
theorem readField.patchGroup_first_wins (tbl : PatchFieldTable F D PF) (bm : BoundaryMesh)
    (field : F) (l1 l2 : List (entry D)) (e : entry D) (d : D) (j : Nat) (bf bf' : PtrList PF)
    (hlen : bf.length = bm.patches.length)
    (hl1 : ∀ e' ∈ l1, readField.groupDict bm j e' = none)
    (he : readField.groupDict bm j e = some d) (hn : PtrList.ptr bf j = none)
    (h : (l1 ++ e :: l2).foldlM (readField.patchGroup tbl bm field) bf = Except.ok bf') :
    ∃ p, bm.patches[j]? = some p ∧ PtrList.ptr bf' j = some (tbl.New p field d) := by
  obtain ⟨s1, h1, h2⟩ := (foldlM_append_ok _ l1 (e :: l2) bf bf').1 h
  obtain ⟨s2, h3, h4⟩ := (foldlM_cons_ok _ e l2 s1 bf').1 h2
  obtain ⟨a1, _, a3⟩ := readField.patchGroup_fold tbl bm field l1 bf s1 h1
  obtain ⟨_, _, _, b4⟩ := readField.patchGroup_ok tbl bm field s1 s2 e h3
  obtain ⟨_, c2, _⟩ := readField.patchGroup_fold tbl bm field l2 s2 bf' h4
  obtain ⟨p, hp, hs2⟩ := b4 (by rw [a1, hlen]) j d he (by rw [a3 j hl1, hn])
  exact ⟨p, hp, c2 j _ hs2⟩

/-- a slot still empty after step 2 belongs to a patch that no entry matches -/
theorem readField.patchGroup_fold_none (tbl : PatchFieldTable F D PF) (bm : BoundaryMesh)
    (field : F) (es : List (entry D)) (j : Nat) (bf bf' : PtrList PF)
    (hlen : bf.length = bm.patches.length)
    (h : es.foldlM (readField.patchGroup tbl bm field) bf = Except.ok bf')
    (hn : PtrList.ptr bf' j = none) :
    ∀ e ∈ es, readField.groupDict bm j e = none := by
  intro e he
  cases hg : readField.groupDict bm j e with
  | none => rfl
  | some d =>
    exfalso
    obtain ⟨l1, l2, hes⟩ := List.append_of_mem he
    rw [hes] at h
    obtain ⟨s1, h1, h2⟩ := (foldlM_append_ok _ l1 (e :: l2) bf bf').1 h
    obtain ⟨s2, h3, h4⟩ := (foldlM_cons_ok _ e l2 s1 bf').1 h2
    obtain ⟨a1, _, _⟩ := readField.patchGroup_fold tbl bm field l1 bf s1 h1
    obtain ⟨_, b2, _, b4⟩ := readField.patchGroup_ok tbl bm field s1 s2 e h3
    obtain ⟨_, c2, _⟩ := readField.patchGroup_fold tbl bm field l2 s2 bf' h4
    cases hs1 : PtrList.ptr s1 j with
    | some x =>
      rw [c2 j x (b2 j x hs1)] at hn
      cases hn
    | none =>
      obtain ⟨p, _, hs2⟩ := b4 (by rw [a1, hlen]) j d hg hs1
      rw [c2 j _ hs2] at hn
      cases hn

/-- with valid lookups step 2 raises no error -/
theorem readField.patchGroup_fold_ok (tbl : PatchFieldTable F D PF) (bm : BoundaryMesh)
    (field : F) (hv : bm.valid) (es : List (entry D)) (bf : PtrList PF) :
    ∃ bf', es.foldlM (readField.patchGroup tbl bm field) bf = Except.ok bf' := by
  have inner : ∀ (d : D) (l : List Nat), (∀ i ∈ l, i < bm.patches.length) → ∀ bf : PtrList PF,
      ∃ bf', l.foldlM (readField.groupPatch tbl bm field d) bf = Except.ok bf' := by
    intro d l
    induction l with
    | nil => exact fun _ bf => ⟨bf, (foldlM_nil_ok _ bf bf).2 rfl⟩
    | cons a l ih =>
      intro hl bf
      have hstep : ∃ s1, readField.groupPatch tbl bm field d bf a = Except.ok s1 := by
        unfold readField.groupPatch
        cases hs : PtrList.isSet bf a with
        | true => exact ⟨bf, by simp⟩
        | false =>
          have ha : a < bm.patches.length := hl a (List.mem_cons_self _ _)
          rw [List.getElem?_eq_getElem ha]
          exact ⟨PtrList.setPtr bf a (tbl.New bm.patches[a] field d), by simp⟩
      obtain ⟨s1, h1⟩ := hstep
      obtain ⟨s2, h2⟩ := ih (fun i hi => hl i (List.mem_cons_of_mem _ hi)) s1
      exact ⟨s2, (foldlM_cons_ok _ a l bf s2).2 ⟨s1, h1, h2⟩⟩
  induction es generalizing bf with
  | nil => exact ⟨bf, (foldlM_nil_ok _ bf bf).2 rfl⟩
  | cons e es ih =>
    have hstep : ∃ s1, readField.patchGroup tbl bm field bf e = Except.ok s1 := by
      unfold readField.patchGroup
      cases hd : e.dictPtr with
      | none => exact ⟨bf, by simp⟩
      | some d =>
        cases hp : e.isPattern with
        | true => exact ⟨bf, by simp⟩
        | false => exact inner d _ (fun i hi => hv.2 _ _ i hi) bf
    obtain ⟨s1, h1⟩ := hstep
    obtain ⟨s2, h2⟩ := ih s1
    exact ⟨s2, (foldlM_cons_ok _ e es bf s2).2 ⟨s1, h1, h2⟩⟩

theorem readField.wildcardOverride_ptr (tbl : PatchFieldTable F D PF) (field : F)
    (dict : dictionary D) (bf : PtrList PF) (i : Nat) (p : Patch) (j : Nat) :
    (readField.wildcardOverride tbl field dict bf (i, p)).length = bf.length ∧
    PtrList.ptr (readField.wildcardOverride tbl field dict bf (i, p)) j
      = if j = i ∧ i < bf.length ∧ PtrList.isSet bf i = false then
          readField.wildcardPtr tbl field dict p
        else PtrList.ptr bf j := by
  unfold readField.wildcardOverride readField.wildcardPtr
  cases hs : PtrList.isSet bf i with
  | true =>
    simp [hs]
  | false =>
    have hn := (PtrList.isSet_eq_false_iff bf i).1 hs
    simp only [Bool.not_false, if_true, and_true]
    by_cases ht : p.type = emptyPolyPatch.typeName
    · simp only [if_pos ht, PtrList.length_setPtr, PtrList.ptr_setPtr, true_and]
      by_cases hc : i = j ∧ i < bf.length
      · rw [if_pos hc, if_pos ⟨hc.1.symm, hc.2⟩]
      · rw [if_neg hc, if_neg (fun h => hc ⟨h.1.symm, h.2⟩)]
    · simp only [if_neg ht]
      by_cases hfd : dict.found p.name = true
      · simp only [if_pos hfd, PtrList.length_setPtr, PtrList.ptr_setPtr, true_and]
        by_cases hc : i = j ∧ i < bf.length
        · rw [if_pos hc, if_pos ⟨hc.1.symm, hc.2⟩]
        · rw [if_neg hc, if_neg (fun h => hc ⟨h.1.symm, h.2⟩)]
      · simp only [if_neg hfd, true_and]
        by_cases hc : j = i ∧ i < bf.length
        · rw [if_pos hc, hc.1, hn]
        · rw [if_neg hc]

theorem readField.wildcard_fold (tbl : PatchFieldTable F D PF) (field : F)
    (dict : dictionary D) (ps : List Patch) (k : Nat) (bf : PtrList PF) (j : Nat) :
    ((ps.enumFrom k).foldl (readField.wildcardOverride tbl field dict) bf).length = bf.length ∧
    PtrList.ptr ((ps.enumFrom k).foldl (readField.wildcardOverride tbl field dict) bf) j
      = match PtrList.ptr bf j with
        | some x => some x
        | none =>
          if k ≤ j ∧ j < bf.length then
            (ps[j - k]?).bind (readField.wildcardPtr tbl field dict)
          else none := by
  induction ps generalizing k bf with
  | nil =>
    simp only [List.enumFrom_nil, List.foldl_nil, true_and]
    cases PtrList.ptr bf j <;> simp
  | cons p ps ih =>
    rw [List.enumFrom_cons, List.foldl_cons]
    obtain ⟨i1, i2⟩ := ih (k + 1) (readField.wildcardOverride tbl field dict bf (k, p))
    obtain ⟨w1, w2⟩ := readField.wildcardOverride_ptr tbl field dict bf k p j
    refine ⟨by rw [i1, w1], ?_⟩
    rw [i2, w2, w1]
    by_cases hjk : j = k
    · subst hjk
      cases hn : PtrList.ptr bf j with
      | some x =>
        have hs : PtrList.isSet bf j = true := (PtrList.isSet_iff bf j).2 ⟨x, hn⟩
        simp [hs, hn]
      | none =>
        have hs : PtrList.isSet bf j = false := (PtrList.isSet_eq_false_iff bf j).2 hn
        by_cases hl : j < bf.length
        · simp only [hl, hs, and_self, if_true, le_refl, Nat.sub_self, List.getElem?_cons_zero,
            Option.some_bind]
          cases hw : readField.wildcardPtr tbl field dict p with
          | some y => simp
          | none => simp
        · simp [hl, hn]
    · have h1 : ¬ (j = k ∧ k < bf.length ∧ PtrList.isSet bf k = false) := fun h => hjk h.1
      rw [if_neg h1]
      cases hn : PtrList.ptr bf j with
      | some x => simp
      | none =>
        simp only []
        by_cases hc : k + 1 ≤ j ∧ j < bf.length
        · have hc' : k ≤ j ∧ j < bf.length := ⟨by omega, hc.2⟩
          rw [if_pos hc, if_pos hc']
          have : j - k = (j - (k + 1)) + 1 := by omega
          rw [this, List.getElem?_cons_succ]
        · have hc' : ¬ (k ≤ j ∧ j < bf.length) := fun h => hc ⟨by omega, h.2⟩
          rw [if_neg hc, if_neg hc']

/-- the slots after step 3, one by one -/
theorem readField.step3_ptr (tbl : PatchFieldTable F D PF) (bm : BoundaryMesh) (field : F)
    (dict : dictionary D) (bf : PtrList PF) (hlen : bf.length = bm.patches.length) (j : Nat) :
    (readField.step3 tbl bm field dict bf).length = bf.length ∧
    PtrList.ptr (readField.step3 tbl bm field dict bf) j
      = match PtrList.ptr bf j with
        | some x => some x
        | none => (bm.patches[j]?).bind (readField.wildcardPtr tbl field dict) := by
  unfold readField.step3 List.enum
  obtain ⟨h1, h2⟩ := readField.wildcard_fold tbl field dict bm.patches 0 bf j
  refine ⟨h1, ?_⟩
  rw [h2]
  cases hn : PtrList.ptr bf j with
  | some x => rfl
  | none =>
    simp only [Nat.zero_le, true_and, Nat.sub_zero]
    by_cases hl : j < bf.length
    · rw [if_pos hl]
    · rw [if_neg hl, List.getElem?_eq_none (by omega)]
      rfl

/-- the outcome of step 4 on the patches `ps`, numbered from `k` -/
theorem readField.checkUnset_ok (bf : PtrList PF) (ps : List Patch) (k : Nat) :
    readField.checkUnset bf (ps.enumFrom k) = Except.ok ()
      ↔ ∀ j, k ≤ j → j < k + ps.length → PtrList.isSet bf j = true := by
  induction ps generalizing k with
  | nil =>
    simp only [List.enumFrom_nil, readField.checkUnset, List.length_nil, true_iff]
    intro j h1 h2
    omega
  | cons p ps ih =>
    rw [List.enumFrom_cons, readField.checkUnset]
    cases hs : PtrList.isSet bf k with
    | false =>
      simp only [Bool.not_false, if_true]
      constructor
      · intro h
        by_cases ht : p.type = cyclicPolyPatch.typeName
        · rw [if_pos ht] at h; cases h
        · rw [if_neg ht] at h; cases h
      · intro h
        have := h k (le_refl k) (by simp)
        rw [hs] at this
        cases this
    | true =>
      simp only [Bool.not_true, Bool.false_eq_true, if_false, ih (k + 1), List.length_cons]
      constructor
      · intro h j h1 h2
        by_cases hjk : j = k
        · rw [hjk]; exact hs
        · exact h j (by omega) (by omega)
      · intro h j h1 h2
        exact h j (by omega) (by omega)

theorem readField.checkUnset_error (bf : PtrList PF) (ps : List Patch) (k : Nat)
    (err : FatalError) (h : readField.checkUnset bf (ps.enumFrom k) = Except.error err) :
    ∃ (j : Nat) (p : Patch), k ≤ j ∧ ps[j - k]? = some p ∧ PtrList.isSet bf j = false ∧
      (∀ i, k ≤ i → i < j → PtrList.isSet bf i = true) ∧
      err = (if p.type = cyclicPolyPatch.typeName then FatalError.cannotFindCyclic p.name
        else FatalError.cannotFind p.name) := by
  induction ps generalizing k with
  | nil => simp [readField.checkUnset] at h
  | cons p ps ih =>
    rw [List.enumFrom_cons, readField.checkUnset] at h
    cases hs : PtrList.isSet bf k with
    | false =>
      simp only [hs, Bool.not_false, if_true] at h
      refine ⟨k, p, le_refl k, by simp, hs, fun i h1 h2 => by omega, ?_⟩
      by_cases ht : p.type = cyclicPolyPatch.typeName
      · rw [if_pos ht] at h ⊢
        cases h; rfl
      · rw [if_neg ht] at h ⊢
        cases h; rfl
    | true =>
      simp only [hs, Bool.not_true, Bool.false_eq_true, if_false] at h
      obtain ⟨j, q, h1, h2, h3, h4, h5⟩ := ih (k + 1) h
      refine ⟨j, q, by omega, ?_, h3, ?_, h5⟩
      · have : j - k = (j - (k + 1)) + 1 := by omega
        rw [this, List.getElem?_cons_succ]
        exact h2
      · intro i hi1 hi2
        by_cases hik : i = k
        · rw [hik]; exact hs
        · exact h4 i (by omega) hi2

theorem readField.step2_eq (tbl : PatchFieldTable F D PF) (bm : BoundaryMesh) (field : F)
    (dict : dictionary D) (bf : PtrList PF) :
    readField.step2 tbl bm field dict bf
      = dict.entries.reverse.foldlM (readField.patchGroup tbl bm field) bf := by
  unfold readField.step2 dictionary.size
  by_cases h : dict.entries.length ≠ 0
  · rw [if_pos h]
  · rw [if_neg h]
    have : dict.entries = [] := List.length_eq_zero.1 (not_not.1 h)
    rw [this]
    rfl

theorem readField.mem_hits_iff (bm : BoundaryMesh) (hv : bm.valid) (es : List (entry D))
    (j : Nat) :
    j ∈ es.filterMap (readField.explicitPatchID bm)
      ↔ ∃ e ∈ es, ∃ d, e.dictPtr = some d ∧ e.isPattern = false
          ∧ bm.findPatchID e.keyword = (j : Int) := by
  rw [List.mem_filterMap]
  constructor
  · rintro ⟨e, he, hj⟩
    obtain ⟨d, _, h1, h2, h3, _, _⟩ := readField.hit_of_explicitPatchID bm hv e j hj
    exact ⟨e, he, d, h1, h2, h3⟩
  · rintro ⟨e, he, d, h1, h2, h3⟩
    exact ⟨e, he, readField.explicitPatchID_of_hit bm e d j h1 h2 h3⟩

/-- what step 1 leaves behind, for valid lookups and distinct keys -/
theorem readField.step1_analysis (tbl : PatchFieldTable F D PF) (bm : BoundaryMesh) (field : F)
    (dict : dictionary D) (self : PtrList PF) (hv : bm.valid) (hk : dict.keysDistinct) :
    ∃ (bf1 : PtrList PF) (nUnset : label),
      readField.step1 tbl bm field dict self = Except.ok (bf1, nUnset) ∧
      bf1.length = bm.patches.length ∧
      (∀ j, PtrList.isSet bf1 j = true
        ↔ j ∈ dict.entries.filterMap (readField.explicitPatchID bm)) ∧
      (nUnset = 0 ↔ ∀ j, j < bm.patches.length → PtrList.isSet bf1 j = true) := by
  unfold readField.step1
  obtain ⟨st', hst⟩ := readField.step1_fold_ok tbl bm field hv dict.entries
    (PtrList.setSize (PtrList.clear self) bm.size, (bm.size : Int))
  obtain ⟨i1, i2, i3, i4, _, i6⟩ := readField.step1_fold tbl bm field dict.entries _ st' hst
  have hlen0 : (PtrList.setSize (PtrList.clear self) bm.size).length = bm.patches.length := by
    rw [PtrList.setSize_clear]
    simp [BoundaryMesh.size]
  simp only [] at i1 i2 i4 i6
  have hset : ∀ j, PtrList.isSet st'.1 j = true
      ↔ j ∈ dict.entries.filterMap (readField.explicitPatchID bm) := by
    intro j
    constructor
    · intro hs
      by_contra hc
      rw [PtrList.isSet_iff, i4 j hc, PtrList.setSize_clear, PtrList.ptr_replicate_none] at hs
      obtain ⟨x, hx⟩ := hs
      cases hx
    · exact i6 hlen0 j
  have hnd := readField.explicitPatchID_nodup bm hv dict.entries hk
  obtain ⟨p1, p2⟩ := nodup_bounded_length _ bm.patches.length hnd i3
  refine ⟨st'.1, st'.2, hst, by rw [i1, hlen0], hset, ?_⟩
  rw [i2]
  simp only [BoundaryMesh.size]
  constructor
  · intro h0 j hj
    have h0' : (bm.patches.length : Int)
        - ((dict.entries.filterMap (readField.explicitPatchID bm)).length : Int) = 0 := h0
    exact (hset j).2 (p2 (by omega) j hj)
  · intro hall
    have hsub : ∀ j ∈ List.range bm.patches.length,
        j ∈ dict.entries.filterMap (readField.explicitPatchID bm) :=
      fun j hj => (hset j).1 (hall j (List.mem_range.1 hj))
    have hsp := List.subperm_of_subset (List.nodup_range _) hsub
    have := hsp.length_le
    simp only [List.length_range] at this
    show (bm.patches.length : Int)
        - ((dict.entries.filterMap (readField.explicitPatchID bm)).length : Int) = 0
    omega

/-- with valid lookups step 2 raises no error and keeps the size -/
theorem readField.step2_analysis (tbl : PatchFieldTable F D PF) (bm : BoundaryMesh) (field : F)
    (dict : dictionary D) (bf1 : PtrList PF) (hv : bm.valid)
    (hlen : bf1.length = bm.patches.length) :
    ∃ bf2 : PtrList PF, readField.step2 tbl bm field dict bf1 = Except.ok bf2 ∧
      bf2.length = bm.patches.length ∧
      (∀ j x, PtrList.ptr bf1 j = some x → PtrList.ptr bf2 j = some x) ∧
      (∀ j, PtrList.ptr bf2 j = none ↔ (PtrList.ptr bf1 j = none ∧
        ∀ e ∈ dict.entries, readField.groupDict bm j e = none)) := by
  rw [readField.step2_eq]
  obtain ⟨bf2, h2⟩ := readField.patchGroup_fold_ok tbl bm field hv dict.entries.reverse bf1
  obtain ⟨a1, a2, a3⟩ := readField.patchGroup_fold tbl bm field _ bf1 bf2 h2
  refine ⟨bf2, h2, by rw [a1, hlen], a2, fun j => ⟨fun hn => ⟨?_, ?_⟩, fun hn => ?_⟩⟩
  · cases h1 : PtrList.ptr bf1 j with
    | none => rfl
    | some x =>
      rw [a2 j x h1] at hn
      cases hn
  · intro e he
    exact readField.patchGroup_fold_none tbl bm field _ j bf1 bf2 hlen h2 hn e
      (List.mem_reverse.2 he)
  · rw [a3 j (fun e he => hn.2 e (List.mem_reverse.1 he))]
    exact hn.1

theorem BoundaryMesh.ofPatches_valid (ps : List Patch) : (BoundaryMesh.ofPatches ps).valid := by
  constructor
  · intro k
    simp only [BoundaryMesh.ofPatches]
    cases h : ps.findIdx? (fun p => p.name == k) with
    | none => left; rfl
    | some i =>
      right
      obtain ⟨hi, hp, _⟩ := List.findIdx?_eq_some_iff_getElem.1 h
      refine ⟨ps[i], ?_, by simpa using hp⟩
      simp [BoundaryMesh.patch?, List.getElem?_eq_getElem hi]
  · intro k g i hi
    simp only [BoundaryMesh.ofPatches, List.mem_append, List.mem_filter, List.mem_range,
      Option.mem_toList] at hi
    rcases hi with hi | hi
    · obtain ⟨h, _, _⟩ := List.findIdx?_eq_some_iff_getElem.1 hi
      exact h
    · exact hi.1

/-- how `readField` ends once steps 1 and 2 have run -/
theorem readField.unfold_ok (tbl : PatchFieldTable F D PF) (bm : BoundaryMesh) (field : F)
    (dict : dictionary D) (self bf1 bf2 : PtrList PF) (nUnset : label)
    (h1 : readField.step1 tbl bm field dict self = Except.ok (bf1, nUnset))
    (h2 : readField.step2 tbl bm field dict bf1 = Except.ok bf2) :
    readField tbl bm field dict self
      = if nUnset = 0 then Except.ok bf1
        else match readField.checkUnset (readField.step3 tbl bm field dict bf2)
              bm.patches.enum with
          | Except.error err => Except.error err
          | Except.ok _ => Except.ok (readField.step3 tbl bm field dict bf2) := by
  unfold readField
  rw [h1]
  simp only []
  by_cases hn : nUnset = 0
  · rw [if_pos hn, if_pos hn]
  · rw [if_neg hn, if_neg hn, h2]

theorem readField.checkUnset_enum_ok (bf : PtrList PF) (ps : List Patch) :
    readField.checkUnset bf ps.enum = Except.ok ()
      ↔ ∀ j, j < ps.length → PtrList.isSet bf j = true := by
  unfold List.enum
  rw [readField.checkUnset_ok]
  constructor
  · exact fun h j hj => h j (Nat.zero_le j) (by omega)
  · exact fun h j _ hj => h j (by omega)

/-- C1: for every boundary mesh whose lookups keep their contract and every
dictionary (its keys are distinct), if `readField` returns without a fatal error
then the container has exactly one slot per patch and every slot
`0 .. nPatches-1` is occupied; the constructor from a dictionary returns the
same container. -/
theorem readField_all_slots_set (tbl : PatchFieldTable F D PF) (bm : BoundaryMesh) (field : F)
    (dict : dictionary D) (self bf : PtrList PF) (hv : bm.valid) (hk : dict.keysDistinct)
    (h : readField tbl bm field dict self = Except.ok bf) :
    bf.length = bm.patches.length ∧
    (∀ i, i < bm.patches.length → PtrList.isSet bf i = true) ∧
    (GeometricBoundaryField.ofDict tbl bm field dict = Except.ok bf) := by
  obtain ⟨bf1, n, h1, hlen1, _, hn0⟩ := readField.step1_analysis tbl bm field dict self hv hk
  obtain ⟨bf2, h2, hlen2, _, _⟩ := readField.step2_analysis tbl bm field dict bf1 hv hlen1
  have hself : ∀ self' : PtrList PF, readField tbl bm field dict self'
      = readField tbl bm field dict self := by
    intro self'
    unfold readField readField.step1
    rw [PtrList.setSize_clear, PtrList.setSize_clear]
  rw [readField.unfold_ok tbl bm field dict self bf1 bf2 n h1 h2] at h
  refine ⟨?_, ?_, ?_⟩
  · by_cases hn : n = 0
    · rw [if_pos hn] at h
      cases h
      exact hlen1
    · rw [if_neg hn] at h
      cases hc : readField.checkUnset (readField.step3 tbl bm field dict bf2) bm.patches.enum with
      | error err => rw [hc] at h; cases h
      | ok u =>
        rw [hc] at h
        cases h
        rw [(readField.step3_ptr tbl bm field dict bf2 hlen2 0).1, hlen2]
  · by_cases hn : n = 0
    · rw [if_pos hn] at h
      cases h
      exact hn0.1 hn
    · rw [if_neg hn] at h
      cases hc : readField.checkUnset (readField.step3 tbl bm field dict bf2) bm.patches.enum with
      | error err => rw [hc] at h; cases h
      | ok u =>
        rw [hc] at h
        cases h
        cases u
        exact (readField.checkUnset_enum_ok _ _).1 hc
  · unfold GeometricBoundaryField.ofDict
    rw [hself, readField.unfold_ok tbl bm field dict self bf1 bf2 n h1 h2]
    exact h

/-- on success the result is the state after step 1 (early return) or after step 3 -/
theorem readField.ok_cases (tbl : PatchFieldTable F D PF) (bm : BoundaryMesh) (field : F)
    (dict : dictionary D) (self bf1 bf2 bf : PtrList PF) (nUnset : label)
    (h1 : readField.step1 tbl bm field dict self = Except.ok (bf1, nUnset))
    (h2 : readField.step2 tbl bm field dict bf1 = Except.ok bf2)
    (h : readField tbl bm field dict self = Except.ok bf) :
    (nUnset = 0 ∧ bf = bf1) ∨
    (nUnset ≠ 0 ∧ bf = readField.step3 tbl bm field dict bf2 ∧
      readField.checkUnset (readField.step3 tbl bm field dict bf2) bm.patches.enum
        = Except.ok ()) := by
  rw [readField.unfold_ok tbl bm field dict self bf1 bf2 nUnset h1 h2] at h
  by_cases hn : nUnset = 0
  · rw [if_pos hn] at h
    cases h
    exact Or.inl ⟨hn, rfl⟩
  · rw [if_neg hn] at h
    cases hc : readField.checkUnset (readField.step3 tbl bm field dict bf2) bm.patches.enum with
    | error err => rw [hc] at h; cases h
    | ok u =>
      rw [hc] at h
      cases h
      exact Or.inr ⟨hn, rfl, rfl⟩

theorem readField.step3_keeps (tbl : PatchFieldTable F D PF) (bm : BoundaryMesh) (field : F)
    (dict : dictionary D) (bf : PtrList PF) (j : Nat) (x : PF)
    (h : PtrList.ptr bf j = some x) :
    PtrList.ptr (readField.step3 tbl bm field dict bf) j = some x := by
  unfold readField.step3 List.enum
  rw [(readField.wildcard_fold tbl field dict bm.patches 0 bf j).2, h]

/-- a slot occupied after step 1 holds the same patch field when `readField` returns -/
theorem readField.ok_keeps (tbl : PatchFieldTable F D PF) (bm : BoundaryMesh) (field : F)
    (dict : dictionary D) (self bf1 bf2 bf : PtrList PF) (nUnset : label)
    (h1 : readField.step1 tbl bm field dict self = Except.ok (bf1, nUnset))
    (h2 : readField.step2 tbl bm field dict bf1 = Except.ok bf2)
    (hkeep : ∀ j x, PtrList.ptr bf1 j = some x → PtrList.ptr bf2 j = some x)
    (h : readField tbl bm field dict self = Except.ok bf) (j : Nat) (x : PF)
    (hx : PtrList.ptr bf1 j = some x) : PtrList.ptr bf j = some x := by
  rcases readField.ok_cases tbl bm field dict self bf1 bf2 bf nUnset h1 h2 h with
    ⟨_, hb⟩ | ⟨_, hb, _⟩
  · rw [hb]; exact hx
  · rw [hb]; exact readField.step3_keeps tbl bm field dict bf2 j x (hkeep j x hx)

/-- C2: last-declared group wins. For a patch `patchi` that no non-pattern
sub-dictionary entry names exactly, if the non-pattern sub-dictionary entries
`G1` and `G2` both match the patch through `findIndices` with patch groups
enabled, `G1` is declared before `G2` and no entry declared after `G2` matches
it, then after `readField` the slot of the patch holds the patch field built
from the sub-dictionary of `G2`; it does not hold the one built from `G1` when
the two differ. -/
theorem readField_last_group_wins (tbl : PatchFieldTable F D PF) (bm : BoundaryMesh)
    (field : F) (dict : dictionary D) (self bf : PtrList PF)
    (pre mid post : List (entry D)) (G1 G2 : entry D) (d1 d2 : D) (patchi : Nat)
    (hv : bm.valid) (hk : dict.keysDistinct)
    (hes : dict.entries = pre ++ G1 :: mid ++ G2 :: post)
    (hG1 : G1.dictPtr = some d1 ∧ G1.isPattern = false
      ∧ patchi ∈ bm.findIndices G1.keyword true)
    (hG2 : G2.dictPtr = some d2 ∧ G2.isPattern = false
      ∧ patchi ∈ bm.findIndices G2.keyword true)
    (hpost : ∀ e ∈ post, ∀ d, e.dictPtr = some d → e.isPattern = false →
      patchi ∉ bm.findIndices e.keyword true)
    (hexact : ∀ e ∈ dict.entries, ∀ d, e.dictPtr = some d → e.isPattern = false →
      bm.findPatchID e.keyword ≠ (patchi : Int))
    (h : readField tbl bm field dict self = Except.ok bf) :
    ∃ p, bm.patches[patchi]? = some p ∧
      PtrList.ptr bf patchi = some (tbl.New p field d2) ∧
      (tbl.New p field d1 ≠ tbl.New p field d2 →
        PtrList.ptr bf patchi ≠ some (tbl.New p field d1)) := by
  obtain ⟨bf1, n, h1, hlen1, hset1, hn0⟩ := readField.step1_analysis tbl bm field dict self hv hk
  obtain ⟨bf2, h2, hlen2, _, _⟩ := readField.step2_analysis tbl bm field dict bf1 hv hlen1
  have hlt : patchi < bm.patches.length := hv.2 _ _ _ hG1.2.2
  have hunset : PtrList.isSet bf1 patchi = false := by
    cases hs : PtrList.isSet bf1 patchi with
    | false => rfl
    | true =>
      obtain ⟨e, he, d, hd, hp, hf⟩ :=
        (readField.mem_hits_iff bm hv dict.entries patchi).1 ((hset1 patchi).1 hs)
      exact absurd hf (hexact e he d hd hp)
  have hn : n ≠ 0 := by
    intro hc
    rw [hn0.1 hc patchi hlt] at hunset
    cases hunset
  have hstep2 := h2
  rw [readField.step2_eq, hes] at hstep2
  have hrev : (pre ++ G1 :: mid ++ G2 :: post).reverse
      = post.reverse ++ G2 :: (pre ++ G1 :: mid).reverse := by
    simp
  rw [hrev] at hstep2
  obtain ⟨p, hp, hptr⟩ := readField.patchGroup_first_wins tbl bm field post.reverse
    (pre ++ G1 :: mid).reverse G2 d2 patchi bf1 bf2 hlen1
    (fun e he => (readField.groupDict_eq_none bm patchi e).2
      (hpost e (List.mem_reverse.1 he)))
    ((readField.groupDict_eq_some bm patchi G2 d2).2 hG2)
    ((PtrList.isSet_eq_false_iff bf1 patchi).1 hunset) hstep2
  rcases readField.ok_cases tbl bm field dict self bf1 bf2 bf n h1 h2 h with
    ⟨h0, _⟩ | ⟨_, hb, _⟩
  · exact absurd h0 hn
  · have hfin : PtrList.ptr bf patchi = some (tbl.New p field d2) := by
      rw [hb]
      exact readField.step3_keeps tbl bm field dict bf2 patchi _ hptr
    refine ⟨p, hp, hfin, fun hne hc => ?_⟩
    rw [hfin] at hc
    exact hne (Option.some.inj hc).symm

/-- C3: exact-name priority is strict. When the dictionary holds a non-pattern
sub-dictionary entry `e` for which `findPatchID` returns patch `patchi`, then
after a successful `readField` the slot of that patch, which carries the name
`e.keyword`, holds the patch field built from the sub-dictionary of `e`,
whatever other entries the dictionary has; and steps 2 and 3 never replace the
content of a slot that is already occupied. -/
theorem readField_exact_name_first (tbl : PatchFieldTable F D PF) (bm : BoundaryMesh)
    (field : F) (dict : dictionary D) (self : PtrList PF) (e : entry D) (d : D) (patchi : Nat)
    (hv : bm.valid) (hk : dict.keysDistinct) (he : e ∈ dict.entries)
    (hd : e.dictPtr = some d) (hp : e.isPattern = false)
    (hf : bm.findPatchID e.keyword = (patchi : Int)) :
    (∀ bf, readField tbl bm field dict self = Except.ok bf →
      ∃ p, bm.patches[patchi]? = some p ∧ p.name = e.keyword ∧
        PtrList.ptr bf patchi = some (tbl.New p field d)) ∧
    (∀ (bf1 bf2 : PtrList PF) (i : Nat) (x : PF),
      readField.step2 tbl bm field dict bf1 = Except.ok bf2 →
      PtrList.ptr bf1 i = some x → PtrList.ptr bf2 i = some x) ∧
    (∀ (bf2 : PtrList PF) (i : Nat) (x : PF), PtrList.ptr bf2 i = some x →
      PtrList.ptr (readField.step3 tbl bm field dict bf2) i = some x) := by
  refine ⟨fun bf h => ?_, fun bf1 bf2 i x h2 hx => ?_, fun bf2 i x hx => ?_⟩
  · obtain ⟨bf1, n, h1, hlen1, _, _⟩ := readField.step1_analysis tbl bm field dict self hv hk
    obtain ⟨bf2, h2, _, hkeep, _⟩ := readField.step2_analysis tbl bm field dict bf1 hv hlen1
    obtain ⟨l1, l2, hes⟩ := List.append_of_mem he
    have hj := readField.explicitPatchID_of_hit bm e d patchi hd hp hf
    obtain ⟨_, p, _, _, _, hpp, hname⟩ := readField.hit_of_explicitPatchID bm hv e patchi hj
    have hkeys : (dict.entries.map (fun e => e.keyword)).Nodup := hk
    rw [hes, List.map_append, List.map_cons] at hkeys
    have hnot : e.keyword ∉ l2.map (fun e => e.keyword) :=
      (List.nodup_cons.1 (List.nodup_append.1 hkeys).2.1).1
    have hl2 : patchi ∉ l2.filterMap (readField.explicitPatchID bm) := by
      intro hmem
      obtain ⟨e', he', hj'⟩ := List.mem_filterMap.1 hmem
      obtain ⟨_, p', _, _, _, hpp', hname'⟩ :=
        readField.hit_of_explicitPatchID bm hv e' patchi hj'
      rw [hpp] at hpp'
      have : p = p' := Option.some.inj hpp'
      subst this
      apply hnot
      rw [← hname, hname']
      exact List.mem_map.2 ⟨e', he', rfl⟩
    have hfold := h1
    unfold readField.step1 at hfold
    rw [hes] at hfold
    obtain ⟨q, hq, hptr⟩ := readField.step1_last_wins tbl bm field l1 l2 e d patchi _ _
      (by rw [PtrList.setSize_clear]; simp [BoundaryMesh.size]) hj hd hl2 hfold
    rw [hpp] at hq
    have : p = q := Option.some.inj hq
    subst this
    exact ⟨p, hpp, hname,
      readField.ok_keeps tbl bm field dict self bf1 bf2 bf n h1 h2 hkeep h patchi _ hptr⟩
  · rw [readField.step2_eq] at h2
    exact (readField.patchGroup_fold tbl bm field _ bf1 bf2 h2).2.1 i x hx
  · exact readField.step3_keeps tbl bm field dict bf2 i x hx

theorem readField.checkUnset_enum_error (bf : PtrList PF) (ps : List Patch) (err : FatalError)
    (h : readField.checkUnset bf ps.enum = Except.error err) :
    ∃ (j : Nat) (p : Patch), ps[j]? = some p ∧ PtrList.isSet bf j = false ∧
      (∀ i, i < j → PtrList.isSet bf i = true) ∧
      err = (if p.type = cyclicPolyPatch.typeName then FatalError.cannotFindCyclic p.name
        else FatalError.cannotFind p.name) := by
  obtain ⟨j, p, _, h2, h3, h4, h5⟩ := readField.checkUnset_error bf ps 0 err h
  exact ⟨j, p, by simpa using h2, h3, fun i hi => h4 i (Nat.zero_le i) hi, h5⟩

/-- with `dict.subDict` taken as it returns: `readField` raises the unresolved-patch
fatal error if and only if some patch (i) is not the patch found for a
non-pattern sub-dictionary entry by `findPatchID`, (ii) is matched by no
non-pattern sub-dictionary entry through `findIndices` with patch groups,
(iii) is not of the empty type, and (iv) has `dict.found(name)` false; when
there is no such patch `readField` returns, and each patch with (i), (ii) and
(iii) is given the patch field built from `dict.subDict(name)` -/
theorem readField.unresolved_iff_of_subDict_returning (tbl : PatchFieldTable F D PF) (bm : BoundaryMesh)
    (field : F) (dict : dictionary D) (self : PtrList PF) (hv : bm.valid)
    (hk : dict.keysDistinct) :
    ((∃ err, readField tbl bm field dict self = Except.error err
        ∧ err.isUnresolvedPatch = true)
      ↔ ∃ (i : Nat) (p : Patch), bm.patches[i]? = some p ∧
          (∀ e ∈ dict.entries, ∀ d, e.dictPtr = some d → e.isPattern = false →
            bm.findPatchID e.keyword ≠ (i : Int)) ∧
          (∀ e ∈ dict.entries, ∀ d, e.dictPtr = some d → e.isPattern = false →
            i ∉ bm.findIndices e.keyword true) ∧
          p.type ≠ emptyPolyPatch.typeName ∧ dict.found p.name = false) ∧
    ((¬ ∃ (i : Nat) (p : Patch), bm.patches[i]? = some p ∧
          (∀ e ∈ dict.entries, ∀ d, e.dictPtr = some d → e.isPattern = false →
            bm.findPatchID e.keyword ≠ (i : Int)) ∧
          (∀ e ∈ dict.entries, ∀ d, e.dictPtr = some d → e.isPattern = false →
            i ∉ bm.findIndices e.keyword true) ∧
          p.type ≠ emptyPolyPatch.typeName ∧ dict.found p.name = false) →
      ∃ bf, readField tbl bm field dict self = Except.ok bf ∧
        ∀ (i : Nat) (p : Patch), bm.patches[i]? = some p →
          (∀ e ∈ dict.entries, ∀ d, e.dictPtr = some d → e.isPattern = false →
            bm.findPatchID e.keyword ≠ (i : Int)) →
          (∀ e ∈ dict.entries, ∀ d, e.dictPtr = some d → e.isPattern = false →
            i ∉ bm.findIndices e.keyword true) →
          p.type ≠ emptyPolyPatch.typeName →
          PtrList.ptr bf i = some (tbl.New p field (dict.subDict p.name))) := by
  obtain ⟨bf1, n, h1, hlen1, hset1, hn0⟩ := readField.step1_analysis tbl bm field dict self hv hk
  obtain ⟨bf2, h2, hlen2, hkeep, hnone2⟩ := readField.step2_analysis tbl bm field dict bf1 hv hlen1
  have hrun := readField.unfold_ok tbl bm field dict self bf1 bf2 n h1 h2
  -- a slot empty after step 3 satisfies (i)-(iv)
  have hchar : ∀ (i : Nat) (p : Patch), bm.patches[i]? = some p →
      (PtrList.isSet (readField.step3 tbl bm field dict bf2) i = false ↔
        ((∀ e ∈ dict.entries, ∀ d, e.dictPtr = some d → e.isPattern = false →
            bm.findPatchID e.keyword ≠ (i : Int)) ∧
          (∀ e ∈ dict.entries, ∀ d, e.dictPtr = some d → e.isPattern = false →
            i ∉ bm.findIndices e.keyword true) ∧
          p.type ≠ emptyPolyPatch.typeName ∧ dict.found p.name = false)) := by
    intro i p hp
    rw [PtrList.isSet_eq_false_iff, (readField.step3_ptr tbl bm field dict bf2 hlen2 i).2, hp]
    have h1set : PtrList.ptr bf1 i = none ↔
        (∀ e ∈ dict.entries, ∀ d, e.dictPtr = some d → e.isPattern = false →
            bm.findPatchID e.keyword ≠ (i : Int)) := by
      rw [← PtrList.isSet_eq_false_iff]
      constructor
      · intro hs e he d hd hpat hf
        have := (hset1 i).2 ((readField.mem_hits_iff bm hv dict.entries i).2
          ⟨e, he, d, hd, hpat, hf⟩)
        rw [hs] at this
        cases this
      · intro hall
        cases hs : PtrList.isSet bf1 i with
        | false => rfl
        | true =>
          obtain ⟨e, he, d, hd, hpat, hf⟩ :=
            (readField.mem_hits_iff bm hv dict.entries i).1 ((hset1 i).1 hs)
          exact absurd hf (hall e he d hd hpat)
    have h2set : PtrList.ptr bf2 i = none ↔
        ((∀ e ∈ dict.entries, ∀ d, e.dictPtr = some d → e.isPattern = false →
            bm.findPatchID e.keyword ≠ (i : Int)) ∧
          (∀ e ∈ dict.entries, ∀ d, e.dictPtr = some d → e.isPattern = false →
            i ∉ bm.findIndices e.keyword true)) := by
      rw [hnone2 i, h1set]
      constructor
      · exact fun h => ⟨h.1, fun e he => (readField.groupDict_eq_none bm i e).1 (h.2 e he)⟩
      · exact fun h => ⟨h.1, fun e he => (readField.groupDict_eq_none bm i e).2 (h.2 e he)⟩
    cases hb : PtrList.ptr bf2 i with
    | some x =>
      simp only []
      constructor
      · intro hc; cases hc
      · intro hc
        rw [h2set.2 ⟨hc.1, hc.2.1⟩] at hb
        cases hb
    | none =>
      have h12 := h2set.1 hb
      simp only [Option.some_bind, readField.wildcardPtr]
      by_cases ht : p.type = emptyPolyPatch.typeName
      · simp [ht]
      · cases hfd : dict.found p.name with
        | true => simp [ht, hfd]
        | false =>
          simp only [if_neg ht, hfd, Bool.false_eq_true, if_false, true_iff]
          exact ⟨h12.1, h12.2, ht, trivial⟩
  have hU_ne : ∀ (i : Nat) (p : Patch), bm.patches[i]? = some p →
      (∀ e ∈ dict.entries, ∀ d, e.dictPtr = some d → e.isPattern = false →
          bm.findPatchID e.keyword ≠ (i : Int)) → n ≠ 0 := by
    intro i p hp hi hc
    have hlt : i < bm.patches.length := by
      by_contra hge
      rw [List.getElem?_eq_none (Nat.le_of_not_lt hge)] at hp
      cases hp
    obtain ⟨e, he, d, hd, hpat, hf⟩ :=
      (readField.mem_hits_iff bm hv dict.entries i).1 ((hset1 i).1 (hn0.1 hc i hlt))
    exact hi e he d hd hpat hf
  have hfwd : (∃ err, readField tbl bm field dict self = Except.error err
        ∧ err.isUnresolvedPatch = true) →
      ∃ (i : Nat) (p : Patch), bm.patches[i]? = some p ∧
          (∀ e ∈ dict.entries, ∀ d, e.dictPtr = some d → e.isPattern = false →
            bm.findPatchID e.keyword ≠ (i : Int)) ∧
          (∀ e ∈ dict.entries, ∀ d, e.dictPtr = some d → e.isPattern = false →
            i ∉ bm.findIndices e.keyword true) ∧
          p.type ≠ emptyPolyPatch.typeName ∧ dict.found p.name = false := by
    rintro ⟨err, herr, _⟩
    rw [hrun] at herr
    by_cases hn : n = 0
    · rw [if_pos hn] at herr
      cases herr
    · rw [if_neg hn] at herr
      cases hc : readField.checkUnset (readField.step3 tbl bm field dict bf2) bm.patches.enum with
      | ok u => rw [hc] at herr; cases herr
      | error err' =>
        obtain ⟨j, q, hq, hu, _, _⟩ := readField.checkUnset_enum_error _ _ _ hc
        exact ⟨j, q, hq, (hchar j q hq).1 hu⟩
  have hbwd : (∃ (i : Nat) (p : Patch), bm.patches[i]? = some p ∧
          (∀ e ∈ dict.entries, ∀ d, e.dictPtr = some d → e.isPattern = false →
            bm.findPatchID e.keyword ≠ (i : Int)) ∧
          (∀ e ∈ dict.entries, ∀ d, e.dictPtr = some d → e.isPattern = false →
            i ∉ bm.findIndices e.keyword true) ∧
          p.type ≠ emptyPolyPatch.typeName ∧ dict.found p.name = false) →
      ∃ err, readField tbl bm field dict self = Except.error err
        ∧ err.isUnresolvedPatch = true := by
    rintro ⟨i, p, hp, hi⟩
    have hn := hU_ne i p hp hi.1
    have hu := (hchar i p hp).2 hi
    have hlt : i < bm.patches.length := by
      by_contra hge
      rw [List.getElem?_eq_none (Nat.le_of_not_lt hge)] at hp
      cases hp
    rw [hrun, if_neg hn]
    cases hc : readField.checkUnset (readField.step3 tbl bm field dict bf2) bm.patches.enum with
    | ok u =>
      cases u
      rw [(readField.checkUnset_enum_ok _ _).1 hc i hlt] at hu
      cases hu
    | error err' =>
      obtain ⟨j, q, _, _, _, herr⟩ := readField.checkUnset_enum_error _ _ _ hc
      refine ⟨err', rfl, ?_⟩
      rw [herr]
      by_cases ht : q.type = cyclicPolyPatch.typeName
      · rw [if_pos ht]; rfl
      · rw [if_neg ht]; rfl
  refine ⟨⟨hfwd, hbwd⟩, fun hno => ?_⟩
  have hall : ∀ j, j < bm.patches.length →
      PtrList.isSet (readField.step3 tbl bm field dict bf2) j = true := by
    intro j hj
    cases hs : PtrList.isSet (readField.step3 tbl bm field dict bf2) j with
    | true => rfl
    | false =>
      exfalso
      exact hno ⟨j, bm.patches[j], List.getElem?_eq_getElem hj,
        (hchar j _ (List.getElem?_eq_getElem hj)).1 hs⟩
  have hcheck := (readField.checkUnset_enum_ok _ _).2 hall
  by_cases hn : n = 0
  · refine ⟨bf1, by rw [hrun, if_pos hn], fun i p hp hi _ _ => ?_⟩
    exact absurd hn (hU_ne i p hp hi)
  · refine ⟨readField.step3 tbl bm field dict bf2, by rw [hrun, if_neg hn, hcheck],
      fun i p hp hi hii ht => ?_⟩
    have hfound : dict.found p.name = true := by
      cases hfd : dict.found p.name with
      | true => rfl
      | false => exact absurd ⟨i, p, hp, hi, hii, ht, hfd⟩ hno
    have hlt : i < bm.patches.length := by
      by_contra hge
      rw [List.getElem?_eq_none (Nat.le_of_not_lt hge)] at hp
      cases hp
    have hb2 : PtrList.ptr bf2 i = none := by
      rw [hnone2 i]
      refine ⟨?_, fun e he => (readField.groupDict_eq_none bm i e).2 (hii e he)⟩
      rw [← PtrList.isSet_eq_false_iff]
      cases hs : PtrList.isSet bf1 i with
      | false => rfl
      | true =>
        obtain ⟨e, he, d, hd, hpat, hf⟩ :=
          (readField.mem_hits_iff bm hv dict.entries i).1 ((hset1 i).1 hs)
        exact absurd hf (hi e he d hd hpat)
    rw [(readField.step3_ptr tbl bm field dict bf2 hlen2 i).2, hb2, hp]
    simp [readField.wildcardPtr, ht, hfound]

/-! ## The small case: facts used by the witnesses -/

theorem exampleDict_keysDistinct : exampleDict.keysDistinct := by
  unfold dictionary.keysDistinct
  decide

theorem exampleDictNoWildcard_keysDistinct : exampleDictNoWildcard.keysDistinct := by
  unfold dictionary.keysDistinct
  decide

theorem exampleDict_readField :
    readField exampleTable exampleMesh () exampleDict []
      = Except.ok [some ("inlet", "fixedValue"), some ("outlet", "inletOutlet"),
          some ("walls", "calculated"), some ("frontAndBack", "empty")] := by
  rfl

/-- Witness of C1: the small case, which `readField` resolves completely. -/
theorem readField_all_slots_set_witness :
    exampleMesh.valid ∧ exampleDict.keysDistinct ∧
    readField exampleTable exampleMesh () exampleDict []
      = Except.ok [some ("inlet", "fixedValue"), some ("outlet", "inletOutlet"),
          some ("walls", "calculated"), some ("frontAndBack", "empty")] ∧
    ([some ("inlet", "fixedValue"), some ("outlet", "inletOutlet"),
        some ("walls", "calculated"), some ("frontAndBack", "empty")] :
          PtrList (word × word)).length = exampleMesh.patches.length ∧
    PtrList.isSet ([some ("inlet", "fixedValue"), some ("outlet", "inletOutlet"),
        some ("walls", "calculated"), some ("frontAndBack", "empty")] :
          PtrList (word × word)) 3 = true :=
  ⟨BoundaryMesh.ofPatches_valid _, exampleDict_keysDistinct, exampleDict_readField,
    (readField_all_slots_set exampleTable exampleMesh () exampleDict [] _
      (BoundaryMesh.ofPatches_valid _) exampleDict_keysDistinct exampleDict_readField).1,
    (readField_all_slots_set exampleTable exampleMesh () exampleDict [] _
      (BoundaryMesh.ofPatches_valid _) exampleDict_keysDistinct exampleDict_readField).2.1 3
      (by decide)⟩

/-- Witness of C2: patch `outlet` belongs to the groups `openings` and `outflow`,
declared in that order; its slot is built from the entry `outflow`. -/
theorem readField_last_group_wins_witness :
    exampleMesh.valid ∧ exampleDict.keysDistinct ∧
    (1 ∈ exampleMesh.findIndices "openings" true) ∧
    (1 ∈ exampleMesh.findIndices "outflow" true) ∧
    ∃ p, exampleMesh.patches[1]? = some p ∧
      PtrList.ptr ([some ("inlet", "fixedValue"), some ("outlet", "inletOutlet"),
        some ("walls", "calculated"), some ("frontAndBack", "empty")] :
          PtrList (word × word)) 1 = some (exampleTable.New p () "inletOutlet") ∧
      (exampleTable.New p () "zeroGradient" ≠ exampleTable.New p () "inletOutlet" →
        PtrList.ptr ([some ("inlet", "fixedValue"), some ("outlet", "inletOutlet"),
          some ("walls", "calculated"), some ("frontAndBack", "empty")] :
            PtrList (word × word)) 1 ≠ some (exampleTable.New p () "zeroGradient")) :=
  ⟨BoundaryMesh.ofPatches_valid _, exampleDict_keysDistinct, by decide, by decide,
    readField_last_group_wins exampleTable exampleMesh () exampleDict [] _
      [⟨"inlet", false, some "fixedValue"⟩] [] [⟨".*", true, some "calculated"⟩]
      ⟨"openings", false, some "zeroGradient"⟩ ⟨"outflow", false, some "inletOutlet"⟩
      "zeroGradient" "inletOutlet" 1
      (BoundaryMesh.ofPatches_valid _) exampleDict_keysDistinct rfl
      ⟨rfl, rfl, by decide⟩ ⟨rfl, rfl, by decide⟩
      (by
        intro e he d _ hp
        rw [List.mem_singleton] at he
        rw [he] at hp
        cases hp)
      (by
        intro e he d _ hp
        have he' : e ∈ [(⟨"inlet", false, some "fixedValue"⟩ : entry word),
            ⟨"openings", false, some "zeroGradient"⟩, ⟨"outflow", false, some "inletOutlet"⟩,
            ⟨".*", true, some "calculated"⟩] := he
        simp only [List.mem_cons, List.mem_singleton, List.not_mem_nil, or_false] at he'
        rcases he' with h | h | h | h
        · rw [h]; decide
        · rw [h]; decide
        · rw [h]; decide
        · rw [h] at hp; cases hp)
      exampleDict_readField⟩

/-- Witness of C3: the entry `inlet` names patch 0, which also belongs to the group
`openings`; its slot is built from the entry `inlet`. -/
theorem readField_exact_name_first_witness :
    exampleMesh.valid ∧ exampleDict.keysDistinct ∧
    exampleMesh.findPatchID "inlet" = ((0 : Nat) : Int) ∧
    ∃ p, exampleMesh.patches[0]? = some p ∧ p.name = "inlet" ∧
      PtrList.ptr ([some ("inlet", "fixedValue"), some ("outlet", "inletOutlet"),
        some ("walls", "calculated"), some ("frontAndBack", "empty")] :
          PtrList (word × word)) 0 = some (exampleTable.New p () "fixedValue") :=
  ⟨BoundaryMesh.ofPatches_valid _, exampleDict_keysDistinct, by decide,
    (readField_exact_name_first exampleTable exampleMesh () exampleDict []
      ⟨"inlet", false, some "fixedValue"⟩ "fixedValue" 0
      (BoundaryMesh.ofPatches_valid _) exampleDict_keysDistinct
      (List.mem_cons_self _ _) rfl rfl (by decide)).1 _ exampleDict_readField⟩

end readFieldLemmas

/-! ## Evaluation: the calls issued -/

theorem World.foldl_issue_calls {α : Type} (posts : Call → Nat) (f : α → Call) (l : List α)
    (w : World) :
    (l.foldl (fun w a => World.issue posts (f a) w) w).calls = w.calls ++ l.map f := by
  induction l generalizing w with
  | nil => simp
  | cons a l ih =>
    rw [List.foldl_cons, ih]
    simp [World.issue]

theorem World.foldl_issue_if_calls {α : Type} (posts : Call → Nat) (c : α → Bool)
    (f : α → Call) (l : List α) (w : World) :
    (l.foldl (fun w a => if c a = true then World.issue posts (f a) w else w) w).calls
      = w.calls ++ (l.filter c).map f := by
  induction l generalizing w with
  | nil => simp
  | cons a l ih =>
    rw [List.foldl_cons, ih]
    cases h : c a <;> simp [World.issue, h]

theorem evaluate_schedule_fold (posts : Call → Nat) (ct : commsTypes)
    (sched : List lduScheduleEntry) (w : World) :
    (sched.foldl (fun w s =>
        if s.init = true then World.issue posts (Call.initEvaluate s.patch ct) w
        else World.issue posts (Call.evaluate s.patch ct) w) w).calls
      = w.calls ++ sched.map (fun s =>
          if s.init = true then Call.initEvaluate s.patch ct else Call.evaluate s.patch ct) := by
  induction sched generalizing w with
  | nil => simp
  | cons s l ih =>
    rw [List.foldl_cons, ih]
    cases h : s.init <;> simp [World.issue, h]

theorem neighbour_fold (posts : Call → Nat) (coupled : Nat → Bool) (ct : commsTypes)
    (l : List Nat) (st : World × List ResultSlot) :
    (l.foldl (fun st patchi =>
        if coupled patchi = true then
          (World.issue posts (Call.patchNeighbourField patchi ct) st.1,
            List.set st.2 patchi (ResultSlot.neighbour patchi ct))
        else st) st).1.calls
      = st.1.calls ++ (l.filter coupled).map (fun i => Call.patchNeighbourField i ct)
    ∧ ∀ j : Nat,
      (l.foldl (fun st patchi =>
        if coupled patchi = true then
          (World.issue posts (Call.patchNeighbourField patchi ct) st.1,
            List.set st.2 patchi (ResultSlot.neighbour patchi ct))
        else st) st).2[j]?
      = if j ∈ l ∧ coupled j = true ∧ j < st.2.length then some (ResultSlot.neighbour j ct)
        else st.2[j]? := by
  induction l generalizing st with
  | nil => simp
  | cons a l ih =>
    rw [List.foldl_cons]
    cases h : coupled a
    · simp only [h, Bool.false_eq_true, if_false]
      obtain ⟨h1, h2⟩ := ih st
      refine ⟨by rw [h1]; simp [h], fun j => ?_⟩
      rw [h2 j]
      by_cases hj : j = a
      · subst hj; simp [h]
      · simp [hj]
    · simp only [h, if_true]
      obtain ⟨h1, h2⟩ := ih (World.issue posts (Call.patchNeighbourField a ct) st.1,
        List.set st.2 a (ResultSlot.neighbour a ct))
      refine ⟨by rw [h1]; simp [h, World.issue], fun j => ?_⟩
      rw [h2 j]
      simp only [List.length_set, List.getElem?_set, List.mem_cons]
      by_cases hj : a = j
      · subst hj
        by_cases hl : a < st.2.length <;> simp [h, hl]
        omega
      · have hj' : ¬ j = a := fun e => hj e.symm
        simp [hj, hj']

theorem neighbour_schedule_fold (posts : Call → Nat) (coupled : Nat → Bool) (ct : commsTypes)
    (sched : List lduScheduleEntry) (st : World × List ResultSlot) :
    (sched.foldl (fun st s =>
        if coupled s.patch = true then
          if s.init = true then
            (World.issue posts (Call.initPatchNeighbourField s.patch ct) st.1, st.2)
          else
            (World.issue posts (Call.patchNeighbourField s.patch ct) st.1,
              List.set st.2 s.patch (ResultSlot.neighbour s.patch ct))
        else st) st).1.calls
      = st.1.calls ++ (sched.filter (fun s => coupled s.patch)).map (fun s =>
          if s.init = true then Call.initPatchNeighbourField s.patch ct
          else Call.patchNeighbourField s.patch ct) := by
  induction sched generalizing st with
  | nil => simp
  | cons s l ih =>
    rw [List.foldl_cons, ih]
    cases h : coupled s.patch <;> cases h' : s.init <;> simp [World.issue, h, h']

theorem cloneAll_eq (posts : Call → Nat) (size : Nat) (w : World) :
    (GeometricBoundaryField.cloneAll posts size w).1.calls
        = w.calls ++ (List.range size).map Call.clone
    ∧ (GeometricBoundaryField.cloneAll posts size w).2
        = (List.range size).map ResultSlot.cloned := by
  unfold GeometricBoundaryField.cloneAll
  have key : ∀ (l : List Nat) (st : World × List ResultSlot),
      (l.foldl (fun st patchi =>
        (World.issue posts (Call.clone patchi) st.1, st.2 ++ [ResultSlot.cloned patchi])) st).1.calls
        = st.1.calls ++ l.map Call.clone ∧
      (l.foldl (fun st patchi =>
        (World.issue posts (Call.clone patchi) st.1, st.2 ++ [ResultSlot.cloned patchi])) st).2
        = st.2 ++ l.map ResultSlot.cloned := by
    intro l
    induction l with
    | nil => intro st; simp
    | cons a l ih =>
      intro st
      rw [List.foldl_cons]
      obtain ⟨h1, h2⟩ := ih (World.issue posts (Call.clone a) st.1, st.2 ++ [ResultSlot.cloned a])
      rw [h1, h2]
      simp [World.issue]
  simpa using key (List.range size) (w, [])

theorem evaluate_twoPhase_calls (ps : Pstream) (posts : Call → Nat) (size : Nat)
    (sched : List lduScheduleEntry) (w : World)
    (h : ps.defaultCommsType = commsTypes.blocking
      ∨ ps.defaultCommsType = commsTypes.nonBlocking) :
    (GeometricBoundaryField.evaluate ps posts size sched w).2 = none ∧
    (GeometricBoundaryField.evaluate ps posts size sched w).1.calls =
      w.calls
        ++ (List.range size).map (fun i => Call.initEvaluate i ps.defaultCommsType)
        ++ (if ps.parRun = true ∧ ps.defaultCommsType = commsTypes.nonBlocking
            then [Call.waitRequests w.nRequests] else [])
        ++ (List.range size).map (fun i => Call.evaluate i ps.defaultCommsType) := by
  unfold GeometricBoundaryField.evaluate
  rw [if_pos h]
  refine ⟨rfl, ?_⟩
  simp only []
  rw [World.foldl_issue_calls]
  by_cases hw : ps.parRun = true ∧ ps.defaultCommsType = commsTypes.nonBlocking
  · rw [if_pos hw, if_pos hw]
    simp [World.waitRequests, World.foldl_issue_calls]
  · rw [if_neg hw, if_neg hw]
    simp [World.foldl_issue_calls]

theorem commsTypes.blocking_ne_nonBlocking : commsTypes.blocking ≠ commsTypes.nonBlocking := by
  decide

theorem commsTypes.scheduled_ne_blocking : commsTypes.scheduled ≠ commsTypes.blocking := by
  decide

theorem commsTypes.scheduled_ne_nonBlocking : commsTypes.scheduled ≠ commsTypes.nonBlocking := by
  decide

theorem neighbour_twoPhase (ps : Pstream) (posts : Call → Nat) (size : Nat)
    (coupled : Nat → Bool) (sched : List lduScheduleEntry) (w : World)
    (h : ps.defaultCommsType = commsTypes.blocking
      ∨ ps.defaultCommsType = commsTypes.nonBlocking) :
    (GeometricBoundaryField.boundaryNeighbourField ps posts size coupled sched w).2 = none ∧
    (GeometricBoundaryField.boundaryNeighbourField ps posts size coupled sched w).1.1.calls =
      w.calls
        ++ (List.range size).map Call.clone
        ++ ((List.range size).filter coupled).map
            (fun i => Call.initPatchNeighbourField i ps.defaultCommsType)
        ++ (if ps.parRun = true ∧ ps.defaultCommsType = commsTypes.nonBlocking
            then [Call.waitRequests (GeometricBoundaryField.cloneAll posts size w).1.nRequests]
            else [])
        ++ ((List.range size).filter coupled).map
            (fun i => Call.patchNeighbourField i ps.defaultCommsType) ∧
    ∀ i : Nat, i < size →
      (GeometricBoundaryField.boundaryNeighbourField ps posts size coupled sched w).1.2[i]? =
        some (if coupled i = true then ResultSlot.neighbour i ps.defaultCommsType
          else ResultSlot.cloned i) := by
  unfold GeometricBoundaryField.boundaryNeighbourField
  simp only []
  rw [if_pos h]
  refine ⟨rfl, ?_, ?_⟩
  · rw [(neighbour_fold posts coupled ps.defaultCommsType _ _).1]
    by_cases hw : ps.parRun = true ∧ ps.defaultCommsType = commsTypes.nonBlocking
    · simp only [if_pos hw, World.waitRequests, World.foldl_issue_if_calls,
        (cloneAll_eq posts size w).1]
    · simp only [if_neg hw, World.foldl_issue_if_calls, (cloneAll_eq posts size w).1]
      simp
  · intro i hi
    rw [(neighbour_fold posts coupled ps.defaultCommsType _ _).2 i]
    simp only [(cloneAll_eq posts size w).2]
    cases hc : coupled i <;> simp [hi]

/-! ## Claims on `evaluate` and `boundaryNeighbourField` -/

/-- C6, as stated, fails in a serial run: under the non-blocking discipline with
`parRun()` false, `evaluate()` on two patches issues the two `initEvaluate` calls
and the two `evaluate` calls and no `waitRequests` at all. -/
theorem evaluate_nonBlocking_serial_has_no_wait :
    (GeometricBoundaryField.evaluate ⟨commsTypes.nonBlocking, false⟩ (fun _ => 1) 2 []
        ⟨3, []⟩).1.calls
      = [Call.initEvaluate 0 commsTypes.nonBlocking, Call.initEvaluate 1 commsTypes.nonBlocking,
          Call.evaluate 0 commsTypes.nonBlocking, Call.evaluate 1 commsTypes.nonBlocking]
    ∧ (GeometricBoundaryField.evaluate ⟨commsTypes.nonBlocking, false⟩ (fun _ => 1) 2 []
        ⟨3, []⟩).1.calls.any Call.isWait = false := by
  decide

/-- C6, amended: under the non-blocking discipline `evaluate()` raises no error and
issues, after the calls already made, `initEvaluate(nonBlocking)` once on every
patch in index order, then, in a parallel run only, one `waitRequests` on the
request count read before the first `initEvaluate`, then `evaluate(nonBlocking)`
once on every patch in index order; so every `evaluate` comes after every
`initEvaluate` of the pass. -/
theorem evaluate_nonBlocking_two_phase (ps : Pstream) (posts : Call → Nat) (size : Nat)
    (patchSchedule : List lduScheduleEntry) (w : World)
    (h : ps.defaultCommsType = commsTypes.nonBlocking) :
    (GeometricBoundaryField.evaluate ps posts size patchSchedule w).2 = none ∧
    (GeometricBoundaryField.evaluate ps posts size patchSchedule w).1.calls =
      w.calls
        ++ (List.range size).map (fun i => Call.initEvaluate i commsTypes.nonBlocking)
        ++ (if ps.parRun = true then [Call.waitRequests w.nRequests] else [])
        ++ (List.range size).map (fun i => Call.evaluate i commsTypes.nonBlocking) := by
  have key := evaluate_twoPhase_calls ps posts size patchSchedule w (Or.inr h)
  refine ⟨key.1, ?_⟩
  rw [key.2, h]
  simp

/-- Witness of C6 (amended): a parallel non-blocking run on two patches, with three
requests outstanding before the call and each call posting one more. -/
theorem evaluate_nonBlocking_two_phase_witness :
    (Pstream.mk commsTypes.nonBlocking true).defaultCommsType = commsTypes.nonBlocking ∧
    (GeometricBoundaryField.evaluate ⟨commsTypes.nonBlocking, true⟩ (fun _ => 1) 2 []
        ⟨3, []⟩).1.calls
      = [Call.initEvaluate 0 commsTypes.nonBlocking, Call.initEvaluate 1 commsTypes.nonBlocking,
          Call.waitRequests 3,
          Call.evaluate 0 commsTypes.nonBlocking, Call.evaluate 1 commsTypes.nonBlocking] :=
  ⟨rfl, (evaluate_nonBlocking_two_phase ⟨commsTypes.nonBlocking, true⟩ (fun _ => 1) 2 []
    ⟨3, []⟩ rfl).2.trans (by decide)⟩

/-- C7: under the scheduled discipline `evaluate()` raises no error and the calls it
issues are exactly the image of the patch schedule, in order: step `s` issues
`initEvaluate(scheduled)` on patch `s.patch` when `s.init` holds and
`evaluate(scheduled)` on it otherwise; nothing else is issued, no wait either. -/
theorem evaluate_scheduled_replays_schedule (ps : Pstream) (posts : Call → Nat) (size : Nat)
    (patchSchedule : List lduScheduleEntry) (w : World)
    (h : ps.defaultCommsType = commsTypes.scheduled) :
    (GeometricBoundaryField.evaluate ps posts size patchSchedule w).2 = none ∧
    (GeometricBoundaryField.evaluate ps posts size patchSchedule w).1.calls =
      w.calls ++ patchSchedule.map (fun s =>
        if s.init = true then Call.initEvaluate s.patch commsTypes.scheduled
        else Call.evaluate s.patch commsTypes.scheduled) := by
  unfold GeometricBoundaryField.evaluate
  have hb : ¬ (ps.defaultCommsType = commsTypes.blocking
      ∨ ps.defaultCommsType = commsTypes.nonBlocking) := by
    rw [h]
    decide
  rw [if_neg hb, if_pos h]
  exact ⟨rfl, evaluate_schedule_fold posts commsTypes.scheduled patchSchedule w⟩

/-- Witness of C7: a schedule of four steps over two patches. -/
theorem evaluate_scheduled_replays_schedule_witness :
    (Pstream.mk commsTypes.scheduled true).defaultCommsType = commsTypes.scheduled ∧
    (GeometricBoundaryField.evaluate ⟨commsTypes.scheduled, true⟩ (fun _ => 1) 2
        [⟨1, true⟩, ⟨0, true⟩, ⟨0, false⟩, ⟨1, false⟩] ⟨0, []⟩).1.calls
      = [Call.initEvaluate 1 commsTypes.scheduled, Call.initEvaluate 0 commsTypes.scheduled,
          Call.evaluate 0 commsTypes.scheduled, Call.evaluate 1 commsTypes.scheduled] :=
  ⟨rfl, (evaluate_scheduled_replays_schedule ⟨commsTypes.scheduled, true⟩ (fun _ => 1) 2
    [⟨1, true⟩, ⟨0, true⟩, ⟨0, false⟩, ⟨1, false⟩] ⟨0, []⟩ rfl).2.trans (by decide)⟩

/-- C8: under the blocking discipline `evaluate()` raises no error and issues, after
the calls already made, `initEvaluate(blocking)` once on every patch in index
order, directly followed, in the same call of `evaluate()`, by `evaluate(blocking)`
once on every patch in index order; no `waitRequests` is issued, in a parallel
run or a serial one. -/
theorem evaluate_blocking_calls (ps : Pstream) (posts : Call → Nat) (size : Nat)
    (patchSchedule : List lduScheduleEntry) (w : World)
    (h : ps.defaultCommsType = commsTypes.blocking) :
    (GeometricBoundaryField.evaluate ps posts size patchSchedule w).2 = none ∧
    (GeometricBoundaryField.evaluate ps posts size patchSchedule w).1.calls =
      w.calls
        ++ (List.range size).map (fun i => Call.initEvaluate i commsTypes.blocking)
        ++ (List.range size).map (fun i => Call.evaluate i commsTypes.blocking) ∧
    ((GeometricBoundaryField.evaluate ps posts size patchSchedule w).1.calls.drop
        w.calls.length).any Call.isWait = false := by
  have key := evaluate_twoPhase_calls ps posts size patchSchedule w (Or.inl h)
  have hnb : ¬ (ps.parRun = true ∧ ps.defaultCommsType = commsTypes.nonBlocking) := by
    rw [h]
    exact fun hh => commsTypes.blocking_ne_nonBlocking hh.2
  rw [if_neg hnb, h] at key
  refine ⟨key.1, by simpa using key.2, ?_⟩
  rw [key.2]
  simp [Call.isWait]

/-- Witness of C8: a parallel blocking run on two patches. -/
theorem evaluate_blocking_calls_witness :
    (Pstream.mk commsTypes.blocking true).defaultCommsType = commsTypes.blocking ∧
    (GeometricBoundaryField.evaluate ⟨commsTypes.blocking, true⟩ (fun _ => 1) 2 []
        ⟨3, []⟩).1.calls
      = [Call.initEvaluate 0 commsTypes.blocking, Call.initEvaluate 1 commsTypes.blocking,
          Call.evaluate 0 commsTypes.blocking, Call.evaluate 1 commsTypes.blocking] :=
  ⟨rfl, (evaluate_blocking_calls ⟨commsTypes.blocking, true⟩ (fun _ => 1) 2 []
    ⟨3, []⟩ rfl).2.1.trans (by decide)⟩

/-- C9: `evaluate()` and `boundaryNeighbourField()` each raise the "Unsupported
communications type" error exactly when the discipline is none of blocking,
non-blocking and scheduled, and raise nothing otherwise; when they raise it,
`evaluate()` has issued no call at all and `boundaryNeighbourField()` has issued
only the `clone` calls that build its result, none of them an exchange call or a
wait. -/
theorem unsupported_commsType_iff (ps : Pstream) (posts : Call → Nat) (size : Nat)
    (coupled : Nat → Bool) (patchSchedule : List lduScheduleEntry) (w : World) :
    ((GeometricBoundaryField.evaluate ps posts size patchSchedule w).2
        = some (FatalError.unsupportedCommsType ps.defaultCommsType.code)
      ↔ (ps.defaultCommsType ≠ commsTypes.blocking ∧ ps.defaultCommsType ≠ commsTypes.nonBlocking
          ∧ ps.defaultCommsType ≠ commsTypes.scheduled)) ∧
    ((GeometricBoundaryField.evaluate ps posts size patchSchedule w).2 = none
      ↔ ¬ (ps.defaultCommsType ≠ commsTypes.blocking ∧ ps.defaultCommsType ≠ commsTypes.nonBlocking
          ∧ ps.defaultCommsType ≠ commsTypes.scheduled)) ∧
    ((GeometricBoundaryField.boundaryNeighbourField ps posts size coupled patchSchedule w).2
        = some (FatalError.unsupportedCommsType ps.defaultCommsType.code)
      ↔ (ps.defaultCommsType ≠ commsTypes.blocking ∧ ps.defaultCommsType ≠ commsTypes.nonBlocking
          ∧ ps.defaultCommsType ≠ commsTypes.scheduled)) ∧
    ((GeometricBoundaryField.boundaryNeighbourField ps posts size coupled patchSchedule w).2 = none
      ↔ ¬ (ps.defaultCommsType ≠ commsTypes.blocking ∧ ps.defaultCommsType ≠ commsTypes.nonBlocking
          ∧ ps.defaultCommsType ≠ commsTypes.scheduled)) ∧
    ((ps.defaultCommsType ≠ commsTypes.blocking ∧ ps.defaultCommsType ≠ commsTypes.nonBlocking
          ∧ ps.defaultCommsType ≠ commsTypes.scheduled) →
      (GeometricBoundaryField.evaluate ps posts size patchSchedule w).1 = w ∧
      (GeometricBoundaryField.boundaryNeighbourField ps posts size coupled patchSchedule w).1.1.calls
        = w.calls ++ (List.range size).map Call.clone ∧
      ((GeometricBoundaryField.boundaryNeighbourField ps posts size coupled patchSchedule
          w).1.1.calls.drop w.calls.length).any Call.isExchange = false) := by
  unfold GeometricBoundaryField.evaluate GeometricBoundaryField.boundaryNeighbourField
  by_cases h1 : ps.defaultCommsType = commsTypes.blocking
      ∨ ps.defaultCommsType = commsTypes.nonBlocking
  · have hU : ¬ (ps.defaultCommsType ≠ commsTypes.blocking
        ∧ ps.defaultCommsType ≠ commsTypes.nonBlocking
        ∧ ps.defaultCommsType ≠ commsTypes.scheduled) := by
      rintro ⟨a, b, -⟩
      exact h1.elim a b
    simp only [if_pos h1]
    simp [hU]
  · by_cases h2 : ps.defaultCommsType = commsTypes.scheduled
    · have hU : ¬ (ps.defaultCommsType ≠ commsTypes.blocking
          ∧ ps.defaultCommsType ≠ commsTypes.nonBlocking
          ∧ ps.defaultCommsType ≠ commsTypes.scheduled) := by
        rintro ⟨-, -, c⟩
        exact c h2
      simp only [if_neg h1, if_pos h2]
      simp [hU]
    · have hU : ps.defaultCommsType ≠ commsTypes.blocking
          ∧ ps.defaultCommsType ≠ commsTypes.nonBlocking
          ∧ ps.defaultCommsType ≠ commsTypes.scheduled :=
        ⟨fun a => h1 (Or.inl a), fun b => h1 (Or.inr b), h2⟩
      simp only [if_neg h1, if_neg h2]
      refine ⟨by simp [hU], by simp [hU], by simp [hU], by simp [hU], fun _ => ⟨trivial, ?_, ?_⟩⟩
      · exact (cloneAll_eq posts size w).1
      · rw [(cloneAll_eq posts size w).1]
        simp [Call.isExchange]

/-- C9 at a concrete input: with a discipline of value 7, `evaluate()` fails with the
error and leaves the world untouched, and `boundaryNeighbourField()` fails with
it after the two `clone` calls. -/
theorem unsupported_commsType_iff_witness :
    (GeometricBoundaryField.evaluate ⟨⟨7⟩, true⟩ (fun _ => 1) 2 [] ⟨3, []⟩)
      = (⟨3, []⟩, some (FatalError.unsupportedCommsType 7)) ∧
    (GeometricBoundaryField.boundaryNeighbourField ⟨⟨7⟩, true⟩ (fun _ => 1) 2 (fun _ => true) []
        ⟨3, []⟩).1.1.calls = [Call.clone 0, Call.clone 1] :=
  ⟨by decide,
   ((unsupported_commsType_iff ⟨⟨7⟩, true⟩ (fun _ => 1) 2 (fun _ => true) [] ⟨3, []⟩).2.2.2.2
      (by decide)).2.1.trans (by decide)⟩

/-- C10: `boundaryNeighbourField()` skips uncoupled patches. Under the blocking and
the non-blocking discipline the calls issued after the clones are
`initPatchNeighbourField` on exactly the coupled patches in index order, the
wait of a parallel non-blocking run, and `patchNeighbourField` on exactly the
coupled patches in index order, and slot `i` of the result is assigned the
neighbour value when patch `i` is coupled and stays the clone otherwise. Under
the scheduled discipline the calls issued after the clones are the image of
the schedule steps whose patch is coupled; a step on an uncoupled patch issues
nothing. -/
theorem boundaryNeighbourField_skips_uncoupled (ps : Pstream) (posts : Call → Nat)
    (size : Nat) (coupled : Nat → Bool) (patchSchedule : List lduScheduleEntry) (w : World) :
    ((ps.defaultCommsType = commsTypes.blocking
        ∨ ps.defaultCommsType = commsTypes.nonBlocking) →
      (GeometricBoundaryField.boundaryNeighbourField ps posts size coupled patchSchedule w).1.1.calls
        = w.calls
          ++ (List.range size).map Call.clone
          ++ ((List.range size).filter coupled).map
              (fun i => Call.initPatchNeighbourField i ps.defaultCommsType)
          ++ (if ps.parRun = true ∧ ps.defaultCommsType = commsTypes.nonBlocking
              then [Call.waitRequests (GeometricBoundaryField.cloneAll posts size w).1.nRequests]
              else [])
          ++ ((List.range size).filter coupled).map
              (fun i => Call.patchNeighbourField i ps.defaultCommsType) ∧
      ∀ i : Nat, i < size →
        (GeometricBoundaryField.boundaryNeighbourField ps posts size coupled patchSchedule
            w).1.2[i]?
          = some (if coupled i = true then ResultSlot.neighbour i ps.defaultCommsType
              else ResultSlot.cloned i)) ∧
    (ps.defaultCommsType = commsTypes.scheduled →
      (GeometricBoundaryField.boundaryNeighbourField ps posts size coupled patchSchedule w).1.1.calls
        = w.calls
          ++ (List.range size).map Call.clone
          ++ (patchSchedule.filter (fun s => coupled s.patch)).map (fun s =>
              if s.init = true then Call.initPatchNeighbourField s.patch commsTypes.scheduled
              else Call.patchNeighbourField s.patch commsTypes.scheduled)) := by
  refine ⟨fun h => (neighbour_twoPhase ps posts size coupled patchSchedule w h).2, fun h => ?_⟩
  unfold GeometricBoundaryField.boundaryNeighbourField
  have hb : ¬ (ps.defaultCommsType = commsTypes.blocking
      ∨ ps.defaultCommsType = commsTypes.nonBlocking) := by
    rw [h]
    decide
  simp only []
  rw [if_neg hb, if_pos h, neighbour_schedule_fold, (cloneAll_eq posts size w).1, h]

/-- Witness of C10: three patches of which only patch 1 is coupled, in a parallel
non-blocking run and in a scheduled run whose schedule also names the uncoupled
patches. -/
theorem boundaryNeighbourField_skips_uncoupled_witness :
    (GeometricBoundaryField.boundaryNeighbourField ⟨commsTypes.nonBlocking, true⟩ (fun _ => 0) 3
        (fun i => decide (i = 1)) [] ⟨4, []⟩).1.1.calls
      = [Call.clone 0, Call.clone 1, Call.clone 2,
          Call.initPatchNeighbourField 1 commsTypes.nonBlocking, Call.waitRequests 4,
          Call.patchNeighbourField 1 commsTypes.nonBlocking] ∧
    (GeometricBoundaryField.boundaryNeighbourField ⟨commsTypes.scheduled, true⟩ (fun _ => 0) 3
        (fun i => decide (i = 1)) [⟨0, true⟩, ⟨1, true⟩, ⟨2, true⟩, ⟨0, false⟩, ⟨1, false⟩,
          ⟨2, false⟩] ⟨4, []⟩).1.1.calls
      = [Call.clone 0, Call.clone 1, Call.clone 2,
          Call.initPatchNeighbourField 1 commsTypes.scheduled,
          Call.patchNeighbourField 1 commsTypes.scheduled] :=
  ⟨((boundaryNeighbourField_skips_uncoupled ⟨commsTypes.nonBlocking, true⟩ (fun _ => 0) 3
      (fun i => decide (i = 1)) [] ⟨4, []⟩).1 (Or.inr rfl)).1.trans (by decide),
   ((boundaryNeighbourField_skips_uncoupled ⟨commsTypes.scheduled, true⟩ (fun _ => 0) 3
      (fun i => decide (i = 1)) [⟨0, true⟩, ⟨1, true⟩, ⟨2, true⟩, ⟨0, false⟩, ⟨1, false⟩,
        ⟨2, false⟩] ⟨4, []⟩).2 rfl).trans (by decide)⟩

/-! ## Claims on `boundaryInternalField`, `updateCoeffs` and `writeEntry` -/

theorem internal_fold (posts : Call → Nat) (l : List Nat) (st : World × List ResultSlot) :
    (l.foldl (fun st patchi =>
        (World.issue posts (Call.patchInternalField patchi) st.1,
          List.set st.2 patchi (ResultSlot.internal patchi))) st).1.calls
      = st.1.calls ++ l.map Call.patchInternalField
    ∧ (l.foldl (fun st patchi =>
        (World.issue posts (Call.patchInternalField patchi) st.1,
          List.set st.2 patchi (ResultSlot.internal patchi))) st).2.length = st.2.length
    ∧ ∀ j : Nat,
      (l.foldl (fun st patchi =>
        (World.issue posts (Call.patchInternalField patchi) st.1,
          List.set st.2 patchi (ResultSlot.internal patchi))) st).2[j]?
      = if j ∈ l ∧ j < st.2.length then some (ResultSlot.internal j) else st.2[j]? := by
  induction l generalizing st with
  | nil => simp
  | cons a l ih =>
    rw [List.foldl_cons]
    obtain ⟨h1, h2, h3⟩ := ih (World.issue posts (Call.patchInternalField a) st.1,
      List.set st.2 a (ResultSlot.internal a))
    refine ⟨by rw [h1]; simp [World.issue], by rw [h2]; simp, fun j => ?_⟩
    rw [h3 j]
    simp only [List.length_set, List.getElem?_set, List.mem_cons]
    by_cases hj : a = j
    · subst hj
      by_cases hl : a < st.2.length <;> simp [hl]
      omega
    · have hj' : ¬ j = a := fun e => hj e.symm
      simp [hj, hj']

/-- C11: `boundaryInternalField()` raises no error and returns a container with as
many slots as the source, in which every slot `i` has been force-assigned
`patchInternalField()` of patch field `i`; the calls it issues are the clones
that build the result and one `patchInternalField` per patch, none of them an
exchange call or a wait; and nothing of this depends on the communication
discipline, supported or not, on `parRun()` or on the patch schedule. -/
theorem boundaryInternalField_result (ps : Pstream) (posts : Call → Nat) (size : Nat)
    (patchSchedule : List lduScheduleEntry) (w : World) :
    (GeometricBoundaryField.boundaryInternalField ps posts size patchSchedule w).2 = none ∧
    (GeometricBoundaryField.boundaryInternalField ps posts size patchSchedule w).1.2.length
      = size ∧
    (∀ i : Nat, i < size →
      (GeometricBoundaryField.boundaryInternalField ps posts size patchSchedule w).1.2[i]?
        = some (ResultSlot.internal i)) ∧
    (GeometricBoundaryField.boundaryInternalField ps posts size patchSchedule w).1.1.calls
      = w.calls ++ (List.range size).map Call.clone
          ++ (List.range size).map Call.patchInternalField ∧
    ((GeometricBoundaryField.boundaryInternalField ps posts size patchSchedule
        w).1.1.calls.drop w.calls.length).any Call.isExchange = false ∧
    (∀ (ps' : Pstream) (patchSchedule' : List lduScheduleEntry),
      GeometricBoundaryField.boundaryInternalField ps' posts size patchSchedule' w
        = GeometricBoundaryField.boundaryInternalField ps posts size patchSchedule w) := by
  unfold GeometricBoundaryField.boundaryInternalField
  obtain ⟨h1, h2, h3⟩ := internal_fold posts (List.range size)
    (GeometricBoundaryField.cloneAll posts size w)
  obtain ⟨c1, c2⟩ := cloneAll_eq posts size w
  refine ⟨rfl, ?_, ?_, ?_, ?_, fun _ _ => rfl⟩
  · simp only []
    rw [h2, c2]
    simp
  · intro i hi
    simp only []
    rw [h3 i, c2]
    simp [hi]
  · simp only []
    rw [h1, c1]
  · simp only []
    rw [h1, c1]
    simp [Call.isExchange]

/-- C11 at a concrete input: three patches under an unsupported discipline of value
7 in a parallel run. -/
theorem boundaryInternalField_result_witness :
    GeometricBoundaryField.boundaryInternalField ⟨⟨7⟩, true⟩ (fun _ => 1) 3 [] ⟨2, []⟩
      = ((⟨8, [Call.clone 0, Call.clone 1, Call.clone 2, Call.patchInternalField 0,
            Call.patchInternalField 1, Call.patchInternalField 2]⟩,
          [ResultSlot.internal 0, ResultSlot.internal 1, ResultSlot.internal 2]), none) ∧
    (GeometricBoundaryField.boundaryInternalField ⟨⟨7⟩, true⟩ (fun _ => 1) 3 []
        ⟨2, []⟩).1.2.length = 3 :=
  ⟨by decide,
    (boundaryInternalField_result ⟨⟨7⟩, true⟩ (fun _ => 1) 3 [] ⟨2, []⟩).2.1⟩

/-- C12: `updateCoeffs()` raises no error and issues `updateCoeffs` once on every
slot, in index order, and nothing else: no exchange call, no wait; it reads
neither the communication discipline nor the patch schedule, so the patches
updated are the same under every discipline. -/
theorem updateCoeffs_calls (ps : Pstream) (posts : Call → Nat) (size : Nat)
    (patchSchedule : List lduScheduleEntry) (w : World) :
    (GeometricBoundaryField.updateCoeffs ps posts size patchSchedule w).2 = none ∧
    (GeometricBoundaryField.updateCoeffs ps posts size patchSchedule w).1.calls
      = w.calls ++ (List.range size).map Call.updateCoeffs ∧
    ((GeometricBoundaryField.updateCoeffs ps posts size patchSchedule w).1.calls.drop
        w.calls.length).any Call.isExchange = false ∧
    (∀ (ps' : Pstream) (patchSchedule' : List lduScheduleEntry),
      GeometricBoundaryField.updateCoeffs ps' posts size patchSchedule' w
        = GeometricBoundaryField.updateCoeffs ps posts size patchSchedule w) := by
  unfold GeometricBoundaryField.updateCoeffs
  refine ⟨rfl, ?_, ?_, fun _ _ => rfl⟩
  · simp only []
    rw [World.foldl_issue_calls]
  · simp only []
    rw [World.foldl_issue_calls]
    simp [Call.isExchange]

/-- C12 at a concrete input: three patches in a parallel non-blocking run. -/
theorem updateCoeffs_calls_witness :
    GeometricBoundaryField.updateCoeffs ⟨commsTypes.nonBlocking, true⟩ (fun _ => 0) 3
        [⟨0, true⟩, ⟨0, false⟩] ⟨2, []⟩
      = (⟨2, [Call.updateCoeffs 0, Call.updateCoeffs 1, Call.updateCoeffs 2]⟩, none) ∧
    (GeometricBoundaryField.updateCoeffs ⟨commsTypes.nonBlocking, true⟩ (fun _ => 0) 3
        [⟨0, true⟩, ⟨0, false⟩] ⟨2, []⟩).2 = none :=
  ⟨by decide,
    (updateCoeffs_calls ⟨commsTypes.nonBlocking, true⟩ (fun _ => 0) 3
      [⟨0, true⟩, ⟨0, false⟩] ⟨2, []⟩).1⟩

theorem writeEntry_fold (patchName : Nat → word) (l : List Nat) (os : List Token) :
    l.foldl
      (fun os patchi => os ++ GeometricBoundaryField.writeEntry.block (patchName patchi) patchi)
      os
    = os ++ (l.map (fun patchi =>
        GeometricBoundaryField.writeEntry.block (patchName patchi) patchi)).flatten := by
  induction l generalizing os with
  | nil => simp
  | cons a l ih =>
    rw [List.foldl_cons, ih]
    simp

/-- C15: `writeEntry(keyword, os)` appends to the stream the keyword and the
opening block, then, for the patch indices `0 .. size-1` in increasing order,
one block each, keyed by the name of the patch of that slot and holding the
output of that patch field, then the closing block: the blocks are as many as
the slots and their keys are the patch names in index order. -/
theorem writeEntry_output (size : Nat) (patchName : Nat → word) (keyword : word)
    (os : List Token) :
    GeometricBoundaryField.writeEntry size patchName keyword os
      = os ++ [Token.word keyword, Token.nl, Token.beginBlock, Token.incrIndent, Token.nl]
          ++ ((List.range size).map (fun patchi =>
              GeometricBoundaryField.writeEntry.block (patchName patchi) patchi)).flatten
          ++ [Token.decrIndent, Token.endBlock, Token.endl] ∧
    ((List.range size).map (fun patchi =>
        GeometricBoundaryField.writeEntry.block (patchName patchi) patchi)).length = size ∧
    ((List.range size).map (fun patchi =>
        GeometricBoundaryField.writeEntry.block (patchName patchi) patchi)).map
          (fun b => b[1]?)
      = (List.range size).map (fun patchi => some (Token.word (patchName patchi))) ∧
    ((GeometricBoundaryField.writeEntry size patchName keyword os).drop os.length).count
        Token.beginBlock = size + 1 := by
  have hmain : GeometricBoundaryField.writeEntry size patchName keyword os
      = os ++ [Token.word keyword, Token.nl, Token.beginBlock, Token.incrIndent, Token.nl]
          ++ ((List.range size).map (fun patchi =>
              GeometricBoundaryField.writeEntry.block (patchName patchi) patchi)).flatten
          ++ [Token.decrIndent, Token.endBlock, Token.endl] := by
    unfold GeometricBoundaryField.writeEntry
    rw [writeEntry_fold]
  refine ⟨hmain, by simp, ?_, ?_⟩
  · simp [GeometricBoundaryField.writeEntry.block, Function.comp_def]
  · rw [hmain]
    simp only [List.append_assoc, List.drop_left, List.count_append]
    have hcount : ∀ l : List Nat, ((l.map (fun patchi =>
        GeometricBoundaryField.writeEntry.block (patchName patchi) patchi)).flatten).count
          Token.beginBlock = l.length := by
      intro l
      induction l with
      | nil => simp
      | cons a l ih =>
        rw [List.map_cons, List.flatten_cons, List.count_append, ih]
        simp [GeometricBoundaryField.writeEntry.block, List.count_cons]
        omega
    rw [hcount]
    simp [List.count_cons]
    omega

/-- C15 at a concrete input: a container of two patch fields. -/
theorem writeEntry_output_witness :
    GeometricBoundaryField.writeEntry 2 (fun i => if i = 0 then "inlet" else "walls")
        "boundaryField" []
      = [Token.word "boundaryField", Token.nl, Token.beginBlock, Token.incrIndent, Token.nl,
          Token.indent, Token.word "inlet", Token.nl, Token.indent, Token.beginBlock, Token.nl,
          Token.incrIndent, Token.patchField 0, Token.decrIndent, Token.indent, Token.endBlock,
          Token.endl,
          Token.indent, Token.word "walls", Token.nl, Token.indent, Token.beginBlock, Token.nl,
          Token.incrIndent, Token.patchField 1, Token.decrIndent, Token.indent, Token.endBlock,
          Token.endl,
          Token.decrIndent, Token.endBlock, Token.endl] :=
  (writeEntry_output 2 (fun i => if i = 0 then "inlet" else "walls") "boundaryField" []).1.trans
    (by decide)

/-! ## Claims on the constructors -/

section
variable {F D PF : Type}

theorem GeometricBoundaryField.setAll_length (g : Nat → Patch → PF) (bm : BoundaryMesh)
    (self : PtrList PF) : (GeometricBoundaryField.setAll g bm self).length = self.length := by
  unfold GeometricBoundaryField.setAll
  generalize bm.patches.enum = l
  induction l generalizing self with
  | nil => rfl
  | cons a l ih =>
    rw [List.foldl_cons, ih, PtrList.length_setPtr]

/-- the loop of a constructor over the patches `ps`, numbered from `k` -/
theorem GeometricBoundaryField.setAllM_fold (g : Nat → Patch → Except FatalError PF)
    (ps : List Patch) (k : Nat) (bf bf' : PtrList PF)
    (h : (ps.enumFrom k).foldlM
      (fun bf ip =>
        match g ip.1 ip.2 with
        | Except.ok pf => Except.ok (PtrList.setPtr bf ip.1 pf)
        | Except.error err => Except.error err) bf = Except.ok bf') :
    bf'.length = bf.length ∧
    (∀ j, j < k → PtrList.ptr bf' j = PtrList.ptr bf j) ∧
    (∀ j p, k ≤ j → ps[j - k]? = some p →
      ∃ pf, g j p = Except.ok pf ∧ (j < bf.length → PtrList.ptr bf' j = some pf)) := by
  induction ps generalizing k bf with
  | nil =>
    rw [List.enumFrom_nil] at h
    have := (foldlM_nil_ok _ bf bf').1 h
    subst this
    exact ⟨rfl, fun _ _ => rfl, fun j p _ hp => by simp at hp⟩
  | cons q ps ih =>
    rw [List.enumFrom_cons] at h
    obtain ⟨s1, h1, h2⟩ := (foldlM_cons_ok _ (k, q) (ps.enumFrom (k + 1)) bf bf').1 h
    obtain ⟨i1, i2, i3⟩ := ih (k + 1) s1 h2
    cases hg : g k q with
    | error err => simp [hg] at h1
    | ok pf =>
      simp only [hg] at h1
      have hs1 : s1 = PtrList.setPtr bf k pf := (Except.ok.inj h1).symm
      subst hs1
      refine ⟨by rw [i1, PtrList.length_setPtr], fun j hj => ?_, fun j p hj hp => ?_⟩
      · rw [i2 j (by omega), PtrList.ptr_setPtr, if_neg]
        rintro ⟨hc, -⟩
        omega
      · by_cases hjk : j = k
        · subst hjk
          simp only [Nat.sub_self, List.getElem?_cons_zero, Option.some.injEq] at hp
          subst hp
          refine ⟨pf, hg, fun hlt => ?_⟩
          rw [i2 j (by omega), PtrList.ptr_setPtr]
          exact if_pos ⟨rfl, hlt⟩
        · have hsub : j - k = (j - (k + 1)) + 1 := by omega
          rw [hsub, List.getElem?_cons_succ] at hp
          obtain ⟨pf', hg', hv⟩ := i3 j p (by omega) hp
          exact ⟨pf', hg', fun hlt => hv (by rw [PtrList.length_setPtr]; exact hlt)⟩

/-- the loop of a constructor raises no error when the patch field expression
raises none -/
theorem GeometricBoundaryField.setAllM_fold_ok (g : Nat → Patch → Except FatalError PF)
    (ps : List Patch) (k : Nat) (bf : PtrList PF)
    (hg : ∀ j p, k ≤ j → ps[j - k]? = some p → ∃ pf, g j p = Except.ok pf) :
    ∃ bf', (ps.enumFrom k).foldlM
      (fun bf ip =>
        match g ip.1 ip.2 with
        | Except.ok pf => Except.ok (PtrList.setPtr bf ip.1 pf)
        | Except.error err => Except.error err) bf = Except.ok bf' := by
  induction ps generalizing k bf with
  | nil => exact ⟨bf, (foldlM_nil_ok _ bf bf).2 rfl⟩
  | cons q ps ih =>
    obtain ⟨pf, hpf⟩ := hg k q (le_refl k) (by simp)
    obtain ⟨bf', h'⟩ := ih (k + 1) (PtrList.setPtr bf k pf) (fun j p hj hp => by
      apply hg j p (by omega)
      have hsub : j - k = (j - (k + 1)) + 1 := by omega
      rw [hsub, List.getElem?_cons_succ]
      exact hp)
    refine ⟨bf', ?_⟩
    rw [List.enumFrom_cons]
    exact (foldlM_cons_ok _ (k, q) (ps.enumFrom (k + 1)) bf bf').2 ⟨_, by simp [hpf], h'⟩

theorem GeometricBoundaryField.setAllM_ok (g : Nat → Patch → Except FatalError PF)
    (bm : BoundaryMesh) (self bf : PtrList PF)
    (h : GeometricBoundaryField.setAllM g bm self = Except.ok bf) :
    bf.length = self.length ∧
    (∀ i p, bm.patches[i]? = some p →
      ∃ pf, g i p = Except.ok pf ∧ (i < self.length → PtrList.ptr bf i = some pf)) := by
  unfold GeometricBoundaryField.setAllM List.enum at h
  obtain ⟨h1, _, h3⟩ := GeometricBoundaryField.setAllM_fold g bm.patches 0 self bf h
  exact ⟨h1, fun i p hp => h3 i p (Nat.zero_le i) (by simpa using hp)⟩

theorem GeometricBoundaryField.setAllM_exists (g : Nat → Patch → Except FatalError PF)
    (bm : BoundaryMesh) (self : PtrList PF)
    (hg : ∀ i p, bm.patches[i]? = some p → ∃ pf, g i p = Except.ok pf) :
    ∃ bf, GeometricBoundaryField.setAllM g bm self = Except.ok bf := by
  unfold GeometricBoundaryField.setAllM List.enum
  exact GeometricBoundaryField.setAllM_fold_ok g bm.patches 0 self
    (fun j p _ hp => hg j p (by simpa using hp))

/-- C13: the constructor from the two type lists fails with "Incorrect number of
patch type specifications given" if and only if the list of patch field types
has not one entry per patch, or the list of actual patch types is non-empty and
has not one entry per patch; otherwise it succeeds with one slot per patch, and
slot `i` is selected by `patchFieldTypes[i]` alone when the list of actual patch
types is empty and by `patchFieldTypes[i]` together with `constraintTypes[i]`
when it is not. -/
theorem ofTypes_incorrect_number_iff (tbl : PatchFieldTable F D PF)
    (NewActual : word → word → Patch → F → PF) (bm : BoundaryMesh) (field : F)
    (patchFieldTypes constraintTypes : List word) :
    (GeometricBoundaryField.ofTypes tbl NewActual bm field patchFieldTypes constraintTypes
        = Except.error
          (FatalError.incorrectNumberOfPatchTypes bm.patches.length patchFieldTypes.length)
      ↔ (patchFieldTypes.length ≠ bm.patches.length
          ∨ (constraintTypes ≠ [] ∧ constraintTypes.length ≠ bm.patches.length))) ∧
    (¬ (patchFieldTypes.length ≠ bm.patches.length
          ∨ (constraintTypes ≠ [] ∧ constraintTypes.length ≠ bm.patches.length)) →
      ∃ bf, GeometricBoundaryField.ofTypes tbl NewActual bm field patchFieldTypes
          constraintTypes = Except.ok bf ∧
        bf.length = bm.patches.length ∧
        ∀ (i : Nat) (p : Patch) (t : word), bm.patches[i]? = some p →
          patchFieldTypes[i]? = some t →
          (constraintTypes = [] → PtrList.ptr bf i = some (tbl.NewType t p field)) ∧
          (∀ c, constraintTypes[i]? = some c →
            PtrList.ptr bf i = some (NewActual t c p field))) := by
  have hne : constraintTypes.length ≠ 0 ↔ constraintTypes ≠ [] := by
    rw [ne_eq, List.length_eq_zero]
  have hlt : ∀ (i : Nat) (p : Patch), bm.patches[i]? = some p → i < bm.patches.length := by
    intro i p hp
    by_contra hc
    rw [List.getElem?_eq_none (Nat.le_of_not_lt hc)] at hp
    cases hp
  unfold GeometricBoundaryField.ofTypes
  simp only [List.length_replicate, BoundaryMesh.size, hne]
  by_cases hc : patchFieldTypes.length ≠ bm.patches.length
      ∨ (constraintTypes ≠ [] ∧ constraintTypes.length ≠ bm.patches.length)
  · rw [if_pos hc]
    exact ⟨⟨fun _ => hc, fun _ => rfl⟩, fun h => absurd hc h⟩
  · rw [if_neg hc]
    rw [not_or] at hc
    have htl : patchFieldTypes.length = bm.patches.length := not_not.1 hc.1
    by_cases hct : constraintTypes ≠ []
    · rw [if_pos hct]
      have hcl : constraintTypes.length = bm.patches.length := by
        by_contra hx
        exact hc.2 ⟨hct, hx⟩
      obtain ⟨bf, hbf⟩ := GeometricBoundaryField.setAllM_exists
        (GeometricBoundaryField.ofTypes.actual NewActual field patchFieldTypes constraintTypes)
        bm (List.replicate bm.patches.length (none : Option PF))
        (fun i p hp => by
          have hi := hlt i p hp
          unfold GeometricBoundaryField.ofTypes.actual
          rw [List.getElem?_eq_getElem (by omega : i < patchFieldTypes.length),
            List.getElem?_eq_getElem (by omega : i < constraintTypes.length)]
          exact ⟨_, rfl⟩)
      obtain ⟨h1, h2⟩ := GeometricBoundaryField.setAllM_ok _ bm _ bf hbf
      rw [hbf]
      refine ⟨⟨fun h => (by cases h), fun h => absurd h (not_or.2 hc)⟩, fun _ => ⟨bf, rfl, ?_, ?_⟩⟩
      · rw [h1]; simp
      · intro i p t hp ht
        refine ⟨fun he => absurd he hct, fun c hcc => ?_⟩
        obtain ⟨pf, hpf, hv⟩ := h2 i p hp
        unfold GeometricBoundaryField.ofTypes.actual at hpf
        rw [ht, hcc] at hpf
        rw [hv (by simpa using hlt i p hp), ← Except.ok.inj hpf]
    · rw [if_neg hct]
      obtain ⟨bf, hbf⟩ := GeometricBoundaryField.setAllM_exists
        (GeometricBoundaryField.ofTypes.wanted tbl field patchFieldTypes)
        bm (List.replicate bm.patches.length (none : Option PF))
        (fun i p hp => by
          have hi := hlt i p hp
          unfold GeometricBoundaryField.ofTypes.wanted
          rw [List.getElem?_eq_getElem (by omega : i < patchFieldTypes.length)]
          exact ⟨_, rfl⟩)
      obtain ⟨h1, h2⟩ := GeometricBoundaryField.setAllM_ok _ bm _ bf hbf
      rw [hbf]
      refine ⟨⟨fun h => (by cases h), fun h => absurd h (not_or.2 hc)⟩, fun _ => ⟨bf, rfl, ?_, ?_⟩⟩
      · rw [h1]; simp
      · intro i p t hp ht
        have hnil : constraintTypes = [] := not_not.1 hct
        refine ⟨fun _ => ?_, fun c hcc => ?_⟩
        · obtain ⟨pf, hpf, hv⟩ := h2 i p hp
          unfold GeometricBoundaryField.ofTypes.wanted at hpf
          rw [ht] at hpf
          rw [hv (by simpa using hlt i p hp), ← Except.ok.inj hpf]
        · rw [hnil] at hcc
          simp at hcc

end

section
variable {F D PF : Type}

/-- `readField` returns a container of the size of the boundary mesh, whatever the
container held before -/
theorem readField_length (tbl : PatchFieldTable F D PF) (bm : BoundaryMesh) (field : F)
    (dict : dictionary D) (self bf : PtrList PF)
    (h : readField tbl bm field dict self = Except.ok bf) :
    bf.length = bm.patches.length := by
  unfold readField at h
  cases h1 : readField.step1 tbl bm field dict self with
  | error err => rw [h1] at h; cases h
  | ok st =>
    obtain ⟨bf1, n⟩ := st
    rw [h1] at h
    simp only [] at h
    have hlen1 : bf1.length = bm.patches.length := by
      unfold readField.step1 at h1
      have := (readField.step1_fold tbl bm field dict.entries _ _ h1).1
      simp only [] at this
      rw [this, PtrList.setSize_clear]
      simp [BoundaryMesh.size]
    by_cases hn : n = 0
    · rw [if_pos hn] at h
      cases h
      exact hlen1
    · rw [if_neg hn] at h
      cases h2 : readField.step2 tbl bm field dict bf1 with
      | error err => rw [h2] at h; cases h
      | ok bf2 =>
        rw [h2] at h
        simp only [] at h
        have hlen2 : bf2.length = bm.patches.length := by
          rw [readField.step2_eq] at h2
          rw [(readField.patchGroup_fold tbl bm field _ bf1 bf2 h2).1, hlen1]
        cases hc : readField.checkUnset (readField.step3 tbl bm field dict bf2)
            bm.patches.enum with
        | error err => rw [hc] at h; cases h
        | ok u =>
          rw [hc] at h
          cases h
          rw [(readField.step3_ptr tbl bm field dict bf2 hlen2 0).1, hlen2]

/-- C14: size invariant. Every container that a constructor produces for a boundary
mesh (from the boundary mesh alone, from one type, from type lists, from a
pointer list, as a copy of such a container with a new internal field, from a
dictionary) and every container that `readField` returns, whatever the
container held before the call, has as many slots as the boundary mesh has
patches. -/
theorem constructed_size_eq_patch_count (tbl : PatchFieldTable F D PF)
    (NewActual : word → word → Patch → F → PF) (clone : PF → F → PF) (bm : BoundaryMesh)
    (bf : PtrList PF) (h : GeometricBoundaryField.Constructed tbl NewActual clone bm bf) :
    bf.length = bm.patches.length := by
  induction h with
  | ofBoundaryMesh => simp [GeometricBoundaryField.ofBoundaryMesh, BoundaryMesh.size]
  | ofType field t =>
    unfold GeometricBoundaryField.ofType
    rw [GeometricBoundaryField.setAll_length]
    simp [BoundaryMesh.size]
  | ofTypes field types ctypes bf hbf =>
    unfold GeometricBoundaryField.ofTypes at hbf
    split at hbf
    · cases hbf
    · split at hbf
      · rw [(GeometricBoundaryField.setAllM_ok _ bm _ bf hbf).1]
        simp [BoundaryMesh.size]
      · rw [(GeometricBoundaryField.setAllM_ok _ bm _ bf hbf).1]
        simp [BoundaryMesh.size]
  | ofPtrList field ptfl bf hbf =>
    unfold GeometricBoundaryField.ofPtrList at hbf
    rw [(GeometricBoundaryField.setAllM_ok _ bm _ bf hbf).1]
    simp [BoundaryMesh.size]
  | ofCopy field btf bf _ hbf ih =>
    unfold GeometricBoundaryField.ofCopy at hbf
    rw [(GeometricBoundaryField.setAllM_ok _ bm _ bf hbf).1]
    simpa using ih
  | ofDict field dict bf hbf =>
    exact readField_length tbl bm field dict _ bf hbf
  | readField field dict self bf hbf =>
    exact readField_length tbl bm field dict self bf hbf

end

/-- Witness of C14: `readField` on a container that was already populated, and of a
different size, in the small case. -/
theorem constructed_size_eq_patch_count_witness :
    GeometricBoundaryField.Constructed exampleTable (fun t c p _ => (p.name, t ++ c))
      (fun pf _ => pf) exampleMesh
      [some ("inlet", "fixedValue"), some ("outlet", "inletOutlet"),
        some ("walls", "calculated"), some ("frontAndBack", "empty")] ∧
    ([some ("inlet", "fixedValue"), some ("outlet", "inletOutlet"),
        some ("walls", "calculated"), some ("frontAndBack", "empty")] :
          PtrList (word × word)).length = exampleMesh.patches.length :=
  ⟨GeometricBoundaryField.Constructed.readField () exampleDict
      [some ("a", "b"), none, some ("c", "d"), none, none, some ("e", "f")] _ rfl,
    constructed_size_eq_patch_count exampleTable (fun t c p _ => (p.name, t ++ c))
      (fun pf _ => pf) exampleMesh _
      (GeometricBoundaryField.Constructed.readField () exampleDict
        [some ("a", "b"), none, some ("c", "d"), none, none, some ("e", "f")] _ rfl)⟩

/-- C13 at concrete inputs: in the small case of four patches, three types are
rejected; four types without actual types select by type; four types with four
actual types select by both. -/
theorem ofTypes_incorrect_number_iff_witness :
    GeometricBoundaryField.ofTypes exampleTable (fun t c p _ => (p.name, t ++ "/" ++ c))
        exampleMesh () ["a", "b", "c"] []
      = Except.error (FatalError.incorrectNumberOfPatchTypes 4 3) ∧
    GeometricBoundaryField.ofTypes exampleTable (fun t c p _ => (p.name, t ++ "/" ++ c))
        exampleMesh () ["a", "b", "c", "d"] ["x"]
      = Except.error (FatalError.incorrectNumberOfPatchTypes 4 4) ∧
    GeometricBoundaryField.ofTypes exampleTable (fun t c p _ => (p.name, t ++ "/" ++ c))
        exampleMesh () ["a", "b", "c", "d"] []
      = Except.ok [some ("inlet", "a"), some ("outlet", "b"), some ("walls", "c"),
          some ("frontAndBack", "d")] ∧
    GeometricBoundaryField.ofTypes exampleTable (fun t c p _ => (p.name, t ++ "/" ++ c))
        exampleMesh () ["a", "b", "c", "d"] ["w", "x", "y", "z"]
      = Except.ok [some ("inlet", "a/w"), some ("outlet", "b/x"), some ("walls", "c/y"),
          some ("frontAndBack", "d/z")] :=
  ⟨((ofTypes_incorrect_number_iff exampleTable (fun t c p _ => (p.name, t ++ "/" ++ c))
      exampleMesh () ["a", "b", "c"] []).1).2 (Or.inl (by decide)),
    rfl, rfl, rfl⟩

/-! ## Claims on the utility `removeFaces` -/

/-- C16: the utility hands to `setRefinement` exactly the three lists that
`compatibleRemoves` filled for the candidate list, writes exactly one face set,
named `compatibleRemoves`, with that same face list, and makes no other
`setRefinement` call; when the face list differs from the candidates, the
candidate list is neither handed to `setRefinement` nor written. -/
theorem main_removes_compatible_faces {Pts : Type} (overwrite fields : Bool)
    (setName oldInstance : word) (candidates : List label)
    (compatibleRemoves : List label → compatibleRemovesOutput)
    (changeMesh : List label → List label → List label → polyTopoChangeMap Pts) :
    (main overwrite fields setName oldInstance candidates compatibleRemoves changeMesh).1.filter
        UtilityCall.isSetRefinement
      = [UtilityCall.setRefinement (compatibleRemoves candidates).facesToRemove
          (compatibleRemoves candidates).cellRegion
          (compatibleRemoves candidates).cellRegionMaster] ∧
    (main overwrite fields setName oldInstance candidates compatibleRemoves changeMesh).1.filter
        UtilityCall.isFaceSetWrite
      = [UtilityCall.faceSetWrite "compatibleRemoves"
          (compatibleRemoves candidates).facesToRemove] ∧
    ((compatibleRemoves candidates).facesToRemove ≠ candidates →
      ∀ (name : word) (cellRegion cellRegionMaster : List label),
        UtilityCall.setRefinement candidates cellRegion cellRegionMaster
          ∉ (main overwrite fields setName oldInstance candidates compatibleRemoves
              changeMesh).1 ∧
        UtilityCall.faceSetWrite name candidates
          ∉ (main overwrite fields setName oldInstance candidates compatibleRemoves
              changeMesh).1) := by
  unfold main
  cases hm : (changeMesh (compatibleRemoves candidates).facesToRemove
      (compatibleRemoves candidates).cellRegion
      (compatibleRemoves candidates).cellRegionMaster).hasMotionPoints <;>
    cases overwrite <;>
    simp [hm, UtilityCall.isSetRefinement, UtilityCall.isFaceSetWrite] <;>
    exact fun h _ _ _ => ⟨fun he => absurd he.symm h, fun _ he => h he.symm⟩

/-- C17: of the three calls that consume the map, `mesh.topoChange(map)` comes
first, `faceRemover.topoChange(map)` last, and `mesh.movePoints` with the
pre-motion points of the map is between them, once, exactly when the map
reports motion points; `movePoints` is called nowhere else. -/
theorem main_moves_points_once {Pts : Type} (overwrite fields : Bool)
    (setName oldInstance : word) (candidates : List label)
    (compatibleRemoves : List label → compatibleRemovesOutput)
    (changeMesh : List label → List label → List label → polyTopoChangeMap Pts) :
    (main overwrite fields setName oldInstance candidates compatibleRemoves changeMesh).1.filter
        UtilityCall.isMapUpdate
      = [UtilityCall.meshTopoChange]
        ++ (if (changeMesh (compatibleRemoves candidates).facesToRemove
              (compatibleRemoves candidates).cellRegion
              (compatibleRemoves candidates).cellRegionMaster).hasMotionPoints = true then
            [UtilityCall.movePoints
              (changeMesh (compatibleRemoves candidates).facesToRemove
                (compatibleRemoves candidates).cellRegion
                (compatibleRemoves candidates).cellRegionMaster).preMotionPoints]
          else [])
        ++ [UtilityCall.removerTopoChange] ∧
    (main overwrite fields setName oldInstance candidates compatibleRemoves changeMesh).1.countP
        UtilityCall.isMovePoints
      = (if (changeMesh (compatibleRemoves candidates).facesToRemove
              (compatibleRemoves candidates).cellRegion
              (compatibleRemoves candidates).cellRegionMaster).hasMotionPoints = true then 1
          else 0) := by
  unfold main
  cases hm : (changeMesh (compatibleRemoves candidates).facesToRemove
      (compatibleRemoves candidates).cellRegion
      (compatibleRemoves candidates).cellRegionMaster).hasMotionPoints <;>
    cases overwrite <;>
    simp [hm, UtilityCall.isMapUpdate, UtilityCall.isMovePoints, List.countP_cons]

/-- C16 and C17 at a concrete input: three candidates of which the face remover
returns other faces, and a map that reports motion points. -/
theorem main_trace_example :
    main false true "candidates" "constant" [5, 17, 9]
        (fun _ => ⟨[0, 0, -1], [0], [17, 18]⟩) (fun _ _ _ => ⟨true, (7 : Nat)⟩)
      = ([UtilityCall.faceSetRead "candidates", UtilityCall.compatibleRemoves [5, 17, 9],
          UtilityCall.faceSetWrite "compatibleRemoves" [17, 18], UtilityCall.readFields true,
          UtilityCall.setRefinement [17, 18] [0, 0, -1] [0], UtilityCall.changeMesh,
          UtilityCall.meshTopoChange, UtilityCall.movePoints 7, UtilityCall.removerTopoChange,
          UtilityCall.runTimeIncrement, UtilityCall.meshWrite], 0) := by
  decide

/-- Witness of C16: the call of `setRefinement` in the run above. -/
theorem main_removes_compatible_faces_witness :
    (main false true "candidates" "constant" [5, 17, 9]
        (fun _ => ⟨[0, 0, -1], [0], [17, 18]⟩) (fun _ _ _ => ⟨true, (7 : Nat)⟩)).1.filter
        UtilityCall.isSetRefinement
      = [UtilityCall.setRefinement [17, 18] [0, 0, -1] [0]] :=
  (main_removes_compatible_faces false true "candidates" "constant" [5, 17, 9]
    (fun _ => ⟨[0, 0, -1], [0], [17, 18]⟩) (fun _ _ _ => ⟨true, (7 : Nat)⟩)).1

/-- Witness of C17: the three calls that consume the map in the run above. -/
theorem main_moves_points_once_witness :
    (main false true "candidates" "constant" [5, 17, 9]
        (fun _ => ⟨[0, 0, -1], [0], [17, 18]⟩) (fun _ _ _ => ⟨true, (7 : Nat)⟩)).1.filter
        UtilityCall.isMapUpdate
      = [UtilityCall.meshTopoChange, UtilityCall.movePoints 7, UtilityCall.removerTopoChange] :=
  (main_moves_points_once false true "candidates" "constant" [5, 17, 9]
    (fun _ => ⟨[0, 0, -1], [0], [17, 18]⟩) (fun _ _ _ => ⟨true, (7 : Nat)⟩)).1.trans
    (by decide)

/-! ## Claims on the Face-Removal Resolver -/

theorem removeFaces.mergeCells_getD (cellRegion : List Nat) (own nei a : Nat)
    (ha : a < cellRegion.length) :
    (removeFaces.mergeCells cellRegion own nei).getD a a
      = if cellRegion.getD a a = max (cellRegion.getD own own) (cellRegion.getD nei nei) then
          min (cellRegion.getD own own) (cellRegion.getD nei nei)
        else cellRegion.getD a a := by
  unfold removeFaces.mergeCells
  simp only [List.getD_eq_getElem?_getD, List.getElem?_map, List.getElem?_eq_getElem ha,
    Option.map_some', Option.getD_some]

theorem removeFaces.mergeCells_length (cellRegion : List Nat) (own nei : Nat) :
    (removeFaces.mergeCells cellRegion own nei).length = cellRegion.length := by
  simp [removeFaces.mergeCells]

/-- contracting the faces `l` keeps cells of one region in one region and puts the
two cells of every face of `l` in one region -/
theorem removeFaces.cellRegions_fold (mesh : faceCellAdjacency) (l : List Nat)
    (region : List Nat) :
    (l.foldl
      (fun cellRegion facei =>
        match mesh.internalFace facei with
        | some (own, nei) => removeFaces.mergeCells cellRegion own nei
        | none => cellRegion) region).length = region.length ∧
    (∀ a b, a < region.length → b < region.length → region.getD a a = region.getD b b →
      (l.foldl
        (fun cellRegion facei =>
          match mesh.internalFace facei with
          | some (own, nei) => removeFaces.mergeCells cellRegion own nei
          | none => cellRegion) region).getD a a
      = (l.foldl
        (fun cellRegion facei =>
          match mesh.internalFace facei with
          | some (own, nei) => removeFaces.mergeCells cellRegion own nei
          | none => cellRegion) region).getD b b) ∧
    (∀ f ∈ l, ∀ own nei, mesh.internalFace f = some (own, nei) →
      own < region.length → nei < region.length →
      (l.foldl
        (fun cellRegion facei =>
          match mesh.internalFace facei with
          | some (own, nei) => removeFaces.mergeCells cellRegion own nei
          | none => cellRegion) region).getD own own
      = (l.foldl
        (fun cellRegion facei =>
          match mesh.internalFace facei with
          | some (own, nei) => removeFaces.mergeCells cellRegion own nei
          | none => cellRegion) region).getD nei nei) := by
  induction l generalizing region with
  | nil =>
    refine ⟨rfl, fun a b _ _ h => h, fun f hf => ?_⟩
    simp at hf
  | cons x l ih =>
    rw [List.foldl_cons]
    cases hx : mesh.internalFace x with
    | none =>
      simp only []
      obtain ⟨i1, i2, i3⟩ := ih region
      refine ⟨i1, i2, fun f hf own nei hfi ho hn => ?_⟩
      rcases List.mem_cons.1 hf with hf | hf
      · rw [hf, hx] at hfi
        cases hfi
      · exact i3 f hf own nei hfi ho hn
    | some pr =>
      obtain ⟨o, n⟩ := pr
      simp only []
      obtain ⟨i1, i2, i3⟩ := ih (removeFaces.mergeCells region o n)
      rw [removeFaces.mergeCells_length] at i1 i2 i3
      refine ⟨i1, fun a b ha hb hab => ?_, fun f hf own nei hfi ho hn => ?_⟩
      · apply i2 a b ha hb
        rw [removeFaces.mergeCells_getD region o n a ha,
          removeFaces.mergeCells_getD region o n b hb, hab]
      · rcases List.mem_cons.1 hf with hf | hf
        · rw [hf, hx] at hfi
          have h1 : o = own := congrArg Prod.fst (Option.some.inj hfi)
          have h2 : n = nei := congrArg Prod.snd (Option.some.inj hfi)
          subst h1
          subst h2
          apply i2 o n ho hn
          rw [removeFaces.mergeCells_getD region o n o ho,
            removeFaces.mergeCells_getD region o n n hn]
          by_cases hc1 : region.getD o o = max (region.getD o o) (region.getD n n)
          · rw [if_pos hc1]
            by_cases hc2 : region.getD n n = max (region.getD o o) (region.getD n n)
            · rw [if_pos hc2]
            · rw [if_neg hc2]
              omega
          · rw [if_neg hc1]
            by_cases hc2 : region.getD n n = max (region.getD o o) (region.getD n n)
            · rw [if_pos hc2]
              omega
            · rw [if_neg hc2]
              omega
        · exact i3 f hf own nei hfi ho hn

theorem removeFaces.multiplyConnected_eq_false (mesh : faceCellAdjacency) (faces : List Nat)
    (h : removeFaces.multiplyConnected mesh faces = false) (f g : Nat) (pair : Nat × Nat)
    (hfg : f ≠ g) (hf : f ∉ faces) (hg : g ∉ faces)
    (hcf : removeFaces.connects mesh (removeFaces.cellRegions mesh faces) f = some pair) :
    removeFaces.connects mesh (removeFaces.cellRegions mesh faces) g ≠ some pair := by
  intro hcg
  have hin : ∀ k p, removeFaces.connects mesh (removeFaces.cellRegions mesh faces) k = some p →
      k < mesh.faceCells.length := by
    intro k p hk
    by_contra hc
    unfold removeFaces.connects faceCellAdjacency.internalFace at hk
    rw [List.getElem?_eq_none (Nat.le_of_not_lt hc)] at hk
    simp at hk
  unfold removeFaces.multiplyConnected at h
  rw [List.any_eq_false] at h
  have h1 := h f (List.mem_range.2 (hin f pair hcf))
  rw [Bool.not_eq_true, List.any_eq_false] at h1
  have h2 := h1 g (List.mem_range.2 (hin g pair hcg))
  apply h2
  simp [hfg, hf, hg, hcf, hcg]

/-- what the rounds settle on: a compatible sublist of the candidates, or nothing;
and no compatible sublist with at most `k` faces is longer -/
theorem removeFaces.stabilise_spec (mesh : faceCellAdjacency) (validShape : List Nat → Bool)
    (candidates : List Nat) (k : Nat) :
    ((removeFaces.compatible mesh validShape
          (removeFaces.stabilise mesh validShape candidates k) = true
        ∧ (removeFaces.stabilise mesh validShape candidates k).Sublist candidates)
      ∨ removeFaces.stabilise mesh validShape candidates k = []) ∧
    (∀ faces : List Nat, faces.Sublist candidates →
      removeFaces.compatible mesh validShape faces = true → faces.length ≤ k →
      faces.length ≤ (removeFaces.stabilise mesh validShape candidates k).length) := by
  induction k with
  | zero =>
    refine ⟨Or.inr rfl, fun faces _ _ hl => ?_⟩
    simp only [removeFaces.stabilise, List.length_nil]
    exact hl
  | succ k ih =>
    unfold removeFaces.stabilise
    cases hf : (List.sublistsLen (k + 1) candidates).reverse.find?
        (removeFaces.compatible mesh validShape) with
    | some r =>
      simp only []
      have hmem := List.mem_of_find?_eq_some hf
      rw [List.mem_reverse, List.mem_sublistsLen] at hmem
      refine ⟨Or.inl ⟨List.find?_some hf, hmem.1⟩, fun faces _ _ hl => ?_⟩
      rw [hmem.2]
      exact hl
    | none =>
      simp only []
      refine ⟨ih.1, fun faces hs hc hl => ?_⟩
      by_cases hlen : faces.length = k + 1
      · exfalso
        rw [List.find?_eq_none] at hf
        exact hf faces (List.mem_reverse.2 (List.mem_sublistsLen.2 ⟨hs, hlen⟩)) hc
      · exact ih.2 faces hs hc (by omega)

/-- a compatible list of faces is settled on in the first round -/
theorem removeFaces.stabilise_self (mesh : faceCellAdjacency) (validShape : List Nat → Bool)
    (faces : List Nat) (h : removeFaces.compatible mesh validShape faces = true) :
    removeFaces.stabilise mesh validShape faces faces.length = faces := by
  cases hl : faces.length with
  | zero =>
    rw [List.length_eq_zero] at hl
    rw [hl]
    rfl
  | succ k =>
    unfold removeFaces.stabilise
    rw [← hl, List.sublistsLen_length]
    simp [List.find?, h]

/-- C18: compatible-removal idempotence, for the resolver as the specification
describes it. For every mesh adjacency, every external validity check and every
candidate list, running `compatibleRemoves` on the faces it returned gives the
same faces, the same cell regions and the same region masters again. The lists
that the resolver returns unchanged are exactly the compatible ones (and the
empty list); what it returns, unless empty, is compatible, and no compatible
sublist of the candidates has more faces. -/
theorem compatibleRemoves_idempotent (mesh : faceCellAdjacency)
    (validShape : List Nat → Bool) (candidates : List Nat) :
    removeFaces.compatibleRemoves mesh validShape
        (removeFaces.compatibleRemoves mesh validShape candidates).compatibleFaces
      = removeFaces.compatibleRemoves mesh validShape candidates ∧
    ((removeFaces.compatibleRemoves mesh validShape candidates).compatibleFaces = candidates
      ↔ (removeFaces.compatible mesh validShape candidates = true ∨ candidates = [])) ∧
    ((removeFaces.compatibleRemoves mesh validShape candidates).compatibleFaces ≠ [] →
      removeFaces.compatible mesh validShape
        (removeFaces.compatibleRemoves mesh validShape candidates).compatibleFaces = true) ∧
    (∀ faces : List Nat, faces.Sublist candidates →
      removeFaces.compatible mesh validShape faces = true →
      faces.length
        ≤ (removeFaces.compatibleRemoves mesh validShape candidates).compatibleFaces.length) := by
  obtain ⟨hres, hmax⟩ := removeFaces.stabilise_spec mesh validShape candidates candidates.length
  have hfaces : (removeFaces.compatibleRemoves mesh validShape candidates).compatibleFaces
      = removeFaces.stabilise mesh validShape candidates candidates.length := rfl
  have hidem : removeFaces.stabilise mesh validShape
      (removeFaces.stabilise mesh validShape candidates candidates.length)
      (removeFaces.stabilise mesh validShape candidates candidates.length).length
      = removeFaces.stabilise mesh validShape candidates candidates.length := by
    rcases hres with hc | he
    · exact removeFaces.stabilise_self mesh validShape _ hc.1
    · rw [he]
      rfl
  refine ⟨?_, ?_, ?_, ?_⟩
  · unfold removeFaces.compatibleRemoves
    simp only []
    rw [hidem]
  · rw [hfaces]
    constructor
    · intro heq
      rcases hres with hc | he
      · rw [heq] at hc
        exact Or.inl hc.1
      · rw [heq] at he
        exact Or.inr he
    · rintro (hc | he)
      · exact removeFaces.stabilise_self mesh validShape candidates hc
      · rw [he]
        rfl
  · rw [hfaces]
    intro hne
    rcases hres with hc | he
    · exact hc.1
    · exact absurd he hne
  · intro faces hs hc
    rw [hfaces]
    exact hmax faces hs hc hs.length_le

/-- C18 at concrete inputs, on the block of 2 x 2 x 2 cells. The four faces between
the four cells of the lower layer are compatible as a whole and are returned
whole. With the face above cell 0 added, the two faces that would both join
the merged cell and cell 5 make the set incompatible, and the resolver
downgrades that one face; a boundary face is downgraded. The resolver returns
the same on what it returned. -/
theorem compatibleRemoves_idempotent_witness :
    removeFaces.compatibleRemoves cubeAdjacency (fun _ => true) [0, 4, 1, 5]
      = ⟨[0, 4, 1, 5], [0, 0, 0, 0, 4, 5, 6, 7], [0, 4, 5, 6, 7]⟩ ∧
    removeFaces.compatibleRemoves cubeAdjacency (fun _ => true) [0, 4, 1, 5, 8]
      = ⟨[0, 4, 1, 5], [0, 0, 0, 0, 4, 5, 6, 7], [0, 4, 5, 6, 7]⟩ ∧
    removeFaces.compatibleRemoves cubeAdjacency (fun _ => true) [0, 4, 12, 1, 5]
      = ⟨[0, 4, 1, 5], [0, 0, 0, 0, 4, 5, 6, 7], [0, 4, 5, 6, 7]⟩ ∧
    removeFaces.compatibleRemoves cubeAdjacency (fun _ => true)
        (removeFaces.compatibleRemoves cubeAdjacency (fun _ => true)
          [0, 4, 1, 5, 8]).compatibleFaces
      = removeFaces.compatibleRemoves cubeAdjacency (fun _ => true) [0, 4, 1, 5, 8] :=
  ⟨by decide, by decide, by decide,
    (compatibleRemoves_idempotent cubeAdjacency (fun _ => true) [0, 4, 1, 5, 8]).1⟩

theorem removeFaces.joined_mono (mesh : faceCellAdjacency) (l1 l2 : List Nat)
    (h : ∀ f ∈ l1, f ∈ l2) (a b : Nat) (hj : removeFaces.joined mesh l1 a b) :
    removeFaces.joined mesh l2 a b := by
  unfold removeFaces.joined at hj ⊢
  exact Relation.EqvGen.mono (fun x y ⟨f, hf, hfi⟩ => ⟨f, h f hf, hfi⟩) hj

/-- contracting the faces `l` merges only cells that a chain of faces joins -/
theorem removeFaces.cellRegions_fold_joined (mesh : faceCellAdjacency)
    (hcells : ∀ f own nei, mesh.internalFace f = some (own, nei) →
      own < mesh.nCells ∧ nei < mesh.nCells)
    (l done : List Nat) (region : List Nat) (hlen : region.length = mesh.nCells)
    (hinv : ∀ a b, a < mesh.nCells → b < mesh.nCells → region.getD a a = region.getD b b →
      removeFaces.joined mesh done a b) :
    ∀ a b, a < mesh.nCells → b < mesh.nCells →
      (l.foldl
        (fun cellRegion facei =>
          match mesh.internalFace facei with
          | some (own, nei) => removeFaces.mergeCells cellRegion own nei
          | none => cellRegion) region).getD a a
      = (l.foldl
        (fun cellRegion facei =>
          match mesh.internalFace facei with
          | some (own, nei) => removeFaces.mergeCells cellRegion own nei
          | none => cellRegion) region).getD b b →
      removeFaces.joined mesh (done ++ l) a b := by
  induction l generalizing done region with
  | nil =>
    intro a b ha hb h
    rw [List.append_nil]
    exact hinv a b ha hb h
  | cons x l ih =>
    intro a b ha hb h
    rw [List.foldl_cons] at h
    have happ : done ++ x :: l = (done ++ [x]) ++ l := by simp
    rw [happ]
    cases hx : mesh.internalFace x with
    | none =>
      rw [hx] at h
      simp only [] at h
      refine ih (done ++ [x]) region hlen (fun a b ha hb hab => ?_) a b ha hb h
      exact removeFaces.joined_mono mesh done _ (fun f hf => List.mem_append_left _ hf) a b
        (hinv a b ha hb hab)
    | some pr =>
      obtain ⟨o, n⟩ := pr
      rw [hx] at h
      simp only [] at h
      have ho := (hcells x o n hx).1
      have hn := (hcells x o n hx).2
      have hstep : removeFaces.joined mesh (done ++ [x]) o n :=
        Relation.EqvGen.rel _ _ ⟨x, by simp, hx⟩
      have hold : ∀ a b, a < mesh.nCells → b < mesh.nCells →
          region.getD a a = region.getD b b → removeFaces.joined mesh (done ++ [x]) a b :=
        fun a b ha hb hab => removeFaces.joined_mono mesh done _
          (fun f hf => List.mem_append_left _ hf) a b (hinv a b ha hb hab)
      refine ih (done ++ [x]) (removeFaces.mergeCells region o n)
        (by rw [removeFaces.mergeCells_length, hlen]) (fun a b ha hb hab => ?_) a b ha hb h
      rw [removeFaces.mergeCells_getD region o n a (by rw [hlen]; exact ha),
        removeFaces.mergeCells_getD region o n b (by rw [hlen]; exact hb)] at hab
      -- a cell whose region is one of the two merged is joined to `o` or to `n`
      have hside : ∀ c, c < mesh.nCells →
          (region.getD c c = region.getD o o ∨ region.getD c c = region.getD n n) →
          removeFaces.joined mesh (done ++ [x]) c o := by
        intro c hc hcase
        rcases hcase with h1 | h1
        · exact hold c o hc ho h1
        · exact Relation.EqvGen.trans _ _ _ (hold c n hc hn h1)
            (Relation.EqvGen.symm _ _ hstep)
      have hmaxmin : ∀ v : Nat, (v = max (region.getD o o) (region.getD n n)
          ∨ v = min (region.getD o o) (region.getD n n)) →
          (v = region.getD o o ∨ v = region.getD n n) := by
        intro v hv
        rcases hv with hv | hv <;> omega
      by_cases hca : region.getD a a = max (region.getD o o) (region.getD n n)
      · rw [if_pos hca] at hab
        by_cases hcb : region.getD b b = max (region.getD o o) (region.getD n n)
        · exact hold a b ha hb (by rw [hca, hcb])
        · rw [if_neg hcb] at hab
          exact Relation.EqvGen.trans _ _ _
            (hside a ha (hmaxmin _ (Or.inl hca)))
            (Relation.EqvGen.symm _ _ (hside b hb (hmaxmin _ (Or.inr hab.symm))))
      · rw [if_neg hca] at hab
        by_cases hcb : region.getD b b = max (region.getD o o) (region.getD n n)
        · rw [if_pos hcb] at hab
          exact Relation.EqvGen.trans _ _ _
            (hside a ha (hmaxmin _ (Or.inr hab)))
            (Relation.EqvGen.symm _ _ (hside b hb (hmaxmin _ (Or.inl hcb))))
        · rw [if_neg hcb] at hab
          exact hold a b ha hb hab

/-- the regions are the classes of cells joined by the removed faces -/
theorem removeFaces.cellRegions_eq_iff_joined (mesh : faceCellAdjacency)
    (hcells : ∀ f own nei, mesh.internalFace f = some (own, nei) →
      own < mesh.nCells ∧ nei < mesh.nCells)
    (faces : List Nat) (a b : Nat) (ha : a < mesh.nCells) (hb : b < mesh.nCells) :
    (removeFaces.cellRegions mesh faces).getD a a = (removeFaces.cellRegions mesh faces).getD b b
      ↔ removeFaces.joined mesh faces a b := by
  constructor
  · intro h
    have := removeFaces.cellRegions_fold_joined mesh hcells faces [] (List.range mesh.nCells)
      (by simp) (fun a b ha hb hab => ?_) a b ha hb h
    · simpa using this
    · have h1 : (List.range mesh.nCells).getD a a = a := by
        rw [List.getD_eq_getElem?_getD, List.getElem?_range ha]
        rfl
      have h2 : (List.range mesh.nCells).getD b b = b := by
        rw [List.getD_eq_getElem?_getD, List.getElem?_range hb]
        rfl
      rw [h1, h2] at hab
      rw [hab]
      exact Relation.EqvGen.refl _
  · intro h
    unfold removeFaces.joined at h
    clear ha hb
    induction h with
    | rel x y hxy =>
      obtain ⟨f, hf, hfi⟩ := hxy
      exact (removeFaces.cellRegions_fold mesh faces (List.range mesh.nCells)).2.2 f hf x y hfi
        (by simpa using (hcells f x y hfi).1) (by simpa using (hcells f x y hfi).2)
    | refl x => rfl
    | symm x y _ ih => exact ih.symm
    | trans x y z _ _ ih1 ih2 => exact ih1.trans ih2

/-- C19, for the resolver as the specification describes it: on a mesh in which no
two faces join the same two cells, for every candidate list and every external
validity check the faces returned by `compatibleRemoves` are a sublist of the
candidates and are internal faces, the returned regions put the two cells of
every returned face in one region, and no two different returned regions are
connected by more than one surviving face: two distinct faces that are not
returned never connect the same pair of different regions. The returned regions
are those of merging by the returned faces: when the cells of the faces are
cells of the mesh, two cells have the same region exactly when a chain of
returned faces joins them. -/
theorem compatibleRemoves_regions_singly_connected (mesh : faceCellAdjacency)
    (validShape : List Nat → Bool) (candidates : List Nat)
    (hmesh : removeFaces.multiplyConnected mesh [] = false) :
    (removeFaces.compatibleRemoves mesh validShape candidates).compatibleFaces.Sublist
      candidates ∧
    (∀ f ∈ (removeFaces.compatibleRemoves mesh validShape candidates).compatibleFaces,
      (mesh.internalFace f).isSome = true) ∧
    (∀ f ∈ (removeFaces.compatibleRemoves mesh validShape candidates).compatibleFaces,
      ∀ own nei, mesh.internalFace f = some (own, nei) → own < mesh.nCells →
        nei < mesh.nCells →
        (removeFaces.compatibleRemoves mesh validShape candidates).cellRegions.getD own own
          = (removeFaces.compatibleRemoves mesh validShape candidates).cellRegions.getD
              nei nei) ∧
    (∀ (f g : Nat) (pair : Nat × Nat), f ≠ g →
      f ∉ (removeFaces.compatibleRemoves mesh validShape candidates).compatibleFaces →
      g ∉ (removeFaces.compatibleRemoves mesh validShape candidates).compatibleFaces →
      removeFaces.connects mesh
          (removeFaces.compatibleRemoves mesh validShape candidates).cellRegions f
        = some pair →
      removeFaces.connects mesh
          (removeFaces.compatibleRemoves mesh validShape candidates).cellRegions g
        ≠ some pair) ∧
    ((∀ f own nei, mesh.internalFace f = some (own, nei) →
        own < mesh.nCells ∧ nei < mesh.nCells) →
      ∀ a b, a < mesh.nCells → b < mesh.nCells →
        ((removeFaces.compatibleRemoves mesh validShape candidates).cellRegions.getD a a
            = (removeFaces.compatibleRemoves mesh validShape candidates).cellRegions.getD b b
          ↔ removeFaces.joined mesh
              (removeFaces.compatibleRemoves mesh validShape candidates).compatibleFaces
              a b)) := by
  have hres := (removeFaces.stabilise_spec mesh validShape candidates candidates.length).1
  have hprops : (removeFaces.stabilise mesh validShape candidates candidates.length).Sublist
        candidates ∧
      (∀ f ∈ removeFaces.stabilise mesh validShape candidates candidates.length,
        (mesh.internalFace f).isSome = true) ∧
      removeFaces.multiplyConnected mesh
        (removeFaces.stabilise mesh validShape candidates candidates.length) = false := by
    rcases hres with hc | he
    · unfold removeFaces.compatible at hc
      simp only [Bool.and_eq_true, List.all_eq_true, Bool.not_eq_true'] at hc
      exact ⟨hc.2, hc.1.1.1, hc.1.1.2⟩
    · rw [he]
      exact ⟨List.nil_sublist _, fun f hf => by simp at hf, hmesh⟩
  refine ⟨hprops.1, hprops.2.1, ?_, ?_, ?_⟩
  · intro f hf own nei hfi ho hn
    exact (removeFaces.cellRegions_fold mesh
      (removeFaces.stabilise mesh validShape candidates candidates.length)
      (List.range mesh.nCells)).2.2 f hf own nei hfi (by simpa using ho) (by simpa using hn)
  · intro f g pair hfg hf hg hcf
    exact removeFaces.multiplyConnected_eq_false mesh _ hprops.2.2 f g pair hfg hf hg hcf
  · intro hcells a b ha hb
    exact removeFaces.cellRegions_eq_iff_joined mesh hcells
      (removeFaces.stabilise mesh validShape candidates candidates.length) a b ha hb

/-- Witness of C19: the scenario of the specification on the block of 2 x 2 x 2
cells, with the face between cells 0 and 1 as sole candidate: that face is
returned and exactly those two cells are merged, with cell 0 as master; and the
three cells around an edge, where removing the face between two of them alone
would leave two faces to the third, so that nothing is returned, while the three
faces together are returned whole. -/
theorem compatibleRemoves_regions_singly_connected_witness :
    removeFaces.multiplyConnected cubeAdjacency [] = false ∧
    removeFaces.compatibleRemoves cubeAdjacency (fun _ => true) [0]
      = ⟨[0], [0, 0, 2, 3, 4, 5, 6, 7], [0, 2, 3, 4, 5, 6, 7]⟩ ∧
    removeFaces.compatibleRemoves wedgeAdjacency (fun _ => true) [0]
      = ⟨[], [0, 1, 2], [0, 1, 2]⟩ ∧
    removeFaces.compatibleRemoves wedgeAdjacency (fun _ => true) [0, 1, 2]
      = ⟨[0, 1, 2], [0, 0, 0], [0]⟩ ∧
    (removeFaces.compatibleRemoves cubeAdjacency (fun _ => true) [0]).compatibleFaces.Sublist
      [0] :=
  ⟨by decide, by decide, by decide, by decide,
    (compatibleRemoves_regions_singly_connected cubeAdjacency (fun _ => true) [0]
      (by decide)).1⟩

/-! ## Claims on the full pass, the wait and the slots left untouched -/

theorem countP_map_eq_zero {α : Type} (l : List α) (f : α → Call) (p : Call → Bool)
    (hf : ∀ a, p (f a) = false) : (l.map f).countP p = 0 := by
  rw [List.countP_eq_zero]
  intro c hc
  rw [List.mem_map] at hc
  obtain ⟨a, _, rfl⟩ := hc
  simp [hf]

theorem countP_map_range_eq (size : Nat) (f : Nat → Call) (p : Call → Bool) (i : Nat)
    (hf : ∀ j, p (f j) = (j == i)) :
    ((List.range size).map f).countP p = if i < size then 1 else 0 := by
  induction size with
  | zero => simp
  | succ n ih =>
    rw [List.range_succ, List.map_append, List.countP_append, ih]
    simp only [List.map_cons, List.map_nil, List.countP_cons, List.countP_nil, hf]
    by_cases h1 : i < n
    · have h3 : ¬ n = i := by omega
      have h4 : i < n + 1 := by omega
      simp [h1, h3, h4]
    · by_cases h2 : n = i
      · subst h2; simp
      · have : ¬ i < n + 1 := by omega
        simp [h1, h2, this]

/-- C21, as stated, fails under the scheduled discipline: on a container of two
patch fields with a patch schedule that has steps for patch 0 only, `evaluate()`
returns without error after an `initEvaluate` and an `evaluate` on patch 0, and
patch 1 has received neither call. -/
theorem evaluate_scheduled_partial_pass :
    GeometricBoundaryField.evaluate ⟨commsTypes.scheduled, true⟩ (fun _ => 1) 2
        [⟨0, true⟩, ⟨0, false⟩] ⟨0, []⟩
      = (⟨2, [Call.initEvaluate 0 commsTypes.scheduled, Call.evaluate 0 commsTypes.scheduled]⟩,
          none) ∧
    (GeometricBoundaryField.evaluate ⟨commsTypes.scheduled, true⟩ (fun _ => 1) 2
        [⟨0, true⟩, ⟨0, false⟩] ⟨0, []⟩).1.calls.countP (Call.isInitEvaluateOn 1) = 0 ∧
    (GeometricBoundaryField.evaluate ⟨commsTypes.scheduled, true⟩ (fun _ => 1) 2
        [⟨0, true⟩, ⟨0, false⟩] ⟨0, []⟩).1.calls.countP (Call.isEvaluateOn 1) = 0 := by
  decide

/-- C21, amended: under a supported discipline `evaluate()` raises no error. Under
the blocking and the non-blocking discipline every patch of the container has
received, in this call of `evaluate()`, exactly one `initEvaluate` and exactly
one `evaluate`. Under the scheduled discipline a patch has received as many
`initEvaluate` calls as the patch schedule has initiate steps for it and as many
`evaluate` calls as the schedule has complete steps for it; so every patch has
received both calls if the schedule has both steps for every patch, and a patch
without steps has received nothing. -/
theorem evaluate_full_pass (ps : Pstream) (posts : Call → Nat) (size : Nat)
    (patchSchedule : List lduScheduleEntry) (w : World)
    (h : ps.defaultCommsType = commsTypes.blocking
      ∨ ps.defaultCommsType = commsTypes.nonBlocking
      ∨ ps.defaultCommsType = commsTypes.scheduled) :
    (GeometricBoundaryField.evaluate ps posts size patchSchedule w).2 = none ∧
    ((ps.defaultCommsType = commsTypes.blocking
        ∨ ps.defaultCommsType = commsTypes.nonBlocking) →
      ∀ i : Nat, i < size →
        ((GeometricBoundaryField.evaluate ps posts size patchSchedule w).1.calls.drop
            w.calls.length).countP (Call.isInitEvaluateOn i) = 1 ∧
        ((GeometricBoundaryField.evaluate ps posts size patchSchedule w).1.calls.drop
            w.calls.length).countP (Call.isEvaluateOn i) = 1) ∧
    (ps.defaultCommsType = commsTypes.scheduled →
      ∀ i : Nat,
        ((GeometricBoundaryField.evaluate ps posts size patchSchedule w).1.calls.drop
            w.calls.length).countP (Call.isInitEvaluateOn i)
          = patchSchedule.countP (fun s => s.init && s.patch == i) ∧
        ((GeometricBoundaryField.evaluate ps posts size patchSchedule w).1.calls.drop
            w.calls.length).countP (Call.isEvaluateOn i)
          = patchSchedule.countP (fun s => !s.init && s.patch == i)) ∧
    (ps.defaultCommsType = commsTypes.scheduled →
      (∀ i : Nat, i < size → (⟨i, true⟩ : lduScheduleEntry) ∈ patchSchedule
        ∧ (⟨i, false⟩ : lduScheduleEntry) ∈ patchSchedule) →
      ∀ i : Nat, i < size →
        0 < ((GeometricBoundaryField.evaluate ps posts size patchSchedule w).1.calls.drop
            w.calls.length).countP (Call.isInitEvaluateOn i) ∧
        0 < ((GeometricBoundaryField.evaluate ps posts size patchSchedule w).1.calls.drop
            w.calls.length).countP (Call.isEvaluateOn i)) := by
  have hsched : ps.defaultCommsType = commsTypes.scheduled →
      ∀ i : Nat,
        ((GeometricBoundaryField.evaluate ps posts size patchSchedule w).1.calls.drop
            w.calls.length).countP (Call.isInitEvaluateOn i)
          = patchSchedule.countP (fun s => s.init && s.patch == i) ∧
        ((GeometricBoundaryField.evaluate ps posts size patchSchedule w).1.calls.drop
            w.calls.length).countP (Call.isEvaluateOn i)
          = patchSchedule.countP (fun s => !s.init && s.patch == i) := by
    intro hs i
    have hcalls : (GeometricBoundaryField.evaluate ps posts size patchSchedule w).1.calls
        = w.calls ++ patchSchedule.map (fun s =>
          if s.init = true then Call.initEvaluate s.patch commsTypes.scheduled
          else Call.evaluate s.patch commsTypes.scheduled) := by
      unfold GeometricBoundaryField.evaluate
      rw [if_neg (by
        rw [hs]
        exact fun hc => hc.elim commsTypes.scheduled_ne_blocking
          commsTypes.scheduled_ne_nonBlocking), if_pos hs]
      exact evaluate_schedule_fold posts commsTypes.scheduled patchSchedule w
    rw [hcalls, List.drop_left, List.countP_map, List.countP_map]
    constructor
    · apply List.countP_congr
      intro s _
      cases hi : s.init <;> simp [Call.isInitEvaluateOn, hi]
    · apply List.countP_congr
      intro s _
      cases hi : s.init <;> simp [Call.isEvaluateOn, hi]
  refine ⟨?_, ?_, hsched, ?_⟩
  · rcases h with h | h | h
    · exact (evaluate_twoPhase_calls ps posts size patchSchedule w (Or.inl h)).1
    · exact (evaluate_twoPhase_calls ps posts size patchSchedule w (Or.inr h)).1
    · unfold GeometricBoundaryField.evaluate
      rw [if_neg (by
        rw [h]
        exact fun hc => hc.elim commsTypes.scheduled_ne_blocking
          commsTypes.scheduled_ne_nonBlocking), if_pos h]
  · intro h2 i hi
    rw [(evaluate_twoPhase_calls ps posts size patchSchedule w h2).2]
    simp only [List.append_assoc, List.drop_left, List.countP_append]
    rw [countP_map_range_eq size (fun j => Call.initEvaluate j ps.defaultCommsType)
        (Call.isInitEvaluateOn i) i (fun j => by simp [Call.isInitEvaluateOn]),
      countP_map_eq_zero (List.range size) (fun j => Call.evaluate j ps.defaultCommsType)
        (Call.isInitEvaluateOn i) (fun j => by simp [Call.isInitEvaluateOn]),
      countP_map_range_eq size (fun j => Call.evaluate j ps.defaultCommsType)
        (Call.isEvaluateOn i) i (fun j => by simp [Call.isEvaluateOn]),
      countP_map_eq_zero (List.range size) (fun j => Call.initEvaluate j ps.defaultCommsType)
        (Call.isEvaluateOn i) (fun j => by simp [Call.isEvaluateOn])]
    have hw1 : List.countP (Call.isInitEvaluateOn i)
        (if ps.parRun = true ∧ ps.defaultCommsType = commsTypes.nonBlocking
          then [Call.waitRequests w.nRequests] else []) = 0 := by
      split <;> simp [Call.isInitEvaluateOn]
    have hw2 : List.countP (Call.isEvaluateOn i)
        (if ps.parRun = true ∧ ps.defaultCommsType = commsTypes.nonBlocking
          then [Call.waitRequests w.nRequests] else []) = 0 := by
      split <;> simp [Call.isEvaluateOn]
    rw [hw1, hw2]
    simp [hi]
  · intro hs hcov i hi
    rw [(hsched hs i).1, (hsched hs i).2]
    constructor
    · rw [List.countP_pos_iff]
      exact ⟨⟨i, true⟩, (hcov i hi).1, by simp⟩
    · rw [List.countP_pos_iff]
      exact ⟨⟨i, false⟩, (hcov i hi).2, by simp⟩

/-- Witness of C21 (amended): a parallel scheduled run on two patches whose schedule
has both steps for both patches. -/
theorem evaluate_full_pass_witness :
    (Pstream.mk commsTypes.scheduled true).defaultCommsType = commsTypes.scheduled ∧
    GeometricBoundaryField.evaluate ⟨commsTypes.scheduled, true⟩ (fun _ => 1) 2
        [⟨1, true⟩, ⟨0, true⟩, ⟨0, false⟩, ⟨1, false⟩] ⟨0, []⟩
      = (⟨4, [Call.initEvaluate 1 commsTypes.scheduled, Call.initEvaluate 0 commsTypes.scheduled,
          Call.evaluate 0 commsTypes.scheduled, Call.evaluate 1 commsTypes.scheduled]⟩, none) ∧
    (∀ i : Nat, i < 2 →
      0 < ((GeometricBoundaryField.evaluate ⟨commsTypes.scheduled, true⟩ (fun _ => 1) 2
          [⟨1, true⟩, ⟨0, true⟩, ⟨0, false⟩, ⟨1, false⟩] ⟨0, []⟩).1.calls.drop
            (World.mk 0 []).calls.length).countP (Call.isInitEvaluateOn i) ∧
      0 < ((GeometricBoundaryField.evaluate ⟨commsTypes.scheduled, true⟩ (fun _ => 1) 2
          [⟨1, true⟩, ⟨0, true⟩, ⟨0, false⟩, ⟨1, false⟩] ⟨0, []⟩).1.calls.drop
            (World.mk 0 []).calls.length).countP (Call.isEvaluateOn i)) :=
  ⟨rfl, by decide,
    (evaluate_full_pass ⟨commsTypes.scheduled, true⟩ (fun _ => 1) 2
      [⟨1, true⟩, ⟨0, true⟩, ⟨0, false⟩, ⟨1, false⟩] ⟨0, []⟩ (Or.inr (Or.inr rfl))).2.2.2 rfl
      (by decide)⟩

/-- the calls of `evaluate()`, for every value of the discipline -/
theorem evaluate_calls (ps : Pstream) (posts : Call → Nat) (size : Nat)
    (sched : List lduScheduleEntry) (w : World) :
    (GeometricBoundaryField.evaluate ps posts size sched w).1.calls
      = w.calls ++
        (if ps.defaultCommsType = commsTypes.blocking
            ∨ ps.defaultCommsType = commsTypes.nonBlocking then
          (List.range size).map (fun i => Call.initEvaluate i ps.defaultCommsType)
            ++ (if ps.parRun = true ∧ ps.defaultCommsType = commsTypes.nonBlocking
                then [Call.waitRequests w.nRequests] else [])
            ++ (List.range size).map (fun i => Call.evaluate i ps.defaultCommsType)
        else if ps.defaultCommsType = commsTypes.scheduled then
          sched.map (fun s =>
            if s.init = true then Call.initEvaluate s.patch commsTypes.scheduled
            else Call.evaluate s.patch commsTypes.scheduled)
        else []) := by
  by_cases h : ps.defaultCommsType = commsTypes.blocking
      ∨ ps.defaultCommsType = commsTypes.nonBlocking
  · rw [if_pos h, (evaluate_twoPhase_calls ps posts size sched w h).2]
    simp only [List.append_assoc]
  · rw [if_neg h]
    unfold GeometricBoundaryField.evaluate
    rw [if_neg h]
    by_cases hs : ps.defaultCommsType = commsTypes.scheduled
    · rw [if_pos hs, if_pos hs]
      exact evaluate_schedule_fold posts commsTypes.scheduled sched w
    · rw [if_neg hs, if_neg hs]
      simp

/-- the calls of `boundaryNeighbourField()`, for every value of the discipline -/
theorem boundaryNeighbourField_calls (ps : Pstream) (posts : Call → Nat) (size : Nat)
    (coupled : Nat → Bool) (sched : List lduScheduleEntry) (w : World) :
    (GeometricBoundaryField.boundaryNeighbourField ps posts size coupled sched w).1.1.calls
      = w.calls ++ ((List.range size).map Call.clone ++
        (if ps.defaultCommsType = commsTypes.blocking
            ∨ ps.defaultCommsType = commsTypes.nonBlocking then
          ((List.range size).filter coupled).map
              (fun i => Call.initPatchNeighbourField i ps.defaultCommsType)
            ++ (if ps.parRun = true ∧ ps.defaultCommsType = commsTypes.nonBlocking
                then [Call.waitRequests (GeometricBoundaryField.cloneAll posts size w).1.nRequests]
                else [])
            ++ ((List.range size).filter coupled).map
              (fun i => Call.patchNeighbourField i ps.defaultCommsType)
        else if ps.defaultCommsType = commsTypes.scheduled then
          (sched.filter (fun s => coupled s.patch)).map (fun s =>
            if s.init = true then Call.initPatchNeighbourField s.patch ps.defaultCommsType
            else Call.patchNeighbourField s.patch ps.defaultCommsType)
        else [])) := by
  by_cases h : ps.defaultCommsType = commsTypes.blocking
      ∨ ps.defaultCommsType = commsTypes.nonBlocking
  · rw [if_pos h, (neighbour_twoPhase ps posts size coupled sched w h).2.1]
    simp only [List.append_assoc]
  · rw [if_neg h]
    unfold GeometricBoundaryField.boundaryNeighbourField
    simp only []
    rw [if_neg h]
    by_cases hs : ps.defaultCommsType = commsTypes.scheduled
    · rw [if_pos hs, if_pos hs, neighbour_schedule_fold, (cloneAll_eq posts size w).1]
      simp only [List.append_assoc]
    · rw [if_neg hs, if_neg hs, (cloneAll_eq posts size w).1]
      simp

/-- C24: `evaluate()` and `boundaryNeighbourField()` issue `waitRequests` if and only
if the run is parallel and the discipline is non-blocking, and then exactly
once: after the last initiate call and before the first complete call, on the
request count read before the first initiate call (for
`boundaryNeighbourField()`, after the clones that build the result). In a serial
run and under the blocking discipline no wait is issued and the calls on the
patch fields are the same two passes, initiate on every patch (every coupled
patch) in index order, then complete on them in index order; apart from the
wait the calls do not depend on `parRun()`. -/
theorem waitRequests_guard (ps : Pstream) (posts : Call → Nat) (size : Nat)
    (coupled : Nat → Bool) (patchSchedule : List lduScheduleEntry) (w : World) :
    ((GeometricBoundaryField.evaluate ps posts size patchSchedule w).1.calls.drop
        w.calls.length).countP Call.isWait
      = (if ps.parRun = true ∧ ps.defaultCommsType = commsTypes.nonBlocking then 1 else 0) ∧
    ((GeometricBoundaryField.boundaryNeighbourField ps posts size coupled patchSchedule
        w).1.1.calls.drop w.calls.length).countP Call.isWait
      = (if ps.parRun = true ∧ ps.defaultCommsType = commsTypes.nonBlocking then 1 else 0) ∧
    ((ps.defaultCommsType = commsTypes.blocking
        ∨ ps.defaultCommsType = commsTypes.nonBlocking) →
      (GeometricBoundaryField.evaluate ps posts size patchSchedule w).1.calls
        = w.calls
          ++ (List.range size).map (fun i => Call.initEvaluate i ps.defaultCommsType)
          ++ (if ps.parRun = true ∧ ps.defaultCommsType = commsTypes.nonBlocking
              then [Call.waitRequests w.nRequests] else [])
          ++ (List.range size).map (fun i => Call.evaluate i ps.defaultCommsType) ∧
      (GeometricBoundaryField.boundaryNeighbourField ps posts size coupled patchSchedule
          w).1.1.calls
        = w.calls
          ++ (List.range size).map Call.clone
          ++ ((List.range size).filter coupled).map
              (fun i => Call.initPatchNeighbourField i ps.defaultCommsType)
          ++ (if ps.parRun = true ∧ ps.defaultCommsType = commsTypes.nonBlocking
              then [Call.waitRequests (GeometricBoundaryField.cloneAll posts size w).1.nRequests]
              else [])
          ++ ((List.range size).filter coupled).map
              (fun i => Call.patchNeighbourField i ps.defaultCommsType)) ∧
    (∀ parRun : Bool,
      (GeometricBoundaryField.evaluate ⟨ps.defaultCommsType, parRun⟩ posts size patchSchedule
          w).1.calls.filter (fun c => !Call.isWait c)
        = (GeometricBoundaryField.evaluate ps posts size patchSchedule w).1.calls.filter
            (fun c => !Call.isWait c) ∧
      (GeometricBoundaryField.boundaryNeighbourField ⟨ps.defaultCommsType, parRun⟩ posts size
          coupled patchSchedule w).1.1.calls.filter (fun c => !Call.isWait c)
        = (GeometricBoundaryField.boundaryNeighbourField ps posts size coupled patchSchedule
            w).1.1.calls.filter (fun c => !Call.isWait c)) := by
  have hsched1 : ∀ l : List lduScheduleEntry, (l.map (fun s =>
      if s.init = true then Call.initEvaluate s.patch commsTypes.scheduled
      else Call.evaluate s.patch commsTypes.scheduled)).countP Call.isWait = 0 := by
    intro l
    apply countP_map_eq_zero
    intro s
    cases s.init <;> simp [Call.isWait]
  have hsched2 : ∀ l : List lduScheduleEntry, (l.map (fun s =>
      if s.init = true then Call.initPatchNeighbourField s.patch ps.defaultCommsType
      else Call.patchNeighbourField s.patch ps.defaultCommsType)).countP Call.isWait = 0 := by
    intro l
    apply countP_map_eq_zero
    intro s
    cases s.init <;> simp [Call.isWait]
  have hw : ∀ n : Nat, List.countP Call.isWait
      (if ps.parRun = true ∧ ps.defaultCommsType = commsTypes.nonBlocking
        then [Call.waitRequests n] else [])
      = (if ps.parRun = true ∧ ps.defaultCommsType = commsTypes.nonBlocking then 1 else 0) := by
    intro n
    split <;> simp [Call.isWait]
  have hfw : ∀ (c : Prop) [Decidable c] (n : Nat),
      List.filter (fun c => !Call.isWait c) (if c then [Call.waitRequests n] else []) = [] := by
    intro c _ n
    split <;> simp [Call.isWait]
  refine ⟨?_, ?_, fun h => ⟨(evaluate_twoPhase_calls ps posts size patchSchedule w h).2,
    (neighbour_twoPhase ps posts size coupled patchSchedule w h).2.1⟩, fun parRun => ⟨?_, ?_⟩⟩
  · rw [evaluate_calls, List.drop_left]
    split
    · simp only [List.countP_append, hw]
      rw [countP_map_eq_zero _ _ _ (fun _ => rfl), countP_map_eq_zero _ _ _ (fun _ => rfl)]
      simp
    · split
      · rw [hsched1]
        rename_i h1 h2
        rw [if_neg (fun hc => h1 (Or.inr hc.2))]
      · rename_i h1 h2
        rw [if_neg (fun hc => h1 (Or.inr hc.2))]
        rfl
  · rw [boundaryNeighbourField_calls, List.drop_left, List.countP_append,
      countP_map_eq_zero _ _ _ (fun _ => rfl)]
    split
    · simp only [List.countP_append, hw]
      rw [countP_map_eq_zero _ _ _ (fun _ => rfl), countP_map_eq_zero _ _ _ (fun _ => rfl)]
      simp
    · split
      · rw [hsched2]
        rename_i h1 h2
        rw [if_neg (fun hc => h1 (Or.inr hc.2))]
      · rename_i h1 h2
        rw [if_neg (fun hc => h1 (Or.inr hc.2))]
        rfl
  · rw [evaluate_calls, evaluate_calls]
    by_cases h : ps.defaultCommsType = commsTypes.blocking
        ∨ ps.defaultCommsType = commsTypes.nonBlocking
    · simp only [if_pos h, List.filter_append, hfw]
    · simp only [if_neg h]
  · rw [boundaryNeighbourField_calls, boundaryNeighbourField_calls]
    by_cases h : ps.defaultCommsType = commsTypes.blocking
        ∨ ps.defaultCommsType = commsTypes.nonBlocking
    · simp only [if_pos h, List.filter_append, hfw]
    · simp only [if_neg h]

/-- Witness of C24: two patches, both coupled, with three requests outstanding and
each call posting one more. The parallel non-blocking run waits once on the
count read before the first initiate call; the serial non-blocking run and the
parallel blocking run do not wait. -/
theorem waitRequests_guard_witness :
    (GeometricBoundaryField.evaluate ⟨commsTypes.nonBlocking, true⟩ (fun _ => 1) 2 []
        ⟨3, []⟩).1.calls
      = [Call.initEvaluate 0 commsTypes.nonBlocking, Call.initEvaluate 1 commsTypes.nonBlocking,
          Call.waitRequests 3,
          Call.evaluate 0 commsTypes.nonBlocking, Call.evaluate 1 commsTypes.nonBlocking] ∧
    (GeometricBoundaryField.boundaryNeighbourField ⟨commsTypes.nonBlocking, true⟩
        (fun c => if c = Call.clone 0 ∨ c = Call.clone 1 then 0 else 1) 2 (fun _ => true) []
        ⟨3, []⟩).1.1.calls
      = [Call.clone 0, Call.clone 1,
          Call.initPatchNeighbourField 0 commsTypes.nonBlocking,
          Call.initPatchNeighbourField 1 commsTypes.nonBlocking,
          Call.waitRequests 3,
          Call.patchNeighbourField 0 commsTypes.nonBlocking,
          Call.patchNeighbourField 1 commsTypes.nonBlocking] ∧
    (GeometricBoundaryField.evaluate ⟨commsTypes.nonBlocking, false⟩ (fun _ => 1) 2 []
        ⟨3, []⟩).1.calls
      = [Call.initEvaluate 0 commsTypes.nonBlocking, Call.initEvaluate 1 commsTypes.nonBlocking,
          Call.evaluate 0 commsTypes.nonBlocking, Call.evaluate 1 commsTypes.nonBlocking] ∧
    (GeometricBoundaryField.evaluate ⟨commsTypes.blocking, true⟩ (fun _ => 1) 2 []
        ⟨3, []⟩).1.calls
      = [Call.initEvaluate 0 commsTypes.blocking, Call.initEvaluate 1 commsTypes.blocking,
          Call.evaluate 0 commsTypes.blocking, Call.evaluate 1 commsTypes.blocking] ∧
    ((GeometricBoundaryField.evaluate ⟨commsTypes.nonBlocking, true⟩ (fun _ => 1) 2 []
        ⟨3, []⟩).1.calls.drop (World.mk 3 []).calls.length).countP Call.isWait
      = (if (Pstream.mk commsTypes.nonBlocking true).parRun = true
          ∧ (Pstream.mk commsTypes.nonBlocking true).defaultCommsType = commsTypes.nonBlocking
        then 1 else 0) :=
  ⟨by decide, by decide, by decide, by decide,
    (waitRequests_guard ⟨commsTypes.nonBlocking, true⟩ (fun _ => 1) 2 (fun _ => true) []
      ⟨3, []⟩).1⟩

/-- the slots after the loop over the schedule of `boundaryNeighbourField()` -/
theorem neighbour_schedule_slots (posts : Call → Nat) (coupled : Nat → Bool) (ct : commsTypes)
    (sched : List lduScheduleEntry) (st : World × List ResultSlot) :
    (sched.foldl (fun st s =>
        if coupled s.patch = true then
          if s.init = true then
            (World.issue posts (Call.initPatchNeighbourField s.patch ct) st.1, st.2)
          else
            (World.issue posts (Call.patchNeighbourField s.patch ct) st.1,
              List.set st.2 s.patch (ResultSlot.neighbour s.patch ct))
        else st) st).2.length = st.2.length
    ∧ ∀ j : Nat,
      (sched.foldl (fun st s =>
        if coupled s.patch = true then
          if s.init = true then
            (World.issue posts (Call.initPatchNeighbourField s.patch ct) st.1, st.2)
          else
            (World.issue posts (Call.patchNeighbourField s.patch ct) st.1,
              List.set st.2 s.patch (ResultSlot.neighbour s.patch ct))
        else st) st).2[j]?
      = if sched.any (fun s => s.patch == j && !s.init) = true ∧ coupled j = true
            ∧ j < st.2.length then
          some (ResultSlot.neighbour j ct)
        else st.2[j]? := by
  induction sched generalizing st with
  | nil => simp
  | cons s l ih =>
    rw [List.foldl_cons]
    cases hc : coupled s.patch
    · simp only [hc, Bool.false_eq_true, if_false]
      obtain ⟨h1, h2⟩ := ih st
      refine ⟨h1, fun j => ?_⟩
      rw [h2 j]
      by_cases hj : s.patch = j
      · subst hj
        simp [hc]
      · simp [hj]
    · cases hi : s.init
      · simp only [hc, hi, if_true, Bool.false_eq_true, if_false]
        obtain ⟨h1, h2⟩ := ih (World.issue posts (Call.patchNeighbourField s.patch ct) st.1,
          List.set st.2 s.patch (ResultSlot.neighbour s.patch ct))
        refine ⟨by rw [h1]; simp, fun j => ?_⟩
        rw [h2 j]
        simp only [List.length_set, List.getElem?_set, List.any_cons, hi]
        by_cases hj : s.patch = j
        · subst hj
          by_cases hl : s.patch < st.2.length <;> simp [hc, hl]
          omega
        · simp [hj]
      · simp only [hc, hi, if_true]
        obtain ⟨h1, h2⟩ := ih (World.issue posts (Call.initPatchNeighbourField s.patch ct) st.1,
          st.2)
        refine ⟨h1, fun j => ?_⟩
        rw [h2 j]
        simp [hi]

/-- C25: in the container that `boundaryNeighbourField()` builds, which has one slot
per patch field of the source, the slot of every patch that does not report
`coupled()` is the clone of the patch field of the source for that patch,
occupied and not assigned a neighbour value, whatever the discipline. Under the
scheduled discipline the same holds for every patch, coupled or not, for which
the patch schedule has no complete step, and the slot of a coupled patch with a
complete step is assigned the neighbour value. -/
theorem boundaryNeighbourField_uncoupled_slots_cloned (ps : Pstream) (posts : Call → Nat)
    (size : Nat) (coupled : Nat → Bool) (patchSchedule : List lduScheduleEntry) (w : World) :
    (GeometricBoundaryField.boundaryNeighbourField ps posts size coupled patchSchedule
        w).1.2.length = size ∧
    (∀ i : Nat, i < size → coupled i = false →
      (GeometricBoundaryField.boundaryNeighbourField ps posts size coupled patchSchedule
          w).1.2[i]? = some (ResultSlot.cloned i)) ∧
    (ps.defaultCommsType = commsTypes.scheduled →
      ∀ i : Nat, i < size → (∀ s ∈ patchSchedule, s.patch = i → s.init = true) →
        (GeometricBoundaryField.boundaryNeighbourField ps posts size coupled patchSchedule
            w).1.2[i]? = some (ResultSlot.cloned i)) ∧
    (ps.defaultCommsType = commsTypes.scheduled →
      ∀ i : Nat, i < size → coupled i = true →
        (∃ s ∈ patchSchedule, s.patch = i ∧ s.init = false) →
        (GeometricBoundaryField.boundaryNeighbourField ps posts size coupled patchSchedule
            w).1.2[i]? = some (ResultSlot.neighbour i commsTypes.scheduled)) := by
  have hclone := (cloneAll_eq posts size w).2
  have hsched : ps.defaultCommsType = commsTypes.scheduled →
      (GeometricBoundaryField.boundaryNeighbourField ps posts size coupled patchSchedule
          w).1.2.length = size ∧
      ∀ j : Nat, (GeometricBoundaryField.boundaryNeighbourField ps posts size coupled
          patchSchedule w).1.2[j]?
        = if patchSchedule.any (fun s => s.patch == j && !s.init) = true ∧ coupled j = true
              ∧ j < size then
            some (ResultSlot.neighbour j commsTypes.scheduled)
          else ((List.range size).map ResultSlot.cloned)[j]? := by
    intro hs
    have hb : ¬ (ps.defaultCommsType = commsTypes.blocking
        ∨ ps.defaultCommsType = commsTypes.nonBlocking) := by
      rw [hs]
      decide
    unfold GeometricBoundaryField.boundaryNeighbourField
    simp only []
    rw [if_neg hb, if_pos hs]
    simp only []
    obtain ⟨h1, h2⟩ := neighbour_schedule_slots posts coupled ps.defaultCommsType patchSchedule
      (GeometricBoundaryField.cloneAll posts size w)
    refine ⟨by rw [h1, hclone]; simp, fun j => ?_⟩
    rw [h2 j, hclone, hs]
    simp
  have hother : ¬ (ps.defaultCommsType = commsTypes.blocking
        ∨ ps.defaultCommsType = commsTypes.nonBlocking) →
      ¬ ps.defaultCommsType = commsTypes.scheduled →
      (GeometricBoundaryField.boundaryNeighbourField ps posts size coupled patchSchedule
          w).1.2 = (List.range size).map ResultSlot.cloned := by
    intro hb hs
    unfold GeometricBoundaryField.boundaryNeighbourField
    simp only []
    rw [if_neg hb, if_neg hs]
    exact hclone
  have htwo : (ps.defaultCommsType = commsTypes.blocking
        ∨ ps.defaultCommsType = commsTypes.nonBlocking) →
      (GeometricBoundaryField.boundaryNeighbourField ps posts size coupled patchSchedule
          w).1.2.length = size := by
    intro hb
    unfold GeometricBoundaryField.boundaryNeighbourField
    simp only []
    rw [if_pos hb]
    simp only []
    have hlen : ∀ (l : List Nat) (st : World × List ResultSlot),
        (l.foldl (fun st patchi =>
          if coupled patchi = true then
            (World.issue posts (Call.patchNeighbourField patchi ps.defaultCommsType) st.1,
              List.set st.2 patchi (ResultSlot.neighbour patchi ps.defaultCommsType))
          else st) st).2.length = st.2.length := by
      intro l
      induction l with
      | nil => intro st; rfl
      | cons a l ih =>
        intro st
        rw [List.foldl_cons, ih]
        split <;> simp
    rw [hlen, hclone]
    simp
  refine ⟨?_, ?_, ?_, ?_⟩
  · by_cases hb : ps.defaultCommsType = commsTypes.blocking
        ∨ ps.defaultCommsType = commsTypes.nonBlocking
    · exact htwo hb
    · by_cases hs : ps.defaultCommsType = commsTypes.scheduled
      · exact (hsched hs).1
      · rw [hother hb hs]
        simp
  · intro i hi hc
    by_cases hb : ps.defaultCommsType = commsTypes.blocking
        ∨ ps.defaultCommsType = commsTypes.nonBlocking
    · rw [(neighbour_twoPhase ps posts size coupled patchSchedule w hb).2.2 i hi]
      simp [hc]
    · by_cases hs : ps.defaultCommsType = commsTypes.scheduled
      · rw [(hsched hs).2 i]
        simp [hc, hi]
      · rw [hother hb hs]
        simp [hi]
  · intro hs i hi hno
    rw [(hsched hs).2 i]
    have hany : ¬ (patchSchedule.any (fun s => s.patch == i && !s.init) = true) := by
      rw [List.any_eq_true]
      rintro ⟨s, hmem, hsi⟩
      simp only [Bool.and_eq_true, beq_iff_eq, Bool.not_eq_true'] at hsi
      rw [hno s hmem hsi.1] at hsi
      exact Bool.noConfusion hsi.2
    rw [if_neg (fun hc => hany hc.1)]
    simp [hi]
  · intro hs i hi hc hex
    rw [(hsched hs).2 i]
    have hany : patchSchedule.any (fun s => s.patch == i && !s.init) = true := by
      rw [List.any_eq_true]
      obtain ⟨s, hmem, h1, h2⟩ := hex
      exact ⟨s, hmem, by simp [h1, h2]⟩
    rw [if_pos ⟨hany, hc, hi⟩]

/-- Witness of C25: three patches of which patches 1 and 2 are coupled, in a scheduled
run whose schedule completes patch 1 only: slot 0 (uncoupled) and slot 2
(coupled, initiated but never completed) stay the clones, slot 1 is assigned the
neighbour value. In a non-blocking run slot 0 alone stays the clone. -/
theorem boundaryNeighbourField_uncoupled_slots_cloned_witness :
    (GeometricBoundaryField.boundaryNeighbourField ⟨commsTypes.scheduled, true⟩ (fun _ => 0) 3
        (fun i => decide (1 ≤ i)) [⟨0, true⟩, ⟨1, true⟩, ⟨2, true⟩, ⟨0, false⟩, ⟨1, false⟩]
        ⟨0, []⟩).1.2
      = [ResultSlot.cloned 0, ResultSlot.neighbour 1 commsTypes.scheduled,
          ResultSlot.cloned 2] ∧
    (GeometricBoundaryField.boundaryNeighbourField ⟨commsTypes.nonBlocking, true⟩ (fun _ => 0) 3
        (fun i => decide (1 ≤ i)) [] ⟨0, []⟩).1.2
      = [ResultSlot.cloned 0, ResultSlot.neighbour 1 commsTypes.nonBlocking,
          ResultSlot.neighbour 2 commsTypes.nonBlocking] ∧
    (GeometricBoundaryField.boundaryNeighbourField ⟨commsTypes.scheduled, true⟩ (fun _ => 0) 3
        (fun i => decide (1 ≤ i)) [⟨0, true⟩, ⟨1, true⟩, ⟨2, true⟩, ⟨0, false⟩, ⟨1, false⟩]
        ⟨0, []⟩).1.2[2]? = some (ResultSlot.cloned 2) :=
  ⟨by decide, by decide,
    (boundaryNeighbourField_uncoupled_slots_cloned ⟨commsTypes.scheduled, true⟩ (fun _ => 0) 3
      (fun i => decide (1 ≤ i)) [⟨0, true⟩, ⟨1, true⟩, ⟨2, true⟩, ⟨0, false⟩, ⟨1, false⟩]
      ⟨0, []⟩).2.2.1 rfl 2 (by decide) (by decide)⟩

/-! ## Claims on the unresolved-patch error and the early return of `readField` -/

section
variable {F D PF : Type}

theorem foldlM_error {ε α β : Type} (f : β → α → Except ε β) (l : List α) (s : β) (err : ε)
    (h : l.foldlM f s = Except.error err) :
    ∃ (s1 : β) (a : α), a ∈ l ∧ f s1 a = Except.error err := by
  induction l generalizing s with
  | nil => cases h
  | cons a l ih =>
    rw [List.foldlM_cons] at h
    cases hf : f s a with
    | error e =>
      rw [hf] at h
      cases h
      exact ⟨s, a, List.mem_cons_self _ _, hf⟩
    | ok s1 =>
      rw [hf] at h
      obtain ⟨s2, b, hb, hfb⟩ := ih s1 h
      exact ⟨s2, b, List.mem_cons_of_mem _ hb, hfb⟩

/-- an error of the body of step 1 is an access outside the patch list -/
theorem readField.explicitName_error (tbl : PatchFieldTable F D PF) (bm : BoundaryMesh)
    (field : F) (st : PtrList PF × label) (e : entry D) (err : FatalError)
    (h : readField.explicitName tbl bm field st e = Except.error err) :
    err.isUnresolvedPatch = false := by
  unfold readField.explicitName at h
  split at h
  · simp only [] at h
    split at h
    · split at h
      · cases h
      · cases h
        rfl
    · cases h
  · cases h

/-- an error of the body of step 2 is an access outside the patch list -/
theorem readField.patchGroup_error (tbl : PatchFieldTable F D PF) (bm : BoundaryMesh)
    (field : F) (bf : PtrList PF) (e : entry D) (err : FatalError)
    (h : readField.patchGroup tbl bm field bf e = Except.error err) :
    err.isUnresolvedPatch = false := by
  unfold readField.patchGroup at h
  split at h
  · obtain ⟨bf1, patchi, _, hg⟩ := foldlM_error _ _ _ _ h
    unfold readField.groupPatch at hg
    split at hg
    · split at hg
      · cases hg
      · cases hg
        rfl
    · cases hg
  · cases h

/-- C22: when `readField` fails with an unresolved-patch error, steps 1 and 2 have
run without error and the error is raised for the patch of lowest index whose
slot is still empty after step 3: it carries the name of that patch, with the
message "Cannot find patchField entry for cyclic" if and only if the type of
that patch is cyclic and the message "Cannot find patchField entry for"
otherwise. -/
theorem readField_reports_first_unset (tbl : PatchFieldTable F D PF) (bm : BoundaryMesh)
    (field : F) (dict : dictionary D) (self : PtrList PF) (err : FatalError)
    (h : readField tbl bm field dict self = Except.error err)
    (hu : err.isUnresolvedPatch = true) :
    ∃ (bf1 : PtrList PF) (nUnset : label) (bf2 : PtrList PF) (j : Nat) (p : Patch),
      readField.step1 tbl bm field dict self = Except.ok (bf1, nUnset) ∧
      readField.step2 tbl bm field dict bf1 = Except.ok bf2 ∧
      bm.patches[j]? = some p ∧
      PtrList.isSet (readField.step3 tbl bm field dict bf2) j = false ∧
      (∀ i, i < j → PtrList.isSet (readField.step3 tbl bm field dict bf2) i = true) ∧
      (err = FatalError.cannotFindCyclic p.name ∨ err = FatalError.cannotFind p.name) ∧
      (err = FatalError.cannotFindCyclic p.name ↔ p.type = cyclicPolyPatch.typeName) ∧
      (err = FatalError.cannotFind p.name ↔ p.type ≠ cyclicPolyPatch.typeName) := by
  cases h1 : readField.step1 tbl bm field dict self with
  | error e =>
    exfalso
    unfold readField at h
    rw [h1] at h
    cases h
    unfold readField.step1 at h1
    obtain ⟨s1, a, _, ha⟩ := foldlM_error _ _ _ _ h1
    rw [readField.explicitName_error tbl bm field s1 a _ ha] at hu
    cases hu
  | ok st1 =>
    obtain ⟨bf1, nUnset⟩ := st1
    cases h2 : readField.step2 tbl bm field dict bf1 with
    | error e =>
      exfalso
      unfold readField at h
      rw [h1] at h
      simp only [] at h
      split at h
      · cases h
      · rw [h2] at h
        cases h
        rw [readField.step2_eq] at h2
        obtain ⟨s1, a, _, ha⟩ := foldlM_error _ _ _ _ h2
        rw [readField.patchGroup_error tbl bm field s1 a _ ha] at hu
        cases hu
    | ok bf2 =>
      rw [readField.unfold_ok tbl bm field dict self bf1 bf2 nUnset h1 h2] at h
      split at h
      · cases h
      · cases hc : readField.checkUnset (readField.step3 tbl bm field dict bf2)
            bm.patches.enum with
        | ok u =>
          rw [hc] at h
          cases h
        | error e =>
          rw [hc] at h
          cases h
          obtain ⟨j, p, hp, hj, hlow, herr⟩ :=
            readField.checkUnset_enum_error _ bm.patches err hc
          refine ⟨bf1, nUnset, bf2, j, p, rfl, h2, hp, hj, hlow, ?_, ?_, ?_⟩
          · rw [herr]
            split
            · exact Or.inl rfl
            · exact Or.inr rfl
          · rw [herr]
            constructor
            · intro he
              by_contra hn
              rw [if_neg hn] at he
              cases he
            · intro ht
              rw [if_pos ht]
          · rw [herr]
            constructor
            · intro he ht
              rw [if_pos ht] at he
              cases he
            · intro hn
              rw [if_neg hn]

end

/-- Witness of C22: on the boundary with a cyclic pair, a dictionary that names only
patch `inlet` leaves the slots of `left`, `right` and `walls` empty; the error
is raised for `left`, the lowest of them, with the message for cyclic patches.
In the small case without wildcard entry the error is raised for `walls` with
the ordinary message. -/
theorem readField_reports_first_unset_witness :
    readField exampleTable exampleCyclicMesh () exampleDictInlet []
      = Except.error (FatalError.cannotFindCyclic "left") ∧
    readField exampleTable exampleMesh () exampleDictNoWildcard []
      = Except.error (FatalError.cannotFind "walls") ∧
    readField.step3 exampleTable exampleCyclicMesh () exampleDictInlet
        [some ("inlet", "fixedValue"), none, none, none]
      = [some ("inlet", "fixedValue"), none, none, none] ∧
    ∃ (bf1 : PtrList (word × word)) (nUnset : label) (bf2 : PtrList (word × word)) (j : Nat)
        (p : Patch),
      readField.step1 exampleTable exampleCyclicMesh () exampleDictInlet []
        = Except.ok (bf1, nUnset) ∧
      readField.step2 exampleTable exampleCyclicMesh () exampleDictInlet bf1 = Except.ok bf2 ∧
      exampleCyclicMesh.patches[j]? = some p ∧
      PtrList.isSet (readField.step3 exampleTable exampleCyclicMesh () exampleDictInlet bf2) j
        = false ∧
      (∀ i, i < j →
        PtrList.isSet (readField.step3 exampleTable exampleCyclicMesh () exampleDictInlet bf2) i
          = true) ∧
      (FatalError.cannotFindCyclic "left" = FatalError.cannotFindCyclic p.name
        ∨ FatalError.cannotFindCyclic "left" = FatalError.cannotFind p.name) ∧
      (FatalError.cannotFindCyclic "left" = FatalError.cannotFindCyclic p.name
        ↔ p.type = cyclicPolyPatch.typeName) ∧
      (FatalError.cannotFindCyclic "left" = FatalError.cannotFind p.name
        ↔ p.type ≠ cyclicPolyPatch.typeName) :=
  ⟨rfl, rfl, rfl,
    readField_reports_first_unset exampleTable exampleCyclicMesh () exampleDictInlet []
      (FatalError.cannotFindCyclic "left") rfl rfl⟩

section
variable {F D PF : Type} {T : Type}

theorem PtrList.ext_ptr (l1 l2 : PtrList T) (hl : l1.length = l2.length)
    (h : ∀ j, j < l1.length → PtrList.ptr l1 j = PtrList.ptr l2 j) : l1 = l2 := by
  apply List.ext_getElem hl
  intro i h1 h2
  have := h i h1
  unfold PtrList.ptr at this
  rwa [List.getD_eq_getElem _ _ h1, List.getD_eq_getElem _ _ h2] at this

/-- the empty slots, counted by index -/
theorem PtrList.nUnset_eq_countP_range (l : PtrList T) :
    PtrList.nUnset l = (List.range l.length).countP (fun j => !PtrList.isSet l j) := by
  have hl : l = (List.range l.length).map (fun j => l.getD j none) := by
    apply List.ext_getElem
    · simp
    · intro i h1 h2
      simp [List.getElem?_eq_getElem h1]
  unfold PtrList.nUnset
  conv_lhs => rw [hl]
  rw [List.countP_map]
  apply List.countP_congr
  intro j _
  simp [PtrList.isSet, PtrList.ptr]

theorem countP_mem_range_of_nodup (l : List Nat) (n : Nat) (hn : l.Nodup)
    (hb : ∀ j ∈ l, j < n) :
    (List.range n).countP (fun j => decide (j ∈ l)) = l.length := by
  rw [List.countP_eq_length_filter]
  apply List.Perm.length_eq
  rw [List.perm_ext_iff_of_nodup ((List.nodup_range n).filter _) hn]
  intro a
  simp only [List.mem_filter, List.mem_range, decide_eq_true_eq]
  exact ⟨fun h => h.2, fun h => ⟨hb a h, h⟩⟩

/-- the counter after step 1 is the number of empty slots -/
theorem readField.step1_nUnset (tbl : PatchFieldTable F D PF) (bm : BoundaryMesh) (field : F)
    (dict : dictionary D) (self bf1 : PtrList PF) (nUnset : label) (hv : bm.valid)
    (hk : dict.keysDistinct)
    (h1 : readField.step1 tbl bm field dict self = Except.ok (bf1, nUnset)) :
    bf1.length = bm.patches.length ∧
    nUnset = ((PtrList.nUnset bf1 : Nat) : Int) ∧
    (nUnset = 0 ↔ ∀ j, j < bm.patches.length → PtrList.isSet bf1 j = true) := by
  obtain ⟨bf1', nUnset', h1', hlen, hset, hzero⟩ :=
    readField.step1_analysis tbl bm field dict self hv hk
  rw [h1] at h1'
  cases h1'
  refine ⟨hlen, ?_, hzero⟩
  have hfold := readField.step1_fold tbl bm field dict.entries _ _ h1
  have hnodup := readField.explicitPatchID_nodup bm hv dict.entries hk
  have hcount := countP_mem_range_of_nodup _ bm.patches.length hnodup hfold.2.2.1
  have hsplit := List.length_eq_countP_add_countP (fun j => PtrList.isSet bf1 j)
    (List.range bm.patches.length)
  have hc1 : (List.range bm.patches.length).countP (fun j => PtrList.isSet bf1 j)
      = (dict.entries.filterMap (readField.explicitPatchID bm)).length := by
    rw [← hcount]
    apply List.countP_congr
    intro j _
    simp only [decide_eq_true_eq]
    exact hset j
  have hc2 : (List.range bm.patches.length).countP (fun j => ¬ PtrList.isSet bf1 j = true)
      = PtrList.nUnset bf1 := by
    rw [PtrList.nUnset_eq_countP_range, hlen]
    apply List.countP_congr
    intro j _
    simp
  rw [hc1, hc2, List.length_range] at hsplit
  have hval : (nUnset : Int) = ((bm.patches.length : Nat) : Int)
      - (((dict.entries.filterMap (readField.explicitPatchID bm)).length : Nat) : Int) :=
    hfold.2.1
  rw [hval, hsplit]
  push_cast
  ring

/-- C23: the early return of `readField` is sound. For lookups that keep their
contract and a dictionary with distinct keys, step 1 returns, the counter
`nUnset` after step 1 is the number of slots still empty, so it is zero exactly
when every slot is occupied; in that case steps 2 to 4 would change nothing and
raise nothing; and `readField` gives the same result, container or error, as
the variant without the early return. -/
theorem readField_early_return_sound (tbl : PatchFieldTable F D PF) (bm : BoundaryMesh)
    (field : F) (dict : dictionary D) (self : PtrList PF) (hv : bm.valid)
    (hk : dict.keysDistinct) :
    (∃ (bf1 : PtrList PF) (nUnset : label),
      readField.step1 tbl bm field dict self = Except.ok (bf1, nUnset) ∧
      nUnset = ((PtrList.nUnset bf1 : Nat) : Int) ∧
      (nUnset = 0 ↔ ∀ j, j < bm.patches.length → PtrList.isSet bf1 j = true) ∧
      (nUnset = 0 →
        readField.step2 tbl bm field dict bf1 = Except.ok bf1 ∧
        readField.step3 tbl bm field dict bf1 = bf1 ∧
        readField.checkUnset bf1 bm.patches.enum = Except.ok () ∧
        readField tbl bm field dict self = Except.ok bf1)) ∧
    readField tbl bm field dict self = readFieldNoEarlyReturn tbl bm field dict self := by
  obtain ⟨bf1, nUnset, h1, hlen, _, _⟩ :=
    readField.step1_analysis tbl bm field dict self hv hk
  obtain ⟨_, hn, hzero⟩ := readField.step1_nUnset tbl bm field dict self bf1 nUnset hv hk h1
  obtain ⟨bf2, h2, hlen2, hkeep, _⟩ := readField.step2_analysis tbl bm field dict bf1 hv hlen
  have hfull : nUnset = 0 →
      readField.step2 tbl bm field dict bf1 = Except.ok bf1 ∧
      readField.step3 tbl bm field dict bf1 = bf1 ∧
      readField.checkUnset bf1 bm.patches.enum = Except.ok () ∧
      readField tbl bm field dict self = Except.ok bf1 := by
    intro h0
    have hall := hzero.1 h0
    have hbf2 : bf2 = bf1 := by
      apply PtrList.ext_ptr _ _ (by rw [hlen2, hlen])
      intro j hj
      rw [hlen2] at hj
      obtain ⟨x, hx⟩ := (PtrList.isSet_iff bf1 j).1 (hall j hj)
      rw [hx, hkeep j x hx]
    have h3 : readField.step3 tbl bm field dict bf1 = bf1 := by
      apply PtrList.ext_ptr _ _ (readField.step3_ptr tbl bm field dict bf1 hlen 0).1
      intro j hj
      rw [(readField.step3_ptr tbl bm field dict bf1 hlen 0).1, hlen] at hj
      obtain ⟨x, hx⟩ := (PtrList.isSet_iff bf1 j).1 (hall j hj)
      rw [(readField.step3_ptr tbl bm field dict bf1 hlen j).2, hx]
    refine ⟨by rw [h2, hbf2], h3, (readField.checkUnset_enum_ok bf1 bm.patches).2 hall, ?_⟩
    rw [readField.unfold_ok tbl bm field dict self bf1 bf2 nUnset h1 h2, if_pos h0]
  refine ⟨⟨bf1, nUnset, h1, hn, hzero, hfull⟩, ?_⟩
  by_cases h0 : nUnset = 0
  · obtain ⟨hs2, hs3, hs4, hr⟩ := hfull h0
    rw [hr]
    unfold readFieldNoEarlyReturn
    rw [h1]
    simp only []
    rw [hs2]
    simp only []
    rw [hs3, hs4]
  · rw [readField.unfold_ok tbl bm field dict self bf1 bf2 nUnset h1 h2, if_neg h0]
    unfold readFieldNoEarlyReturn
    rw [h1]
    simp only []
    rw [h2]

end

theorem exampleDictAllNamed_keysDistinct : exampleDictAllNamed.keysDistinct := by
  unfold dictionary.keysDistinct
  decide

/-- Witness of C23: a dictionary that names all four patches takes the early return
with the counter at zero and no slot empty, and the variant without the early
return gives the same container; in the small case the counter after step 1 is
3, the number of empty slots. -/
theorem readField_early_return_sound_witness :
    exampleCyclicMesh.valid ∧ exampleDictAllNamed.keysDistinct ∧
    readField.step1 exampleTable exampleCyclicMesh () exampleDictAllNamed []
      = Except.ok ([some ("inlet", "fixedValue"), some ("left", "cyclic"),
          some ("right", "cyclic"), some ("walls", "noSlip")], 0) ∧
    readFieldNoEarlyReturn exampleTable exampleCyclicMesh () exampleDictAllNamed []
      = Except.ok [some ("inlet", "fixedValue"), some ("left", "cyclic"),
          some ("right", "cyclic"), some ("walls", "noSlip")] ∧
    readField.step1 exampleTable exampleMesh () exampleDict []
      = Except.ok ([some ("inlet", "fixedValue"), none, none, none], 3) ∧
    PtrList.nUnset ([some ("inlet", "fixedValue"), none, none, none] : PtrList (word × word))
      = 3 ∧
    readField exampleTable exampleCyclicMesh () exampleDictAllNamed []
      = readFieldNoEarlyReturn exampleTable exampleCyclicMesh () exampleDictAllNamed [] :=
  ⟨BoundaryMesh.ofPatches_valid _, exampleDictAllNamed_keysDistinct, rfl, rfl, rfl, rfl,
    (readField_early_return_sound exampleTable exampleCyclicMesh () exampleDictAllNamed []
      (BoundaryMesh.ofPatches_valid _) exampleDictAllNamed_keysDistinct).2⟩

/-! ## Claim on the unresolved-patch error, with the abort of `dict.subDict` -/

section
variable {F D PF : Type}

/-- the body of step 3 with the abort, in terms of the body without -/
theorem readField.wildcardOverrideAborting_eq (tbl : PatchFieldTable F D PF) (field : F)
    (dict : dictionary D) (bf : PtrList PF) (i : Nat) (p : Patch) :
    readField.wildcardOverrideAborting tbl field dict bf (i, p)
      = if PtrList.isSet bf i = false ∧ p.type ≠ emptyPolyPatch.typeName
            ∧ dict.found p.name = true ∧ dict.isDict p.name = false then
          Except.error (FatalError.subDictAbort p.name)
        else Except.ok (readField.wildcardOverride tbl field dict bf (i, p)) := by
  unfold readField.wildcardOverrideAborting readField.wildcardOverride
  cases hs : PtrList.isSet bf i
  · by_cases ht : p.type = emptyPolyPatch.typeName
    · simp [ht]
    · cases hf : dict.found p.name
      · simp [ht]
      · cases hd : dict.isDict p.name <;> simp [ht]
  · simp

/-- step 3 with the abort, over the patches `ps` numbered from `k`: it is step 3
without the abort when no patch with an empty slot that is not of the empty
type has a found entry that is not a sub-dictionary, and the abort for such a
patch otherwise -/
theorem readField.step3Aborting_fold (tbl : PatchFieldTable F D PF) (field : F)
    (dict : dictionary D) (ps : List Patch) (k : Nat) (bf : PtrList PF) :
    ((∀ j p, ps[j]? = some p →
        ¬ (PtrList.isSet bf (k + j) = false ∧ p.type ≠ emptyPolyPatch.typeName
          ∧ dict.found p.name = true ∧ dict.isDict p.name = false)) ∧
      (ps.enumFrom k).foldlM (readField.wildcardOverrideAborting tbl field dict) bf
        = Except.ok ((ps.enumFrom k).foldl (readField.wildcardOverride tbl field dict) bf)) ∨
    (∃ j p, ps[j]? = some p ∧ PtrList.isSet bf (k + j) = false
      ∧ p.type ≠ emptyPolyPatch.typeName ∧ dict.found p.name = true
      ∧ dict.isDict p.name = false ∧
      (ps.enumFrom k).foldlM (readField.wildcardOverrideAborting tbl field dict) bf
        = Except.error (FatalError.subDictAbort p.name)) := by
  induction ps generalizing k bf with
  | nil =>
    left
    refine ⟨fun j p hp => ?_, rfl⟩
    simp at hp
  | cons a ps ih =>
    rw [List.enumFrom_cons, List.foldlM_cons, List.foldl_cons,
      readField.wildcardOverrideAborting_eq]
    by_cases hbad : PtrList.isSet bf k = false ∧ a.type ≠ emptyPolyPatch.typeName
        ∧ dict.found a.name = true ∧ dict.isDict a.name = false
    · right
      refine ⟨0, a, by simp, hbad.1, hbad.2.1, hbad.2.2.1, hbad.2.2.2, ?_⟩
      rw [if_pos hbad]
      rfl
    · rw [if_neg hbad]
      have hset : ∀ j, PtrList.isSet (readField.wildcardOverride tbl field dict bf (k, a))
          (k + 1 + j) = PtrList.isSet bf (k + (j + 1)) := by
        intro j
        unfold PtrList.isSet
        rw [(readField.wildcardOverride_ptr tbl field dict bf k a (k + 1 + j)).2,
          if_neg (by omega)]
        congr 2
        omega
      rcases ih (k + 1) (readField.wildcardOverride tbl field dict bf (k, a)) with
        ⟨hno, hok⟩ | ⟨j, p, hp, h1, h2, h3, h4, herr⟩
      · left
        refine ⟨fun j p hp => ?_, hok⟩
        cases j with
        | zero =>
          simp only [List.getElem?_cons_zero, Option.some.injEq] at hp
          subst hp
          exact hbad
        | succ j =>
          simp only [List.getElem?_cons_succ] at hp
          have := hno j p hp
          rw [hset j] at this
          exact this
      · right
        refine ⟨j + 1, p, by simpa using hp, ?_, h2, h3, h4, herr⟩
        rw [← hset j]
        exact h1

/-- `readField` with the abort is `readField`, unless it ends in the abort -/
theorem readFieldAborting_eq_or_abort (tbl : PatchFieldTable F D PF) (bm : BoundaryMesh)
    (field : F) (dict : dictionary D) (self : PtrList PF) :
    readFieldAborting tbl bm field dict self = readField tbl bm field dict self ∨
    ∃ keyword, readFieldAborting tbl bm field dict self
      = Except.error (FatalError.subDictAbort keyword) := by
  unfold readFieldAborting readField
  cases h1 : readField.step1 tbl bm field dict self with
  | error e => exact Or.inl rfl
  | ok st1 =>
    obtain ⟨bf1, n⟩ := st1
    simp only []
    by_cases hn : n = 0
    · rw [if_pos hn, if_pos hn]
      exact Or.inl rfl
    · rw [if_neg hn, if_neg hn]
      cases h2 : readField.step2 tbl bm field dict bf1 with
      | error e => exact Or.inl rfl
      | ok bf2 =>
        simp only []
        unfold readField.step3Aborting
        rcases readField.step3Aborting_fold tbl field dict bm.patches 0 bf2 with
          ⟨_, hok⟩ | ⟨j, p, _, _, _, _, _, herr⟩
        · left
          unfold List.enum
          rw [hok]
          rfl
        · right
          unfold List.enum
          rw [herr]
          exact ⟨p.name, rfl⟩

/-- what is proved of `readField` when it returns, or when it raises an
unresolved-patch error, holds of `readField` with the abort under the same
condition -/
theorem readFieldAborting_transfer (tbl : PatchFieldTable F D PF) (bm : BoundaryMesh)
    (field : F) (dict : dictionary D) (self : PtrList PF) :
    (∀ bf, readFieldAborting tbl bm field dict self = Except.ok bf →
      readField tbl bm field dict self = Except.ok bf) ∧
    (∀ err, readFieldAborting tbl bm field dict self = Except.error err →
      err.isUnresolvedPatch = true → readField tbl bm field dict self = Except.error err) := by
  rcases readFieldAborting_eq_or_abort tbl bm field dict self with h | ⟨k, h⟩
  · rw [h]
    exact ⟨fun _ hb => hb, fun _ he _ => he⟩
  · rw [h]
    refine ⟨fun _ hb => (by cases hb), fun err he hu => ?_⟩
    cases he
    cases hu

/-- C5, amended: with the abort of `dict.subDict` in step 3. A patch is left to the
lookup under its name when (i) no non-pattern sub-dictionary entry names it,
(ii) none matches it through `findIndices` with patch groups and (iii) it is
not of the empty type. `readField` raises the unresolved-patch fatal error if
and only if some such patch has (iv) `dict.found(name)` false and no such
patch has under its name an entry that `dict.found` reports and that is not a
sub-dictionary. When some such patch has an entry of that kind, `readField`
ends in the abort of `dict.subDict` for such a patch, whatever else is
unresolved. When every such patch has a sub-dictionary found under its name,
`readField` returns and each of them is given the patch field built from
`dict.subDict(name)`. -/
theorem readFieldAborting_unresolved_iff (tbl : PatchFieldTable F D PF) (bm : BoundaryMesh)
    (field : F) (dict : dictionary D) (self : PtrList PF) (hv : bm.valid)
    (hk : dict.keysDistinct) :
    ((∃ err, readFieldAborting tbl bm field dict self = Except.error err
        ∧ err.isUnresolvedPatch = true)
      ↔ ((∃ (i : Nat) (p : Patch), readField.leftToNameLookup bm dict i p
            ∧ dict.found p.name = false) ∧
          ∀ (i : Nat) (p : Patch), readField.leftToNameLookup bm dict i p →
            dict.found p.name = true → dict.isDict p.name = true)) ∧
    ((∃ (i : Nat) (p : Patch), readField.leftToNameLookup bm dict i p
          ∧ dict.found p.name = true ∧ dict.isDict p.name = false) →
      ∃ (i : Nat) (p : Patch), readField.leftToNameLookup bm dict i p
        ∧ dict.found p.name = true ∧ dict.isDict p.name = false
        ∧ readFieldAborting tbl bm field dict self
          = Except.error (FatalError.subDictAbort p.name)) ∧
    ((∀ (i : Nat) (p : Patch), readField.leftToNameLookup bm dict i p →
          dict.found p.name = true ∧ dict.isDict p.name = true) →
      ∃ bf, readFieldAborting tbl bm field dict self = Except.ok bf ∧
        ∀ (i : Nat) (p : Patch), readField.leftToNameLookup bm dict i p →
          PtrList.ptr bf i = some (tbl.New p field (dict.subDict p.name))) := by
  obtain ⟨bf1, n, h1, hlen1, hset1, hn0⟩ := readField.step1_analysis tbl bm field dict self hv hk
  obtain ⟨bf2, h2, hlen2, hkeep, hnone2⟩ := readField.step2_analysis tbl bm field dict bf1 hv hlen1
  obtain ⟨hOiff, hOok⟩ :=
    readField.unresolved_iff_of_subDict_returning tbl bm field dict self hv hk
  -- the slots left empty by steps 1 and 2
  have h1set : ∀ i, PtrList.isSet bf1 i = false ↔
      (∀ e ∈ dict.entries, ∀ d, e.dictPtr = some d → e.isPattern = false →
          bm.findPatchID e.keyword ≠ (i : Int)) := by
    intro i
    constructor
    · intro hs e he d hd hpat hf
      have := (hset1 i).2 ((readField.mem_hits_iff bm hv dict.entries i).2
        ⟨e, he, d, hd, hpat, hf⟩)
      rw [hs] at this
      cases this
    · intro hall
      cases hs : PtrList.isSet bf1 i with
      | false => rfl
      | true =>
        obtain ⟨e, he, d, hd, hpat, hf⟩ :=
          (readField.mem_hits_iff bm hv dict.entries i).1 ((hset1 i).1 hs)
        exact absurd hf (hall e he d hd hpat)
  have h2set : ∀ i, PtrList.isSet bf2 i = false ↔
      ((∀ e ∈ dict.entries, ∀ d, e.dictPtr = some d → e.isPattern = false →
          bm.findPatchID e.keyword ≠ (i : Int)) ∧
        (∀ e ∈ dict.entries, ∀ d, e.dictPtr = some d → e.isPattern = false →
          i ∉ bm.findIndices e.keyword true)) := by
    intro i
    rw [PtrList.isSet_eq_false_iff, hnone2 i, ← PtrList.isSet_eq_false_iff, h1set i]
    constructor
    · exact fun h => ⟨h.1, fun e he => (readField.groupDict_eq_none bm i e).1 (h.2 e he)⟩
    · exact fun h => ⟨h.1, fun e he => (readField.groupDict_eq_none bm i e).2 (h.2 e he)⟩
  have hleft : ∀ i p, readField.leftToNameLookup bm dict i p →
      PtrList.isSet bf2 i = false ∧ n ≠ 0 := by
    intro i p hU
    refine ⟨(h2set i).2 ⟨hU.2.1, hU.2.2.1⟩, fun hc => ?_⟩
    have hlt : i < bm.patches.length := by
      by_contra hge
      have hp := hU.1
      rw [List.getElem?_eq_none (Nat.le_of_not_lt hge)] at hp
      cases hp
    have hs := hn0.1 hc i hlt
    rw [(h1set i).2 hU.2.1] at hs
    cases hs
  have hrun : readFieldAborting tbl bm field dict self
      = if n = 0 then Except.ok bf1
        else match readField.step3Aborting tbl bm field dict bf2 with
          | Except.error err => Except.error err
          | Except.ok bf3 =>
            match readField.checkUnset bf3 bm.patches.enum with
            | Except.error err => Except.error err
            | Except.ok _ => Except.ok bf3 := by
    unfold readFieldAborting
    rw [h1]
    simp only []
    rw [h2]
    try rfl
  have hrun0 := readField.unfold_ok tbl bm field dict self bf1 bf2 n h1 h2
  have hexists : (∃ (i : Nat) (p : Patch), readField.leftToNameLookup bm dict i p
        ∧ dict.found p.name = false)
      ↔ ∃ (i : Nat) (p : Patch), bm.patches[i]? = some p ∧
          (∀ e ∈ dict.entries, ∀ d, e.dictPtr = some d → e.isPattern = false →
            bm.findPatchID e.keyword ≠ (i : Int)) ∧
          (∀ e ∈ dict.entries, ∀ d, e.dictPtr = some d → e.isPattern = false →
            i ∉ bm.findIndices e.keyword true) ∧
          p.type ≠ emptyPolyPatch.typeName ∧ dict.found p.name = false := by
    constructor
    · rintro ⟨i, p, hU, hf⟩
      exact ⟨i, p, hU.1, hU.2.1, hU.2.2.1, hU.2.2.2, hf⟩
    · rintro ⟨i, p, ha, hb, hc, hd, hf⟩
      exact ⟨i, p, ⟨ha, hb, hc, hd⟩, hf⟩
  by_cases hn : n = 0
  · rw [if_pos hn] at hrun
    refine ⟨⟨?_, ?_⟩, ?_, ?_⟩
    · rintro ⟨err, herr, _⟩
      rw [hrun] at herr
      cases herr
    · rintro ⟨⟨i, p, hU, _⟩, _⟩
      exact absurd hn (hleft i p hU).2
    · rintro ⟨i, p, hU, _⟩
      exact absurd hn (hleft i p hU).2
    · intro _
      exact ⟨bf1, hrun, fun i p hU => absurd hn (hleft i p hU).2⟩
  · rw [if_neg hn] at hrun hrun0
    unfold readField.step3Aborting List.enum at hrun
    rcases readField.step3Aborting_fold tbl field dict bm.patches 0 bf2 with
      ⟨hno, hok⟩ | ⟨j, q, hq, hb1, hb2, hb3, hb4, herr⟩
    · -- no abort: the run is the run of `readField`
      rw [hok] at hrun
      have hsame : readFieldAborting tbl bm field dict self
          = readField tbl bm field dict self := by
        rw [hrun, hrun0]
        rfl
      have hdict : ∀ (i : Nat) (p : Patch), readField.leftToNameLookup bm dict i p →
          dict.found p.name = true → dict.isDict p.name = true := by
        intro i p hU hf
        cases hd : dict.isDict p.name with
        | true => rfl
        | false =>
          exfalso
          refine hno i p hU.1 ⟨?_, hU.2.2.2, hf, hd⟩
          rw [Nat.zero_add]
          exact (hleft i p hU).1
      rw [hsame]
      refine ⟨?_, ?_, ?_⟩
      · rw [hOiff, ← hexists]
        exact ⟨fun h => ⟨h, hdict⟩, fun h => h.1⟩
      · rintro ⟨i, p, hU, hf, hd⟩
        rw [hdict i p hU hf] at hd
        cases hd
      · intro hall
        have hnone : ¬ ∃ (i : Nat) (p : Patch), bm.patches[i]? = some p ∧
            (∀ e ∈ dict.entries, ∀ d, e.dictPtr = some d → e.isPattern = false →
              bm.findPatchID e.keyword ≠ (i : Int)) ∧
            (∀ e ∈ dict.entries, ∀ d, e.dictPtr = some d → e.isPattern = false →
              i ∉ bm.findIndices e.keyword true) ∧
            p.type ≠ emptyPolyPatch.typeName ∧ dict.found p.name = false := by
          rw [← hexists]
          rintro ⟨i, p, hU, hf⟩
          rw [(hall i p hU).1] at hf
          cases hf
        obtain ⟨bf, hbf, hslots⟩ := hOok hnone
        exact ⟨bf, hbf, fun i p hU => hslots i p hU.1 hU.2.1 hU.2.2.1 hU.2.2.2⟩
    · -- the abort
      rw [herr] at hrun
      simp only [] at hrun
      have hUq : readField.leftToNameLookup bm dict j q := by
        rw [Nat.zero_add] at hb1
        exact ⟨hq, ((h2set j).1 hb1).1, ((h2set j).1 hb1).2, hb2⟩
      refine ⟨⟨?_, ?_⟩, ?_, ?_⟩
      · rintro ⟨err, he, hu⟩
        rw [hrun] at he
        cases he
        cases hu
      · rintro ⟨_, hall⟩
        rw [hall j q hUq hb3] at hb4
        cases hb4
      · intro _
        exact ⟨j, q, hUq, hb3, hb4, hrun⟩
      · intro hall
        rw [(hall j q hUq).2] at hb4
        cases hb4

end

theorem exampleDictPrimitiveWalls_keysDistinct : exampleDictPrimitiveWalls.keysDistinct := by
  unfold dictionary.keysDistinct
  decide

/-- C5, as stated, fails when the name of a patch is the keyword of a primitive
entry. With the entries `inlet { .. }`, `openings { .. }` and `walls 0;` and
the boundary with a cyclic pair, the patch `left` has (i) to (iv), but
`readField` ends in the abort of `dict.subDict("walls")` in step 3 and the
unresolved-patch error of step 4 is not raised. With the same entries and the
boundary of the small case no patch has (i) to (iv), but `readField` does not
return either: the patch `walls` is not configured from the entry found under
its name, `dict.subDict("walls")` aborts. -/
theorem readFieldAborting_primitive_entry_aborts :
    exampleCyclicMesh.valid ∧ exampleMesh.valid ∧ exampleDictPrimitiveWalls.keysDistinct ∧
    readFieldAborting exampleTable exampleCyclicMesh () exampleDictPrimitiveWalls []
      = Except.error (FatalError.subDictAbort "walls") ∧
    (FatalError.subDictAbort "walls").isUnresolvedPatch = false ∧
    (∃ (i : Nat) (p : Patch), exampleCyclicMesh.patches[i]? = some p ∧
      (∀ e ∈ exampleDictPrimitiveWalls.entries, ∀ d, e.dictPtr = some d → e.isPattern = false →
        exampleCyclicMesh.findPatchID e.keyword ≠ (i : Int)) ∧
      (∀ e ∈ exampleDictPrimitiveWalls.entries, ∀ d, e.dictPtr = some d → e.isPattern = false →
        i ∉ exampleCyclicMesh.findIndices e.keyword true) ∧
      p.type ≠ emptyPolyPatch.typeName ∧ exampleDictPrimitiveWalls.found p.name = false) ∧
    readFieldAborting exampleTable exampleMesh () exampleDictPrimitiveWalls []
      = Except.error (FatalError.subDictAbort "walls") ∧
    (¬ ∃ (i : Nat) (p : Patch), exampleMesh.patches[i]? = some p ∧
      (∀ e ∈ exampleDictPrimitiveWalls.entries, ∀ d, e.dictPtr = some d → e.isPattern = false →
        exampleMesh.findPatchID e.keyword ≠ (i : Int)) ∧
      (∀ e ∈ exampleDictPrimitiveWalls.entries, ∀ d, e.dictPtr = some d → e.isPattern = false →
        i ∉ exampleMesh.findIndices e.keyword true) ∧
      p.type ≠ emptyPolyPatch.typeName ∧ exampleDictPrimitiveWalls.found p.name = false) ∧
    exampleDictPrimitiveWalls.found "walls" = true ∧
    exampleDictPrimitiveWalls.isDict "walls" = false :=
  ⟨BoundaryMesh.ofPatches_valid _, BoundaryMesh.ofPatches_valid _,
    exampleDictPrimitiveWalls_keysDistinct, rfl, rfl,
    (readField.unresolved_iff_of_subDict_returning exampleTable exampleCyclicMesh ()
      exampleDictPrimitiveWalls [] (BoundaryMesh.ofPatches_valid _)
      exampleDictPrimitiveWalls_keysDistinct).1.1
      ⟨FatalError.cannotFindCyclic "left", rfl, rfl⟩,
    rfl,
    (fun h => by
      obtain ⟨err, herr, _⟩ :=
        (readField.unresolved_iff_of_subDict_returning exampleTable exampleMesh ()
          exampleDictPrimitiveWalls [] (BoundaryMesh.ofPatches_valid _)
          exampleDictPrimitiveWalls_keysDistinct).1.2 h
      have hr : readField exampleTable exampleMesh () exampleDictPrimitiveWalls []
          = Except.ok [some ("inlet", "fixedValue"), some ("outlet", "zeroGradient"),
              some ("walls", "none"), some ("frontAndBack", "empty")] := rfl
      rw [hr] at herr
      cases herr),
    rfl, rfl⟩

/-- Witness of C5 (amended): without the wildcard entry and without primitive
entries, patch `walls` is named by no entry, belongs to no group, is not empty
and is not found, and `readField` fails with the unresolved-patch error. -/
theorem readFieldAborting_unresolved_iff_witness :
    exampleMesh.valid ∧ exampleDictNoWildcard.keysDistinct ∧
    readFieldAborting exampleTable exampleMesh () exampleDictNoWildcard []
      = Except.error (FatalError.cannotFind "walls") ∧
    ((∃ (i : Nat) (p : Patch), readField.leftToNameLookup exampleMesh exampleDictNoWildcard i p
        ∧ exampleDictNoWildcard.found p.name = false) ∧
      ∀ (i : Nat) (p : Patch), readField.leftToNameLookup exampleMesh exampleDictNoWildcard i p →
        exampleDictNoWildcard.found p.name = true →
        exampleDictNoWildcard.isDict p.name = true) :=
  ⟨BoundaryMesh.ofPatches_valid _, exampleDictNoWildcard_keysDistinct, rfl,
    (readFieldAborting_unresolved_iff exampleTable exampleMesh () exampleDictNoWildcard []
      (BoundaryMesh.ofPatches_valid _) exampleDictNoWildcard_keysDistinct).1.1
      ⟨FatalError.cannotFind "walls", rfl, rfl⟩⟩

end Foam
